import Mathlib

/-!
Verification model of the DAObet RANDPA finality gadget core.

The definitions below are a shallow embedding of the two source files
`src/plugins/randpa_plugin/include/eosio/randpa_plugin/randpa.hpp`
(the round-manager engine, C++ class `randpa`) and the round state machine
(C++ class `randpa_round` in `round.hpp`).

Modelling conventions:
* machine integers are `Nat`; the two places where C++ `uint32_t` wrap-around
  arithmetic matters (`get_block_num(x) - 1` and the finality-lag subtraction)
  use an explicit 32-bit wrapping subtraction `u32sub`;
* a signature provider is identified with the public key it signs with, and
  `public_keys()` (key recovery from signatures) is modelled by storing the
  recovered key list directly in each message;
* the dedup digest of a message (`digest_type::hash`) is modelled by the
  message value itself (an ideal, collision-free hash), and the two bounded
  LRU caches (boost code, outside this repository) are modelled as lists of
  digests with insertion and membership; capacity eviction is abstracted away;
* `FC_ASSERT` failures and null-pointer dereferences are modelled by `Option`:
  a handler returns `none` exactly when the C++ code would abort;
* the prefix tree (`prefix_chain_tree.hpp`) is not among the given source
  files and is modelled from the specification, see `prefix_tree` below.
-/

set_option linter.unusedVariables false

namespace RandpaModel

/-- Block identifier: an opaque hash that embeds a monotonic block number in
its leading bits (`get_block_num` reads the number); `salt` stands for the
rest of the hash, so distinct blocks may share a block number (forks). -/
structure block_id_type where
  num : Nat
  salt : Nat
deriving DecidableEq, Repr

/-- Public keys, abstracted to naturals. -/
abbrev public_key_type := Nat

/-- Modulus of C++ `uint32_t` arithmetic. -/
def u32 : Nat := 4294967296

/-- Reads the 32-bit block number embedded in a block id. -/
def get_block_num (b : block_id_type) : Nat := b.num % u32

/-- 32-bit wrapping subtraction, as C++ `uint32_t` subtraction. -/
def u32sub (a b : Nat) : Nat := (a % u32 + u32 - b % u32) % u32

/-- Payload of a prevote: round number, in-tree anchor block and the forward
path of blocks being voted for (network_messages.hpp `prevote_type`). -/
structure prevote_type where
  round_num : Nat
  base_block : block_id_type
  blocks : List block_id_type
deriving DecidableEq, Repr

/-- A prevote message: payload plus the public keys recovered from its
signatures (`msg.public_keys()`). -/
structure prevote_msg where
  data : prevote_type
  public_keys : List public_key_type
deriving DecidableEq, Repr

/-- Payload of a precommit: round number and the block being finalized. -/
structure precommit_type where
  round_num : Nat
  block_id : block_id_type
deriving DecidableEq, Repr

/-- A precommit message: payload plus recovered public keys. -/
structure precommit_msg where
  data : precommit_type
  public_keys : List public_key_type
deriving DecidableEq, Repr

/-- The finality certificate (`proof_type`): round number, best block and the
collected prevote and precommit messages. -/
structure proof_type where
  round_num : Nat
  best_block : block_id_type
  prevotes : List prevote_msg
  precommits : List precommit_msg
deriving DecidableEq, Repr

/-- Payload of a finality notice: round and newly finalized best block. -/
structure finality_notice_type where
  round_num : Nat
  best_block : block_id_type
deriving DecidableEq, Repr

/-- A finality-notice message. -/
structure finality_notice_msg where
  data : finality_notice_type
  public_keys : List public_key_type
deriving DecidableEq, Repr

/-- Payload of a proof request: the round whose proof is wanted. -/
structure finality_req_proof_type where
  round_num : Nat
deriving DecidableEq, Repr

/-- A finality-req-proof message. -/
structure finality_req_proof_msg where
  data : finality_req_proof_type
  public_keys : List public_key_type
deriving DecidableEq, Repr

/-- A proof message: a finality certificate plus the sender's keys. -/
structure proof_msg where
  data : proof_type
  public_keys : List public_key_type
deriving DecidableEq, Repr

/-- Handshake payload: the sender's last irreversible block. -/
structure handshake_type where
  lib : block_id_type
deriving DecidableEq, Repr

/-- A handshake message. -/
structure handshake_msg where
  data : handshake_type
  public_keys : List public_key_type
deriving DecidableEq, Repr

/-- Handshake-answer payload. -/
structure handshake_ans_type where
  lib : block_id_type
deriving DecidableEq, Repr

/-- A handshake-answer message. -/
structure handshake_ans_msg where
  data : handshake_ans_type
  public_keys : List public_key_type
deriving DecidableEq, Repr

/-!
## Prefix tree

Modelled from the spec: `prefix_chain_tree.hpp` is not among the given source
files; sections 3 and 4.1 of the specification define the node attributes and
the operations `find`, `insert`, `add_confirmations`, `get_branch`,
`get_last_inserted_block`, `get_head`, `set_root`, `remove_confirmations`
and the aggregation `confirmation_number`.

The tree is represented flat: a list of nodes in insertion order, each node
carrying a parent pointer (`none` for the root). Recursive aggregations
(`confirmation_number`, depth, ancestor walks) use the node count as fuel,
which suffices on every acyclic tree.
-/

/-- Modelled from the spec: one prefix-tree node (block id, creator key,
active-BP key set, per-voter prevote confirmations) plus a parent pointer. -/
structure tree_node where
  block_id : block_id_type
  parent : Option block_id_type
  creator_key : public_key_type
  active_bp_keys : Finset public_key_type
  confirmation_data : List (public_key_type × prevote_msg)
deriving DecidableEq

/-- Modelled from the spec: the prefix-chain tree, nodes in insertion order. -/
structure prefix_tree where
  nodes : List tree_node
deriving DecidableEq

namespace prefix_tree

/-- Modelled from the spec: `find(block_id)` looks a node up by id. -/
def find (t : prefix_tree) (b : block_id_type) : Option tree_node :=
  t.nodes.find? (fun n => decide (n.block_id = b))

/-- Modelled from the spec: the tree root is the unique parentless node. -/
def get_root (t : prefix_tree) : Option tree_node :=
  t.nodes.find? (fun n => decide (n.parent = none))

/-- Helper for `insert`: append each block of the path under the current
parent, skipping blocks already present ("inserting an already-present child
is a no-op"). -/
def insert_blocks (t : prefix_tree) (cur : block_id_type) (creator : public_key_type)
    (keys : Finset public_key_type) : List block_id_type → prefix_tree
  | [] => t
  | b :: rest =>
    if (find t b).isSome then insert_blocks t b creator keys rest
    else insert_blocks ⟨t.nodes ++ [⟨b, some cur, creator, keys, []⟩]⟩ b creator keys rest

/-- Modelled from the spec: `insert(chain, creator, keys)` fails with
`NodeNotFound` (here `none`) when the chain's base block is absent. -/
def insert (t : prefix_tree) (base : block_id_type) (blocks : List block_id_type)
    (creator : public_key_type) (keys : Finset public_key_type) : Option prefix_tree :=
  if (find t base).isSome then some (insert_blocks t base creator keys blocks) else none

/-- Scan `blocks` from tail toward head for the deepest in-tree block; if none
matches, look up `base`. This is both `randpa_round::find_last_node` (round.hpp)
and the node-selection scan of the spec's `add_confirmations`. -/
def find_last_node (t : prefix_tree) (base : block_id_type)
    (blocks : List block_id_type) : Option tree_node :=
  match blocks.reverse.find? (fun b => (find t b).isSome) with
  | some b => find t b
  | none => find t base

/-- A node with `confirmation_data[key] = msg` recorded if absent
(first-write-wins). -/
def confirmed_node (nd : tree_node) (key : public_key_type) (msg : prevote_msg) :
    tree_node :=
  if (nd.confirmation_data.find? (fun p => decide (p.1 = key))).isSome then nd
  else { nd with confirmation_data := nd.confirmation_data ++ [(key, msg)] }

/-- Modelled from the spec: `add_confirmations` finds the deepest in-tree node
of the prevote's path, records `confirmation_data[key] = msg` there if absent
(first-write-wins), and returns the updated node. -/
def add_confirmations (t : prefix_tree) (base : block_id_type)
    (blocks : List block_id_type) (key : public_key_type) (msg : prevote_msg) :
    Option (prefix_tree × tree_node) :=
  match find_last_node t base blocks with
  | none => none
  | some nd =>
    some (⟨t.nodes.map (fun n => if n.block_id = nd.block_id
            then { n with confirmation_data := (confirmed_node nd key msg).confirmation_data }
            else n)⟩, confirmed_node nd key msg)

/-- Children of a node: the nodes whose parent pointer names it. -/
def children (t : prefix_tree) (b : block_id_type) : List tree_node :=
  t.nodes.filter (fun n => decide (n.parent = some b))

/-- Fuel-bounded subtree confirmation count. -/
def confirmation_number_aux (t : prefix_tree) : Nat → block_id_type → Nat
  | 0, _ => 0
  | fuel + 1, b =>
    match find t b with
    | none => 0
    | some nd =>
      nd.confirmation_data.length +
        ((children t b).map (fun c => confirmation_number_aux t fuel c.block_id)).sum

/-- Modelled from the spec: `confirmation_number(N)` is the number of direct
confirmations on `N` plus the confirmation numbers of its children. -/
def confirmation_number (t : prefix_tree) (b : block_id_type) : Nat :=
  confirmation_number_aux t t.nodes.length b

/-- Modelled from the spec: `remove_confirmations` clears `confirmation_data`
on every node. -/
def remove_confirmations (t : prefix_tree) : prefix_tree :=
  ⟨t.nodes.map (fun n => { n with confirmation_data := [] })⟩

/-- Fuel-bounded walk from a block up to the root collecting the branch. -/
def get_branch_aux (t : prefix_tree) :
    Nat → block_id_type → Option (block_id_type × List block_id_type)
  | 0, _ => none
  | fuel + 1, b =>
    match find t b with
    | none => none
    | some nd =>
      match nd.parent with
      | none => some (b, [])
      | some p =>
        match get_branch_aux t fuel p with
        | none => none
        | some (base, blks) => some (base, blks ++ [b])

/-- Modelled from the spec: `get_branch(block_id)` returns the base block (the
root) and the path from the child of the root down to `block_id`. -/
def get_branch (t : prefix_tree) (b : block_id_type) :
    Option (block_id_type × List block_id_type) :=
  get_branch_aux t t.nodes.length b

/-- Modelled from the spec: the most recently inserted node with the given
creator key. -/
def get_last_inserted_block (t : prefix_tree) (creator : public_key_type) :
    Option tree_node :=
  t.nodes.reverse.find? (fun n => decide (n.creator_key = creator))

/-- Fuel-bounded depth of a node (length of its ancestor chain). -/
def depth_aux (t : prefix_tree) : Nat → block_id_type → Nat
  | 0, _ => 0
  | fuel + 1, b =>
    match find t b with
    | none => 0
    | some nd =>
      match nd.parent with
      | none => 0
      | some p => depth_aux t fuel p + 1

/-- Modelled from the spec: `get_head` is the deepest node; on ties the first
inserted wins. -/
def get_head (t : prefix_tree) : Option tree_node :=
  t.nodes.foldl (fun best n =>
    match best with
    | none => some n
    | some m =>
      if depth_aux t t.nodes.length n.block_id > depth_aux t t.nodes.length m.block_id
      then some n else some m) none

/-- Fuel-bounded test whether walking parent pointers from `b` reaches
`target`. -/
def reaches_aux (t : prefix_tree) (target : block_id_type) :
    Nat → block_id_type → Bool
  | 0, _ => false
  | fuel + 1, b =>
    if b = target then true
    else
      match find t b with
      | none => false
      | some nd =>
        match nd.parent with
        | none => false
        | some p => reaches_aux t target fuel p

/-- Modelled from the spec: `set_root(node)` prunes all branches not containing
the node and makes it the new root; if the block is absent the tree is replaced
by a single fresh root at that id. -/
def set_root (t : prefix_tree) (target : block_id_type) : prefix_tree :=
  match find t target with
  | some nd =>
    ⟨{ nd with parent := none } ::
      t.nodes.filter (fun n =>
        decide (¬ n.block_id = target) && reaches_aux t target t.nodes.length n.block_id)⟩
  | none => ⟨[⟨target, none, 0, ∅, []⟩]⟩

end prefix_tree

/-!
## Round state machine

Translated from the source round.hpp (C++ class `randpa_round`).
The shared prefix tree is threaded explicitly: a round operation takes the
tree and returns the updated tree. `best_node` (a shared pointer into the
tree in C++) is modelled as a snapshot of the pointed-to node that is kept in
sync by `add_prevote` whenever the target of `add_confirmations` is the best
node, which reproduces the C++ aliasing on every path the round itself can
take. Broadcast callbacks are modelled by returning the list of messages the
round hands to its bcaster closures, and the completion callback `done_cb`
(wired to the engine's `finish_round`) is modelled by returning the proof
snapshot taken at the moment the callback fires.
-/

/-- Round states (round.hpp `randpa_round::state_type`). -/
inductive state_type where
  | init
  | prevote
  | ready_to_precommit
  | precommit
  | done
  | fail
deriving DecidableEq, Repr

/-- Snapshot of the node pointed to by the round's `best_node` shared pointer. -/
structure best_node_info where
  block_id : block_id_type
  active_bp_keys : Finset public_key_type
  confirmation_data : List (public_key_type × prevote_msg)
deriving DecidableEq

/-- The per-round state (round.hpp `randpa_round` data members). -/
structure randpa_round where
  num : Nat
  primary : public_key_type
  state : state_type
  proof : proof_type
  best_node : Option best_node_info
  signature_providers : List public_key_type
  prevoted_keys : Finset public_key_type
  precommited_keys : Finset public_key_type
deriving DecidableEq

namespace randpa_round

/-- Snapshot view of a tree node, used for `best_node`. -/
def snapshot (nd : tree_node) : best_node_info :=
  ⟨nd.block_id, nd.active_bp_keys, nd.confirmation_data⟩

/-- round.hpp `is_prevote_threshold_reached`: strict comparison of the node's
subtree confirmation count against `2 * |active_bp_keys| / 3` in integer
(floor) arithmetic. -/
def is_prevote_threshold_reached (t : prefix_tree) (nd : tree_node) : Bool :=
  decide (prefix_tree.confirmation_number t nd.block_id > 2 * nd.active_bp_keys.card / 3)

/-- round.hpp `is_precommit_threshold_reached`: counts the entries of the
`proof.precommits` vector against `2 * |active_bp_keys(best_node)| / 3`;
`none` models the null dereference when `best_node` is unset. -/
def is_precommit_threshold_reached (r : randpa_round) : Option Bool :=
  match r.best_node with
  | none => none
  | some bn => some (decide (r.proof.precommits.length > 2 * bn.active_bp_keys.card / 3))

/-- round.hpp `validate_prevote` (round-number, duplicate-voter, known-block
and active-BP checks for a single recovered key). -/
def validate_prevote (t : prefix_tree) (r : randpa_round) (data : prevote_type)
    (key : public_key_type) : Bool :=
  if ¬ r.num = data.round_num then false
  else if key ∈ r.prevoted_keys then false
  else
    match prefix_tree.find_last_node t data.base_block data.blocks with
    | none => false
    | some nd => decide (key ∈ nd.active_bp_keys)

/-- round.hpp `validate_precommit`; `none` models the null dereference of
`best_node` when the first two checks pass with no best node set. -/
def validate_precommit (r : randpa_round) (data : precommit_type)
    (key : public_key_type) : Option Bool :=
  if ¬ r.num = data.round_num then some false
  else if key ∈ r.precommited_keys then some false
  else
    match r.best_node with
    | none => none
    | some bn =>
      if ¬ data.block_id = bn.block_id then some false
      else some ((bn.confirmation_data.find? (fun p => decide (p.1 = key))).isSome)

/-- The round after recording voter `key` and syncing the `best_node`
snapshot when the confirmed node is the best node (pointer aliasing). -/
def prevote_recorded (r : randpa_round) (key : public_key_type) (nd : tree_node) :
    randpa_round :=
  { r with prevoted_keys := insert key r.prevoted_keys,
           best_node :=
             match r.best_node with
             | none => none
             | some bn => if bn.block_id = nd.block_id then some (snapshot nd) else some bn }

/-- round.hpp `add_prevote` for a single-key message: record the confirmation
in the tree, insert the voter into `prevoted_keys`, and when the round is not
yet `ready_to_precommit` test the prevote threshold at the returned node;
`none` models the `FC_ASSERT` when the confirmation is not insertable. -/
def add_prevote (t : prefix_tree) (r : randpa_round) (data : prevote_type)
    (key : public_key_type) : Option (prefix_tree × randpa_round) :=
  match prefix_tree.add_confirmations t data.base_block data.blocks key ⟨data, [key]⟩ with
  | none => none
  | some (t', nd) =>
    if ¬ r.state = state_type.ready_to_precommit ∧ is_prevote_threshold_reached t' nd then
      some (t', { prevote_recorded r key nd with
                  state := state_type.ready_to_precommit,
                  best_node := some (snapshot nd) })
    else
      some (t', prevote_recorded r key nd)

/-- The round after recording a precommit voter and appending the single-key
message to `proof.precommits`. -/
def precommit_recorded (r : randpa_round) (data : precommit_type)
    (key : public_key_type) : randpa_round :=
  { r with
    precommited_keys := insert key r.precommited_keys,
    proof := { r.proof with precommits := r.proof.precommits ++ [⟨data, [key]⟩] } }

/-- round.hpp `add_precommit` for a single-key message: record the voter,
append the message to `proof.precommits`, and if the state is not `done` and
the precommit threshold is reached, transition to `done` and fire `done_cb`
(the returned flag). -/
def add_precommit (r : randpa_round) (data : precommit_type)
    (key : public_key_type) : Option (randpa_round × Bool) :=
  if (precommit_recorded r data key).state = state_type.done then
    some (precommit_recorded r data key, false)
  else
    match is_precommit_threshold_reached (precommit_recorded r data key) with
    | none => none
    | some b =>
      if b then some ({ precommit_recorded r data key with state := state_type.done }, true)
      else some (precommit_recorded r data key, false)

/-- Loop body of round.hpp `on(const prevote_msg&)`: validate and add each
recovered key independently as a single-key message. -/
def on_prevote_keys (t : prefix_tree) (r : randpa_round) (data : prevote_type) :
    List public_key_type → Option (prefix_tree × randpa_round)
  | [] => some (t, r)
  | key :: rest =>
    if validate_prevote t r data key then
      match add_prevote t r data key with
      | none => none
      | some (t', r') => on_prevote_keys t' r' data rest
    else on_prevote_keys t r data rest

/-- round.hpp `on(const prevote_msg&)`: accepted only in states
`prevote` and `ready_to_precommit`. -/
def on_prevote (t : prefix_tree) (r : randpa_round) (m : prevote_msg) :
    Option (prefix_tree × randpa_round) :=
  if ¬ r.state = state_type.prevote ∧ ¬ r.state = state_type.ready_to_precommit then
    some (t, r)
  else on_prevote_keys t r m.data m.public_keys

/-- Loop body of round.hpp `on(const precommit_msg&)`; the `Option proof_type`
accumulator is the proof snapshot passed to `done_cb` at the moment the
precommit threshold fires. -/
def on_precommit_keys (r : randpa_round) (data : precommit_type)
    (fired : Option proof_type) :
    List public_key_type → Option (randpa_round × Option proof_type)
  | [] => some (r, fired)
  | key :: rest =>
    match validate_precommit r data key with
    | none => none
    | some false => on_precommit_keys r data fired rest
    | some true =>
      match add_precommit r data key with
      | none => none
      | some (r', f) =>
        on_precommit_keys r' data
          (if fired.isSome then fired else if f then some r'.proof else none) rest

/-- round.hpp `on(const precommit_msg&)`: accepted only in states
`ready_to_precommit` and `precommit`. -/
def on_precommit (r : randpa_round) (m : precommit_msg) :
    Option (randpa_round × Option proof_type) :=
  if ¬ r.state = state_type.precommit ∧ ¬ r.state = state_type.ready_to_precommit then
    some (r, none)
  else on_precommit_keys r m.data none m.public_keys

/-- Provider loop of round.hpp `prevote()`: inject one single-key prevote per
local signature provider directly through `add_prevote` (no validation). -/
def prevote_providers (t : prefix_tree) (r : randpa_round) (data : prevote_type) :
    List public_key_type → Option (prefix_tree × randpa_round)
  | [] => some (t, r)
  | k :: rest =>
    match add_prevote t r data k with
    | none => none
    | some (t', r') => prevote_providers t' r' data rest

/-- round.hpp `prevote()`: asserts state `init`, moves to `prevote`, queries
the branch of the primary's last inserted block (if absent: stay in `prevote`
with no broadcast), injects one prevote per provider and broadcasts a single
prevote carrying all providers. -/
def prevote_fn (t : prefix_tree) (r : randpa_round) :
    Option (prefix_tree × randpa_round × List prevote_msg) :=
  if ¬ r.state = state_type.init then none
  else
    match prefix_tree.get_last_inserted_block t r.primary with
    | none => some (t, { r with state := state_type.prevote }, [])
    | some last_node =>
      match prefix_tree.get_branch t last_node.block_id with
      | none => none
      | some (base, blks) =>
        match prevote_providers t { r with state := state_type.prevote }
            ⟨r.num, base, blks⟩ r.signature_providers with
        | none => none
        | some (t', r') => some (t', r', [⟨⟨r.num, base, blks⟩, r.signature_providers⟩])

/-- Provider loop of round.hpp `precommit()`: inject one single-key precommit
per provider directly through `add_precommit` (no validation); the proof
snapshot of the first `done_cb` firing is accumulated. -/
def precommit_providers (r : randpa_round) (data : precommit_type)
    (fired : Option proof_type) :
    List public_key_type → Option (randpa_round × Option proof_type)
  | [] => some (r, fired)
  | k :: rest =>
    match add_precommit r data k with
    | none => none
    | some (r', f) =>
      precommit_providers r' data
        (if fired.isSome then fired else if f then some r'.proof else none) rest

/-- Body of round.hpp `precommit()` once the best node is resolved: move to
`precommit`, inject one precommit over the best block per provider and
broadcast a single precommit carrying all providers. -/
def precommit_with (r : randpa_round) (bn : best_node_info) :
    Option (randpa_round × Option proof_type × List precommit_msg) :=
  match precommit_providers { r with state := state_type.precommit }
      ⟨r.num, bn.block_id⟩ none r.signature_providers with
  | none => none
  | some (r', fired) => some (r', fired, [⟨⟨r.num, bn.block_id⟩, r.signature_providers⟩])

/-- round.hpp `precommit()`: asserts state `ready_to_precommit` and
dereferences `best_node`. -/
def precommit_fn (r : randpa_round) :
    Option (randpa_round × Option proof_type × List precommit_msg) :=
  if ¬ r.state = state_type.ready_to_precommit then none
  else
    match r.best_node with
    | none => none
    | some bn => precommit_with r bn

/-- Body of round.hpp `end_prevote()` once the best node is resolved:
materialize the proof header, copy the best node's confirmations into
`proof.prevotes` and run `precommit()`. -/
def end_prevote_with (r : randpa_round) (bn : best_node_info) :
    Option (randpa_round × Option proof_type × List precommit_msg) :=
  precommit_fn { r with proof := { r.proof with
    round_num := r.num,
    best_block := bn.block_id,
    prevotes := r.proof.prevotes ++ bn.confirmation_data.map (fun p => p.2) } }

/-- round.hpp `end_prevote()`: if not `ready_to_precommit`, fail; otherwise
resolve the best node and run its body. -/
def end_prevote (r : randpa_round) :
    Option (randpa_round × Option proof_type × List precommit_msg) :=
  if ¬ r.state = state_type.ready_to_precommit then
    some ({ r with state := state_type.fail }, none, [])
  else
    match r.best_node with
    | none => none
    | some bn => end_prevote_with r bn

/-- round.hpp `finish()`: `true` exactly in state `done`; otherwise the round
is marked failed. -/
def finish (r : randpa_round) : randpa_round × Bool :=
  if ¬ r.state = state_type.done then ({ r with state := state_type.fail }, false)
  else (r, true)

/-- round.hpp constructor: initialize all members (state `init`, empty proof
and key sets) and call `prevote()` immediately. -/
def make (num : Nat) (primary : public_key_type) (t : prefix_tree)
    (sig_provs : List public_key_type) :
    Option (prefix_tree × randpa_round × List prevote_msg) :=
  prevote_fn t ⟨num, primary, state_type.init, ⟨0, ⟨0, 0⟩, [], []⟩, none, sig_provs, ∅, ∅⟩

end randpa_round

/-- Inputs a round object receives from the engine after construction. -/
inductive round_input where
  | prevote_in (m : prevote_msg)
  | precommit_in (m : precommit_msg)
  | end_prevote_in
  | finish_in
deriving DecidableEq

/-- One engine-driven transition of a round object (message dispatch,
`end_prevote`, `finish`), with the shared tree threaded through. -/
def round_step (t : prefix_tree) (r : randpa_round) :
    round_input → Option (prefix_tree × randpa_round)
  | .prevote_in m => randpa_round.on_prevote t r m
  | .precommit_in m =>
    match randpa_round.on_precommit r m with
    | none => none
    | some (r', _) => some (t, r')
  | .end_prevote_in =>
    match randpa_round.end_prevote r with
    | none => none
    | some (r', _, _) => some (t, r')
  | .finish_in => some (t, (randpa_round.finish r).1)

/-- Reachability of a round state through the round's own message-driven
transitions. -/
inductive round_reachable :
    prefix_tree × randpa_round → prefix_tree × randpa_round → Prop
  | refl (p : prefix_tree × randpa_round) : round_reachable p p
  | tail {p q : prefix_tree × randpa_round} (i : round_input)
      {t' : prefix_tree} {r' : randpa_round} :
      round_reachable p q → round_step q.1 q.2 i = some (t', r') →
      round_reachable p (t', r')

/-- Reachability of a round state including the public `set_state` setter,
which the engine calls with `done` after validating an external proof
(randpa.hpp `on(uint32_t, const proof_msg&)`). -/
inductive round_reachable_ext :
    prefix_tree × randpa_round → prefix_tree × randpa_round → Prop
  | refl (p : prefix_tree × randpa_round) : round_reachable_ext p p
  | tail {p q : prefix_tree × randpa_round} (i : round_input)
      {t' : prefix_tree} {r' : randpa_round} :
      round_reachable_ext p q → round_step q.1 q.2 i = some (t', r') →
      round_reachable_ext p (t', r')
  | set_state {p q : prefix_tree × randpa_round} (s : state_type) :
      round_reachable_ext p q →
      round_reachable_ext p (q.1, { q.2 with state := s })

/-!
## Round manager (engine)

Translated from the source randpa.hpp (C++ class `randpa`). The engine's
channel outputs (out-net sends and finality emissions) are returned as a list
of `out_msg`. The message-expiration check (`receive_time` against wall-clock
time) is a real-time concern outside the functional model: handlers model the
dispatch applied to a non-expired message. `check_is_valid_msg` only guards
against key-recovery exceptions, which cannot occur here because recovered
keys are carried in the message.
-/

/-- The union of RANDPA network message payloads (`randpa_net_msg_data`);
a value of this type also serves as its own dedup digest (ideal hash). -/
inductive net_msg_data where
  | prevote (m : prevote_msg)
  | precommit (m : precommit_msg)
  | finality_notice (m : finality_notice_msg)
  | finality_req_proof (m : finality_req_proof_msg)
  | proof (m : proof_msg)
  | handshake (m : handshake_msg)
  | handshake_ans (m : handshake_ans_msg)
deriving DecidableEq

/-- Observable engine outputs: out-net-channel sends and finality-channel
emissions. -/
inductive out_msg where
  | net (ses_id : Nat) (d : net_msg_data)
  | finality (b : block_id_type)
deriving DecidableEq

/-- Accepted-block event payload. -/
structure on_accepted_block_event where
  block_id : block_id_type
  prev_block_id : block_id_type
  creator_key : public_key_type
  active_bp_keys : Finset public_key_type
  sync : Bool
deriving DecidableEq

/-- Irreversible-block event payload. -/
structure on_irreversible_event where
  block_id : block_id_type
deriving DecidableEq

/-- New-peer event payload. -/
structure on_new_peer_event where
  ses_id : Nat
deriving DecidableEq

/-- Engine state (randpa.hpp `randpa` data members). `_sig_provs_by_key`
holds the keys registered in the provider map (a provider is identified with
its key); `_peers` is the peer table public key → session id. -/
structure randpa where
  _signature_providers : List public_key_type
  _public_keys : List public_key_type
  _sig_provs_by_key : List public_key_type
  _is_block_producer : Bool
  _prefix_tree : prefix_tree
  _round : Option randpa_round
  _lib : block_id_type
  _last_prooved_block_num : Nat
  _peers : List (public_key_type × Nat)
  _peer_messages : List net_msg_data
  _self_messages : List net_msg_data
  _last_proofs : List proof_type
  _is_syncing : Bool
  _is_frozen : Bool
deriving DecidableEq

/-- randpa.hpp `round_width`. -/
def round_width : Nat := 2

/-- randpa.hpp `prevote_width`. -/
def prevote_width : Nat := 1

/-- randpa.hpp `_proofs_cache_size`. -/
def proofs_cache_size : Nat := 2

/-- randpa.hpp `_max_finality_lag_blocks` (69 · 12 · 2 · 2). -/
def max_finality_lag_blocks : Nat := 69 * 12 * 2 * 2

/-- randpa.hpp `round_num`: `(block_num - 1) / round_width` in `uint32_t`
arithmetic. -/
def round_num_of (b : block_id_type) : Nat :=
  u32sub (get_block_num b) 1 / round_width

/-- randpa.hpp `num_in_round`: `(block_num - 1) % round_width` in `uint32_t`
arithmetic. -/
def num_in_round_of (b : block_id_type) : Nat :=
  u32sub (get_block_num b) 1 % round_width

namespace randpa

/-- randpa.hpp `bcast`: drop if the digest was already broadcast, otherwise
send to every peer in the peer table and record the digest. -/
def bcast (s : randpa) (d : net_msg_data) : randpa × List out_msg :=
  if d ∈ s._peer_messages then (s, [])
  else ({ s with _peer_messages := d :: s._peer_messages },
        s._peers.map (fun p => out_msg.net p.2 d))

/-- randpa.hpp `get_active_signature_providers`: the providers whose keys lie
in the given active-BP key set, in the set's (sorted) iteration order. -/
def get_active_signature_providers (s : randpa) (active : Finset public_key_type) :
    List public_key_type :=
  (active.sort (· ≤ ·)).filter (fun k => s._sig_provs_by_key.any (fun k2 => decide (k2 = k)))

/-- randpa.hpp `validate_prevote` (the engine-side pure check used by
`validate_proof`). -/
def validate_prevote (data : prevote_type) (key : public_key_type)
    (best_block : block_id_type) (bp_keys : Finset public_key_type) : Bool :=
  if ¬ data.base_block = best_block ∧ ¬ best_block ∈ data.blocks then false
  else if ¬ key ∈ bp_keys then false
  else true

/-- randpa.hpp `validate_precommit` (the engine-side pure check used by
`validate_proof`). -/
def validate_precommit (data : precommit_type) (key : public_key_type)
    (best_block : block_id_type) (bp_keys : Finset public_key_type) : Bool :=
  if ¬ data.block_id = best_block then false
  else if ¬ key ∈ bp_keys then false
  else true

/-- Inner key loop of `validate_proof` over one prevote: every recovered key
must pass `validate_prevote` and is collected; the first failure aborts. -/
def vp_prevote_keys (data : prevote_type) (best : block_id_type)
    (bp : Finset public_key_type) :
    List public_key_type → Finset public_key_type → Option (Finset public_key_type)
  | [], acc => some acc
  | k :: ks, acc =>
    if validate_prevote data k best bp then vp_prevote_keys data best bp ks (insert k acc)
    else none

/-- Prevote loop of `validate_proof`. -/
def vp_prevotes (best : block_id_type) (bp : Finset public_key_type) :
    List prevote_msg → Finset public_key_type → Option (Finset public_key_type)
  | [], acc => some acc
  | pv :: rest, acc =>
    match vp_prevote_keys pv.data best bp pv.public_keys acc with
    | none => none
    | some acc' => vp_prevotes best bp rest acc'

/-- Inner key loop of `validate_proof` over one precommit: every recovered key
must have prevoted and pass `validate_precommit`, and is collected. -/
def vp_precommit_keys (data : precommit_type) (best : block_id_type)
    (bp : Finset public_key_type) (prevoted : Finset public_key_type) :
    List public_key_type → Finset public_key_type → Option (Finset public_key_type)
  | [], acc => some acc
  | k :: ks, acc =>
    if ¬ k ∈ prevoted then none
    else if validate_precommit data k best bp then
      vp_precommit_keys data best bp prevoted ks (insert k acc)
    else none

/-- Precommit loop of `validate_proof`. -/
def vp_precommits (best : block_id_type) (bp : Finset public_key_type)
    (prevoted : Finset public_key_type) :
    List precommit_msg → Finset public_key_type → Option (Finset public_key_type)
  | [], acc => some acc
  | pc :: rest, acc =>
    match vp_precommit_keys pc.data best bp prevoted pc.public_keys acc with
    | none => none
    | some acc' => vp_precommits best bp prevoted rest acc'

/-- randpa.hpp `validate_proof`: the best block must be in the tree; every
prevote key must match the best block and be an active BP; every precommit
key must have prevoted, name the best block and be an active BP; finally the
distinct precommit keys must exceed `|active_bp_keys| * 2 / 3`. -/
def validate_proof (t : prefix_tree) (p : proof_type) : Bool :=
  match prefix_tree.find t p.best_block with
  | none => false
  | some node =>
    match vp_prevotes p.best_block node.active_bp_keys p.prevotes ∅ with
    | none => false
    | some prevoted =>
      match vp_precommits p.best_block node.active_bp_keys prevoted p.precommits ∅ with
      | none => false
      | some precommited =>
        decide (precommited.card > node.active_bp_keys.card * 2 / 3)

/-- randpa.hpp `is_active_bp`: the node is a block producer and one of its
public keys is in the active-BP key set recorded at the block's tree node. -/
def is_active_bp (s : randpa) (b : block_id_type) : Bool :=
  if ¬ s._is_block_producer then false
  else
    match prefix_tree.find s._prefix_tree b with
    | none => false
    | some nd => s._public_keys.any (fun k => decide (k ∈ nd.active_bp_keys))

/-- randpa.hpp `should_start_round`: blocks numbered below 1 never start a
round; otherwise start iff no round exists or the block's round number
exceeds the current round's. -/
def should_start_round (s : randpa) (b : block_id_type) : Bool :=
  if get_block_num b < 1 then false
  else
    match s._round with
    | none => true
    | some r => decide (round_num_of b > r.num)

/-- randpa.hpp `should_end_prevote`. -/
def should_end_prevote (s : randpa) (b : block_id_type) : Bool :=
  match s._round with
  | none => false
  | some r => decide (round_num_of b = r.num ∧ num_in_round_of b = prevote_width)

/-- randpa.hpp `remove_round`: clear both dedup caches, clear all
confirmations in the tree and drop the round. -/
def remove_round (s : randpa) : randpa :=
  { s with _peer_messages := [], _self_messages := [],
           _prefix_tree := prefix_tree.remove_confirmations s._prefix_tree,
           _round := none }

/-- randpa.hpp `update_lib`: re-root the tree at the new last irreversible
block (a fresh root if the block is unknown) and update `_lib`. -/
def update_lib (s : randpa) (lib_id : block_id_type) : randpa :=
  { s with _prefix_tree := prefix_tree.set_root s._prefix_tree lib_id,
           _lib := lib_id }

/-- randpa.hpp `on_proof_gained`: cache the proof (front insert, bounded),
update `_last_prooved_block_num`, emit the best block on the finality channel
and broadcast a finality notice. -/
def on_proof_gained (s : randpa) (p : proof_type) : randpa × List out_msg :=
  let s1 := { s with
    _last_proofs := (p :: s._last_proofs).take proofs_cache_size,
    _last_prooved_block_num := get_block_num p.best_block }
  let r := bcast s1 (net_msg_data.finality_notice ⟨⟨p.round_num, p.best_block⟩, s1._signature_providers⟩)
  (r.1, out_msg.finality p.best_block :: r.2)

/-- randpa.hpp `finish_round` effects past the `finish()` gate, applied when
the round's `done_cb` fires with proof snapshot `p`: if the proof advances
the lib, gain the proof and update the lib. -/
def finish_round_effects (s : randpa) (p : proof_type) : randpa × List out_msg :=
  if get_block_num s._lib < get_block_num p.best_block then
    let r := on_proof_gained s p
    (update_lib r.1 p.best_block, r.2)
  else (s, [])

/-- randpa.hpp `on(uint32_t, const proof_msg&)`: gated on sync/freeze, on the
local node being already ahead, on the lib being already ahead and on the
current round being done; then validated; on success the local round is
marked `done` when the round numbers match, and the proof is gained. -/
def on_proof_msg (s : randpa) (ses_id : Nat) (m : proof_msg) : randpa × List out_msg :=
  let p := m.data
  if s._is_syncing || s._is_frozen then (s, [])
  else if s._last_prooved_block_num ≥ get_block_num p.best_block then (s, [])
  else if get_block_num s._lib ≥ get_block_num p.best_block then (s, [])
  else if (match s._round with
           | some r => decide (r.state = state_type.done)
           | none => false) then (s, [])
  else if ¬ validate_proof s._prefix_tree p then (s, [])
  else
    let s1 :=
      match s._round with
      | some r =>
        if r.num = p.round_num then { s with _round := some { r with state := state_type.done } }
        else s
      | none => s
    on_proof_gained s1 p

/-- randpa.hpp `on(uint32_t, const finality_notice_msg&)`: skip only when the
local node is an active BP at the noticed block and is already ahead of it;
otherwise request the proof from the notifying session. -/
def on_finality_notice (s : randpa) (ses_id : Nat) (m : finality_notice_msg) :
    randpa × List out_msg :=
  if is_active_bp s m.data.best_block &&
     decide (get_block_num m.data.best_block ≤ s._last_prooved_block_num) then (s, [])
  else
    (s, [out_msg.net ses_id (net_msg_data.finality_req_proof
          ⟨⟨m.data.round_num⟩, s._signature_providers⟩)])

/-- randpa.hpp `on(uint32_t, const finality_req_proof_msg&)`: reply with the
first cached proof whose round number matches. -/
def on_finality_req_proof (s : randpa) (ses_id : Nat) (m : finality_req_proof_msg) :
    randpa × List out_msg :=
  match s._last_proofs.find? (fun p => decide (p.round_num = m.data.round_num)) with
  | none => (s, [])
  | some p => (s, [out_msg.net ses_id (net_msg_data.proof ⟨p, s._signature_providers⟩)])

/-- Peer-table update (`_peers[public_key] = ses_id`). -/
def peers_set (l : List (public_key_type × Nat)) (k : public_key_type) (v : Nat) :
    List (public_key_type × Nat) :=
  if l.any (fun p => decide (p.1 = k)) then
    l.map (fun p => if p.1 = k then (k, v) else p)
  else l ++ [(k, v)]

/-- randpa.hpp `on(uint32_t, const handshake_msg&)`: for each recovered key
record the peer and reply with a handshake answer carrying the lib. -/
def on_handshake (s : randpa) (ses_id : Nat) (m : handshake_msg) :
    randpa × List out_msg :=
  m.public_keys.foldl
    (fun acc k =>
      ({ acc.1 with _peers := peers_set acc.1._peers k ses_id },
       acc.2 ++ [out_msg.net ses_id (net_msg_data.handshake_ans
         ⟨⟨acc.1._lib⟩, acc.1._signature_providers⟩)]))
    (s, [])

/-- randpa.hpp `on(uint32_t, const handshake_ans_msg&)`: record the peer for
each recovered key. -/
def on_handshake_ans (s : randpa) (ses_id : Nat) (m : handshake_ans_msg) :
    randpa × List out_msg :=
  (m.public_keys.foldl (fun acc k => { acc with _peers := peers_set acc._peers k ses_id }) s, [])

/-- Round dispatch of `process_round_msg` at `prevote_msg`: hand the message
to the current round (if any), taking the post-rebroadcast state and outputs
as input. -/
def on_prevote_net_dispatch (p : randpa × List out_msg) (m : prevote_msg) :
    Option (randpa × List out_msg) :=
  match p.1._round with
  | none => some (p.1, p.2)
  | some r =>
    match randpa_round.on_prevote p.1._prefix_tree r m with
    | none => none
    | some (t', r') => some ({ p.1 with _prefix_tree := t', _round := some r' }, p.2)

/-- Core of `process_round_msg` at `prevote_msg`, after the sync/freeze gate
and the self-message dedup recording: re-broadcast if the message belongs to
the round implied by the tree head, then dispatch to the current round. -/
def on_prevote_net_core (s : randpa) (m : prevote_msg) :
    Option (randpa × List out_msg) :=
  match prefix_tree.get_head s._prefix_tree with
  | none => none
  | some h =>
    on_prevote_net_dispatch
      (if round_num_of h.block_id = m.data.round_num
       then bcast s (net_msg_data.prevote m) else (s, [])) m

/-- randpa.hpp `process_round_msg` instantiated at `prevote_msg`: gate on
sync/freeze, drop on the self-message dedup cache, record the digest, then
run the core (rebroadcast and round dispatch). -/
def on_prevote_net (s : randpa) (ses_id : Nat) (m : prevote_msg) :
    Option (randpa × List out_msg) :=
  if s._is_syncing || s._is_frozen then some (s, [])
  else if net_msg_data.prevote m ∈ s._self_messages then some (s, [])
  else on_prevote_net_core
    { s with _self_messages := net_msg_data.prevote m :: s._self_messages } m

/-- Round dispatch of `process_round_msg` at `precommit_msg`; when the
round's precommit threshold fires during dispatch, the `done_cb` runs
`finish_round`, modelled by `finish_round_effects` on the proof snapshot. -/
def on_precommit_net_dispatch (p : randpa × List out_msg) (m : precommit_msg) :
    Option (randpa × List out_msg) :=
  match p.1._round with
  | none => some (p.1, p.2)
  | some r =>
    match randpa_round.on_precommit r m with
    | none => none
    | some (r', fired) =>
      match fired with
      | none => some ({ p.1 with _round := some r' }, p.2)
      | some pr =>
        some ((finish_round_effects { p.1 with _round := some r' } pr).1,
              p.2 ++ (finish_round_effects { p.1 with _round := some r' } pr).2)

/-- Core of `process_round_msg` at `precommit_msg`, after the gate and dedup
recording. -/
def on_precommit_net_core (s : randpa) (m : precommit_msg) :
    Option (randpa × List out_msg) :=
  match prefix_tree.get_head s._prefix_tree with
  | none => none
  | some h =>
    on_precommit_net_dispatch
      (if round_num_of h.block_id = m.data.round_num
       then bcast s (net_msg_data.precommit m) else (s, [])) m

/-- randpa.hpp `process_round_msg` instantiated at `precommit_msg`. -/
def on_precommit_net (s : randpa) (ses_id : Nat) (m : precommit_msg) :
    Option (randpa × List out_msg) :=
  if s._is_syncing || s._is_frozen then some (s, [])
  else if net_msg_data.precommit m ∈ s._self_messages then some (s, [])
  else on_precommit_net_core
    { s with _self_messages := net_msg_data.precommit m :: s._self_messages } m

/-- Fold the engine's `bcast` over the single-shot prevote broadcasts a round
constructor hands to its prevote bcaster closure. -/
def bcast_prevote_list (s : randpa) (l : List prevote_msg) : randpa × List out_msg :=
  l.foldl (fun acc pm =>
    ((bcast acc.1 (net_msg_data.prevote pm)).1,
     acc.2 ++ (bcast acc.1 (net_msg_data.prevote pm)).2)) (s, [])

/-- Fold the engine's `bcast` over the precommit broadcasts handed to the
precommit bcaster closure. -/
def bcast_precommit_list (s : randpa) (l : List precommit_msg) : randpa × List out_msg :=
  l.foldl (fun acc pm =>
    ((bcast acc.1 (net_msg_data.precommit pm)).1,
     acc.2 ++ (bcast acc.1 (net_msg_data.precommit pm)).2)) (s, [])

/-- randpa.hpp `new_round`: construct a round (which immediately prevotes)
wired to the engine's bcast closures. -/
def new_round_fn (s : randpa) (n : Nat) (primary : public_key_type)
    (active : Finset public_key_type) : Option (randpa × List out_msg) :=
  match randpa_round.make n primary s._prefix_tree (get_active_signature_providers s active) with
  | none => none
  | some (t', r', bcasts) =>
    some (bcast_prevote_list { s with _prefix_tree := t', _round := some r' } bcasts)

/-- The state of the accepted-block handler after the tree insertion and the
refresh of the sync and freeze flags. -/
def accepted_flags_update (s : randpa) (t1 : prefix_tree) (e : on_accepted_block_event) :
    randpa :=
  { s with _prefix_tree := t1,
           _is_syncing := e.sync,
           _is_frozen := decide (u32sub (get_block_num e.block_id)
             (get_block_num s._lib) > max_finality_lag_blocks) }

/-- Round-rotation phase of the accepted-block handler: if a round boundary
is observed, clear both caches and all confirmations, drop the round, and
construct a new round only when the node is an active BP at the block. -/
def accepted_round_phase (s : randpa) (e : on_accepted_block_event) :
    Option (randpa × List out_msg) :=
  if should_start_round s e.block_id then
    if is_active_bp (remove_round s) e.block_id then
      new_round_fn (remove_round s) (round_num_of e.block_id) e.creator_key e.active_bp_keys
    else some (remove_round s, [])
  else some (s, [])

/-- Completion part of the prevote-ending phase: apply `finish_round` when
the round's `done_cb` fired during `end_prevote`. -/
def accepted_fire_phase (q : randpa × List out_msg) (fired : Option proof_type)
    (outs : List out_msg) : Option (randpa × List out_msg) :=
  match fired with
  | none => some (q.1, outs ++ q.2)
  | some pr =>
    some ((finish_round_effects q.1 pr).1,
          outs ++ q.2 ++ (finish_round_effects q.1 pr).2)

/-- Prevote-ending phase of the accepted-block handler: at the prevote-window
boundary run `end_prevote` on the current round, broadcast the precommits it
hands out and apply the completion callback if it fired. -/
def accepted_end_phase (p : randpa × List out_msg) (e : on_accepted_block_event) :
    Option (randpa × List out_msg) :=
  if should_end_prevote p.1 e.block_id then
    match p.1._round with
    | none => none
    | some r =>
      match randpa_round.end_prevote r with
      | none => none
      | some (r', fired, bc) =>
        accepted_fire_phase (bcast_precommit_list { p.1 with _round := some r' } bc) fired p.2
  else some (p.1, p.2)

/-- randpa.hpp `on(const on_accepted_block_event&)`: insert the block (a
missing parent is caught and skipped), refresh the sync and freeze flags,
gate, maybe rotate the round, maybe end the prevote phase. -/
def on_accepted_block (s : randpa) (e : on_accepted_block_event) :
    Option (randpa × List out_msg) :=
  match prefix_tree.insert s._prefix_tree e.prev_block_id [e.block_id]
        e.creator_key e.active_bp_keys with
  | none => some (s, [])
  | some t1 =>
    if (accepted_flags_update s t1 e)._is_syncing || (accepted_flags_update s t1 e)._is_frozen
    then some (accepted_flags_update s t1 e, [])
    else
      match accepted_round_phase (accepted_flags_update s t1 e) e with
      | none => none
      | some p => accepted_end_phase p e

/-- randpa.hpp `on(const on_irreversible_event&)`: ignore blocks at or below
the current root; otherwise update the lib. -/
def on_irreversible (s : randpa) (e : on_irreversible_event) :
    Option (randpa × List out_msg) :=
  match prefix_tree.get_root s._prefix_tree with
  | none => none
  | some rt =>
    if get_block_num e.block_id ≤ get_block_num rt.block_id then some (s, [])
    else some (update_lib s e.block_id, [])

/-- randpa.hpp `on(const on_new_peer_event&)`: send a handshake carrying the
lib. -/
def on_new_peer (s : randpa) (e : on_new_peer_event) : randpa × List out_msg :=
  (s, [out_msg.net e.ses_id (net_msg_data.handshake ⟨⟨s._lib⟩, s._signature_providers⟩)])

end randpa

/-- The union of inputs the engine's message pump dispatches
(`process_net_msg` and `process_event`). -/
inductive randpa_input where
  | net_prevote (ses_id : Nat) (m : prevote_msg)
  | net_precommit (ses_id : Nat) (m : precommit_msg)
  | net_finality_notice (ses_id : Nat) (m : finality_notice_msg)
  | net_finality_req_proof (ses_id : Nat) (m : finality_req_proof_msg)
  | net_proof (ses_id : Nat) (m : proof_msg)
  | net_handshake (ses_id : Nat) (m : handshake_msg)
  | net_handshake_ans (ses_id : Nat) (m : handshake_ans_msg)
  | ev_accepted_block (e : on_accepted_block_event)
  | ev_irreversible (e : on_irreversible_event)
  | ev_new_peer (e : on_new_peer_event)
deriving DecidableEq

/-- randpa.hpp `process_msg`: dispatch a dequeued item to its handler. -/
def randpa.handle (s : randpa) : randpa_input → Option (randpa × List out_msg)
  | .net_prevote ses m => randpa.on_prevote_net s ses m
  | .net_precommit ses m => randpa.on_precommit_net s ses m
  | .net_finality_notice ses m => some (randpa.on_finality_notice s ses m)
  | .net_finality_req_proof ses m => some (randpa.on_finality_req_proof s ses m)
  | .net_proof ses m => some (randpa.on_proof_msg s ses m)
  | .net_handshake ses m => some (randpa.on_handshake s ses m)
  | .net_handshake_ans ses m => some (randpa.on_handshake_ans s ses m)
  | .ev_accepted_block e => randpa.on_accepted_block s e
  | .ev_irreversible e => randpa.on_irreversible s e
  | .ev_new_peer e => some (randpa.on_new_peer s e)

/-- Reachability of an engine state through the message pump. -/
inductive randpa.reachable : randpa → randpa → Prop
  | refl (s : randpa) : randpa.reachable s s
  | tail {s q s' : randpa} {outs : List out_msg} (i : randpa_input) :
      randpa.reachable s q → randpa.handle q i = some (s', outs) →
      randpa.reachable s s'

/-- The root of the engine's tree exists and is the engine's `_lib` (this is
established by `start` and preserved by every handler). -/
def randpa.lib_inv (s : randpa) : Bool :=
  match prefix_tree.get_root s._prefix_tree with
  | some rt => decide (rt.block_id = s._lib)
  | none => false

/-!
## Specification-side vocabulary

Definitions transcribing the wording of the specification (used on the
specification side of refinement statements, never by the code model above).
-/

/-- Spec wording (§4.4): `prevoted_keys(proof)`, all keys recovered from the
proof's prevotes. -/
def proof_prevoted_keys (p : proof_type) : Finset public_key_type :=
  p.prevotes.foldr (fun pv a => pv.public_keys.toFinset ∪ a) ∅

/-- Spec wording (§4.4): `precommited_keys(proof)`, all keys recovered from
the proof's precommits. -/
def proof_precommited_keys (p : proof_type) : Finset public_key_type :=
  p.precommits.foldr (fun pc a => pc.public_keys.toFinset ∪ a) ∅

/-- Spec wording (§4.4): a proof is valid when its best block resolves to a
tree node `T` and conditions (1)-(4) of the proof-validation section hold. -/
def claim_valid_proof (t : prefix_tree) (p : proof_type) : Prop :=
  ∃ nd, prefix_tree.find t p.best_block = some nd
    ∧ (∀ pv ∈ p.prevotes, ∀ k ∈ pv.public_keys,
        (pv.data.base_block = p.best_block ∨ p.best_block ∈ pv.data.blocks)
          ∧ k ∈ nd.active_bp_keys)
    ∧ (∀ pc ∈ p.precommits, ∀ k ∈ pc.public_keys,
        k ∈ proof_prevoted_keys p ∧ pc.data.block_id = p.best_block
          ∧ k ∈ nd.active_bp_keys)
    ∧ (proof_precommited_keys p).card > 2 * nd.active_bp_keys.card / 3

/-!
## Concrete states for witnesses and counterexamples
-/

/-- Dummy prevote message used as a confirmation payload in concrete states. -/
def pm0 : prevote_msg := ⟨⟨0, ⟨1, 0⟩, []⟩, []⟩

/-- Dummy precommit message used in concrete states. -/
def pc0 : precommit_msg := ⟨⟨0, ⟨1, 0⟩⟩, []⟩

/-- A node with 6 active BP keys and 4 direct confirmations. -/
def cw6_node4 : tree_node :=
  ⟨⟨1, 0⟩, none, 0, {1, 2, 3, 4, 5, 6}, [(1, pm0), (2, pm0), (3, pm0), (4, pm0)]⟩

/-- Tree containing only `cw6_node4`. -/
def cw6_tree4 : prefix_tree := ⟨[cw6_node4]⟩

/-- A node with 6 active BP keys and 5 direct confirmations. -/
def cw6_node5 : tree_node :=
  ⟨⟨1, 0⟩, none, 0, {1, 2, 3, 4, 5, 6}, [(1, pm0), (2, pm0), (3, pm0), (4, pm0), (5, pm0)]⟩

/-- Tree containing only `cw6_node5`. -/
def cw6_tree5 : prefix_tree := ⟨[cw6_node5]⟩

/-- A best-node snapshot with 6 active BP keys. -/
def cw6_bn : best_node_info := ⟨⟨1, 0⟩, {1, 2, 3, 4, 5, 6}, []⟩

/-- A round in precommit state with 4 collected precommits and 6 active BPs. -/
def cw6_round4 : randpa_round :=
  ⟨0, 0, state_type.precommit, ⟨0, ⟨1, 0⟩, [], List.replicate 4 pc0⟩, some cw6_bn, [], ∅, ∅⟩

/-- A round in precommit state with 5 collected precommits and 6 active BPs. -/
def cw6_round5 : randpa_round :=
  ⟨0, 0, state_type.precommit, ⟨0, ⟨1, 0⟩, [], List.replicate 5 pc0⟩, some cw6_bn, [], ∅, ∅⟩

/-- Tree with root `B0 = (1,0)` and a block `B3 = (3,0)`, both with active BP
keys `{1, 2, 3}`. -/
def cw1_tree : prefix_tree :=
  ⟨[⟨⟨1, 0⟩, none, 0, {1, 2, 3}, []⟩, ⟨⟨3, 0⟩, some ⟨1, 0⟩, 1, {1, 2, 3}, []⟩]⟩

/-- A valid proof for `B3`: three prevotes' worth of keys in one message with
base block `B3`, and three single-key precommits naming `B3`. -/
def cw1_proof : proof_type :=
  ⟨1, ⟨3, 0⟩,
   [⟨⟨1, ⟨3, 0⟩, []⟩, [1, 2, 3]⟩],
   [⟨⟨1, ⟨3, 0⟩⟩, [1]⟩, ⟨⟨1, ⟨3, 0⟩⟩, [2]⟩, ⟨⟨1, ⟨3, 0⟩⟩, [3]⟩]⟩

/-- Engine at lib `B0`, no round, one peer at session 77, nothing cached. -/
def cw1_state : randpa :=
  ⟨[1], [1], [1], true, cw1_tree, none, ⟨1, 0⟩, 0, [(5, 77)], [], [], [], false, false⟩

/-- Engine that is not a block producer and whose `_last_prooved_block_num`
is already 100 (ahead of the noticed block below). -/
def cw5_state : randpa :=
  ⟨[1], [1], [1], false, cw1_tree, none, ⟨1, 0⟩, 100, [], [], [], [], false, false⟩

/-- A finality notice for a block numbered 50 (behind `cw5_state`). -/
def cw5_msg : finality_notice_msg := ⟨⟨7, ⟨50, 0⟩⟩, [2]⟩

/-- A prevote message used by the replay witness. -/
def cw9_msg : prevote_msg := ⟨⟨0, ⟨1, 0⟩, []⟩, [1]⟩

/-- A precommit message used by the replay witness. -/
def cw9_pmsg : precommit_msg := ⟨⟨0, ⟨1, 0⟩⟩, [1]⟩

/-- Result of the first processing of `cw9_msg`. -/
def cw9_res : randpa × List out_msg :=
  (randpa.on_prevote_net cw1_state 3 cw9_msg).getD (cw1_state, [])

/-- Result of the first processing of `cw9_pmsg`. -/
def cw9_pres : randpa × List out_msg :=
  (randpa.on_precommit_net cw1_state 3 cw9_pmsg).getD (cw1_state, [])

/-- A best-node snapshot whose only active BP key is 1. -/
def cw10_bn : best_node_info := ⟨⟨2, 0⟩, {1}, []⟩

/-- A round ready to precommit whose provider key 9 is not an active BP, is
already in `precommited_keys`, and appears twice in the provider list. -/
def cw10_round : randpa_round :=
  ⟨0, 1, state_type.ready_to_precommit, ⟨0, ⟨0, 0⟩, [], []⟩, some cw10_bn, [9, 9], ∅, {9}⟩

/-- A tree whose nodes carry empty active-BP key sets. -/
def cw10_tree : prefix_tree :=
  ⟨[⟨⟨1, 0⟩, none, 0, ∅, []⟩, ⟨⟨2, 0⟩, some ⟨1, 0⟩, 1, ∅, []⟩]⟩

/-- A fresh round whose provider key 9 is not in any active-BP key set. -/
def cw10_prevr : randpa_round :=
  ⟨0, 1, state_type.init, ⟨0, ⟨0, 0⟩, [], []⟩, none, [9], ∅, ∅⟩

/-- Result of running the constructor prevote phase on `cw10_prevr`. -/
def cw10_prevres : prefix_tree × randpa_round × List prevote_msg :=
  (randpa_round.prevote_fn cw10_tree cw10_prevr).getD (cw10_tree, cw10_prevr, [])

/-- Well-formedness of a round state: past the prevote threshold a best node
is set, and in state `done` the collected `proof.precommits` exceed the
precommit threshold of the best node. This is the invariant behind the claim
that `done` implies a supermajority. -/
def round_wf (r : randpa_round) : Prop :=
  (r.state = state_type.ready_to_precommit ∨ r.state = state_type.precommit →
    r.best_node.isSome = true)
  ∧ (r.state = state_type.done →
    ∃ bn, r.best_node = some bn
      ∧ r.proof.precommits.length > 2 * bn.active_bp_keys.card / 3)

/-- Tree with one block produced by key 1 under a root, one active BP. -/
def cw2_tree : prefix_tree :=
  ⟨[⟨⟨1, 0⟩, none, 0, {1}, []⟩, ⟨⟨2, 0⟩, some ⟨1, 0⟩, 1, {1}, []⟩]⟩

/-- Constructor result for a round with primary 1 and provider 1 on
`cw2_tree` (reaches `ready_to_precommit` by its own prevote). -/
def cw2_init : prefix_tree × randpa_round × List prevote_msg :=
  (randpa_round.make 0 1 cw2_tree [1]).getD (cw2_tree, cw10_prevr, [])

/-- The round after `end_prevote` (reaches `done` with one precommit). -/
def cw2_step : prefix_tree × randpa_round :=
  (round_step cw2_init.1 cw2_init.2.1 round_input.end_prevote_in).getD
    (cw2_init.1, cw2_init.2.1)

/-- A tree where no node was created by key 5 (primaries not found). -/
def cw2ce_tree : prefix_tree := ⟨[⟨⟨1, 0⟩, none, 0, {1}, []⟩]⟩

/-- Round produced by the constructor when the primary's last block is
absent: state `prevote`, no best node, nothing voted. -/
def cw2ce_r0 : randpa_round :=
  ⟨0, 5, state_type.prevote, ⟨0, ⟨0, 0⟩, [], []⟩, none, [1], ∅, ∅⟩

/-- The same round after the engine's external `set_state(done)`. -/
def cw2ce_r1 : randpa_round := { cw2ce_r0 with state := state_type.done }

/-- Concrete engine for the freeze-flag scenario: a non-producer node whose
tree holds only the root block 1 (which is also `_lib`), unfrozen. -/
def cw4_s0 : randpa :=
  ⟨[], [], [], false, ⟨[⟨⟨1, 0⟩, none, 0, {1}, []⟩]⟩, none, ⟨1, 0⟩, 0,
   [], [], [], [], false, false⟩

/-- Accepted-block event for block 3314 on parent 1: the lag over lib 1 is
3313, above `max_finality_lag_blocks` = 3312. -/
def cw4_e1 : on_accepted_block_event := ⟨⟨3314, 0⟩, ⟨1, 0⟩, 1, {1}, false⟩

/-- Accepted-block event for block 2 on parent 1: lag 1. -/
def cw4_e2 : on_accepted_block_event := ⟨⟨2, 0⟩, ⟨1, 0⟩, 1, {1}, false⟩

/-- Engine after accepting block 3314 (frozen). -/
def cw4_s1 : randpa :=
  ((randpa.on_accepted_block cw4_s0 cw4_e1).getD (cw4_s0, [])).1

/-- Engine after then accepting block 2 (unfrozen again). -/
def cw4_s2 : randpa :=
  ((randpa.on_accepted_block cw4_s1 cw4_e2).getD (cw4_s0, [])).1

/-- The tree insertion performed while handling `cw4_e2`. -/
def cw4_t2 : prefix_tree :=
  (prefix_tree.insert cw4_s1._prefix_tree cw4_e2.prev_block_id [cw4_e2.block_id]
    cw4_e2.creator_key cw4_e2.active_bp_keys).getD ⟨[]⟩

/-- Engine without a round whose tree root carries 32-bit block number 0
(which is also `_lib`), a block producer. -/
def cw7_s : randpa :=
  ⟨[], [1], [], true, ⟨[⟨⟨0, 0⟩, none, 0, {1}, []⟩]⟩, none, ⟨0, 0⟩, 0,
   [], [], [], [], false, false⟩

/-- Accepted-block event whose block also has 32-bit number 0 (distinct salt). -/
def cw7_e : on_accepted_block_event := ⟨⟨0, 1⟩, ⟨0, 0⟩, 1, {1}, false⟩

/-- Engine after `cw7_s` handles `cw7_e` (no round is started). -/
def cw7_s1 : randpa :=
  ((randpa.on_accepted_block cw7_s cw7_e).getD (cw7_s, [])).1

/-- Block-producer engine with provider key 1 and a two-block tree. -/
def cw7w_s : randpa :=
  ⟨[1], [1], [1], true,
   ⟨[⟨⟨2, 0⟩, none, 0, {1}, []⟩, ⟨⟨3, 0⟩, some ⟨2, 0⟩, 1, {1}, []⟩]⟩,
   none, ⟨2, 0⟩, 0, [], [], [], [], false, false⟩

/-- Accepted-block event for block 3 (already in `cw7w_s`'s tree). -/
def cw7w_e : on_accepted_block_event := ⟨⟨3, 0⟩, ⟨2, 0⟩, 1, {1}, false⟩

/-- The round construction the rotation performs for `cw7w_e`. -/
def cw7w_res : randpa × List out_msg :=
  (randpa.new_round_fn (randpa.remove_round cw7w_s) (round_num_of cw7w_e.block_id)
    cw7w_e.creator_key cw7w_e.active_bp_keys).getD (cw7w_s, [])

/-- The block id of the tree's root, the quantity `randpa.lib_inv` ties to
`_lib`. -/
def root_bid (t : prefix_tree) : Option block_id_type :=
  (prefix_tree.get_root t).map (fun n => n.block_id)

end RandpaModel

namespace RandpaModel

/-!
## Helper lemmas
-/

theorem validate_prevote_eq_true_iff (d : prevote_type) (k : public_key_type)
    (b : block_id_type) (s : Finset public_key_type) :
    randpa.validate_prevote d k b s = true ↔
      (d.base_block = b ∨ b ∈ d.blocks) ∧ k ∈ s := by
  unfold randpa.validate_prevote
  split_ifs with h1 h2 <;> simp_all
  tauto

theorem validate_precommit_eq_true_iff (d : precommit_type) (k : public_key_type)
    (b : block_id_type) (s : Finset public_key_type) :
    randpa.validate_precommit d k b s = true ↔
      d.block_id = b ∧ k ∈ s := by
  unfold randpa.validate_precommit
  split_ifs with h1 h2 <;> simp_all

theorem vp_prevote_keys_some (d : prevote_type) (b : block_id_type)
    (s : Finset public_key_type) (ks : List public_key_type)
    (acc : Finset public_key_type)
    (h : ∀ k ∈ ks, randpa.validate_prevote d k b s = true) :
    randpa.vp_prevote_keys d b s ks acc = some (acc ∪ ks.toFinset) := by
  induction ks generalizing acc with
  | nil => simp [randpa.vp_prevote_keys]
  | cons k ks ih =>
    have hk := h k (by simp)
    rw [randpa.vp_prevote_keys, if_pos hk, ih _ (fun x hx => h x (by simp [hx]))]
    congr 1
    rw [List.toFinset_cons, Finset.insert_union, Finset.union_insert]

theorem vp_prevote_keys_of_some (d : prevote_type) (b : block_id_type)
    (s : Finset public_key_type) (ks : List public_key_type)
    (acc res : Finset public_key_type)
    (h : randpa.vp_prevote_keys d b s ks acc = some res) :
    (∀ k ∈ ks, randpa.validate_prevote d k b s = true) ∧ res = acc ∪ ks.toFinset := by
  induction ks generalizing acc with
  | nil =>
    simp only [randpa.vp_prevote_keys, Option.some.injEq] at h
    simp [← h]
  | cons k ks ih =>
    rw [randpa.vp_prevote_keys] at h
    by_cases hv : randpa.validate_prevote d k b s = true
    · rw [if_pos hv] at h
      obtain ⟨h1, h2⟩ := ih _ h
      refine ⟨?_, ?_⟩
      · intro x hx
        rcases List.mem_cons.mp hx with hx | hx
        · subst hx; exact hv
        · exact h1 x hx
      · rw [h2, List.toFinset_cons, Finset.insert_union, Finset.union_insert]
    · rw [if_neg hv] at h
      exact absurd h (by simp)

theorem vp_prevotes_some (b : block_id_type) (s : Finset public_key_type)
    (l : List prevote_msg) (acc : Finset public_key_type)
    (h : ∀ pv ∈ l, ∀ k ∈ pv.public_keys, randpa.validate_prevote pv.data k b s = true) :
    randpa.vp_prevotes b s l acc =
      some (acc ∪ l.foldr (fun pv a => pv.public_keys.toFinset ∪ a) ∅) := by
  induction l generalizing acc with
  | nil => simp [randpa.vp_prevotes]
  | cons pv l ih =>
    rw [randpa.vp_prevotes,
        vp_prevote_keys_some pv.data b s pv.public_keys acc (h pv (by simp))]
    dsimp only
    rw [ih _ (fun x hx => h x (by simp [hx]))]
    simp [Finset.union_assoc]

theorem vp_prevotes_of_some (b : block_id_type) (s : Finset public_key_type)
    (l : List prevote_msg) (acc res : Finset public_key_type)
    (h : randpa.vp_prevotes b s l acc = some res) :
    (∀ pv ∈ l, ∀ k ∈ pv.public_keys, randpa.validate_prevote pv.data k b s = true)
      ∧ res = acc ∪ l.foldr (fun pv a => pv.public_keys.toFinset ∪ a) ∅ := by
  induction l generalizing acc with
  | nil =>
    simp only [randpa.vp_prevotes, Option.some.injEq] at h
    simp [← h]
  | cons pv l ih =>
    rw [randpa.vp_prevotes] at h
    cases hk : randpa.vp_prevote_keys pv.data b s pv.public_keys acc with
    | none => rw [hk] at h; exact absurd h (by simp)
    | some acc' =>
      rw [hk] at h
      obtain ⟨hk1, hk2⟩ := vp_prevote_keys_of_some _ _ _ _ _ _ hk
      obtain ⟨h1, h2⟩ := ih _ h
      refine ⟨?_, ?_⟩
      · intro pv' hpv'
        rcases List.mem_cons.mp hpv' with hx | hx
        · subst hx; exact hk1
        · exact h1 pv' hx
      · rw [h2, hk2]
        simp [Finset.union_assoc]

theorem vp_precommit_keys_some (d : precommit_type) (b : block_id_type)
    (s pvd : Finset public_key_type) (ks : List public_key_type)
    (acc : Finset public_key_type)
    (h : ∀ k ∈ ks, k ∈ pvd ∧ randpa.validate_precommit d k b s = true) :
    randpa.vp_precommit_keys d b s pvd ks acc = some (acc ∪ ks.toFinset) := by
  induction ks generalizing acc with
  | nil => simp [randpa.vp_precommit_keys]
  | cons k ks ih =>
    obtain ⟨hm, hv⟩ := h k (by simp)
    rw [randpa.vp_precommit_keys, if_neg (by simpa using hm), if_pos hv,
        ih _ (fun x hx => h x (by simp [hx]))]
    congr 1
    rw [List.toFinset_cons, Finset.insert_union, Finset.union_insert]

theorem vp_precommit_keys_of_some (d : precommit_type) (b : block_id_type)
    (s pvd : Finset public_key_type) (ks : List public_key_type)
    (acc res : Finset public_key_type)
    (h : randpa.vp_precommit_keys d b s pvd ks acc = some res) :
    (∀ k ∈ ks, k ∈ pvd ∧ randpa.validate_precommit d k b s = true)
      ∧ res = acc ∪ ks.toFinset := by
  induction ks generalizing acc with
  | nil =>
    simp only [randpa.vp_precommit_keys, Option.some.injEq] at h
    simp [← h]
  | cons k ks ih =>
    rw [randpa.vp_precommit_keys] at h
    by_cases hm : k ∈ pvd
    · rw [if_neg (by simpa using hm)] at h
      by_cases hv : randpa.validate_precommit d k b s = true
      · rw [if_pos hv] at h
        obtain ⟨h1, h2⟩ := ih _ h
        refine ⟨?_, ?_⟩
        · intro x hx
          rcases List.mem_cons.mp hx with hx | hx
          · subst hx; exact ⟨hm, hv⟩
          · exact h1 x hx
        · rw [h2, List.toFinset_cons, Finset.insert_union, Finset.union_insert]
      · rw [if_neg hv] at h
        exact absurd h (by simp)
    · rw [if_pos (by simpa using hm)] at h
      exact absurd h (by simp)

theorem vp_precommits_some (b : block_id_type) (s pvd : Finset public_key_type)
    (l : List precommit_msg) (acc : Finset public_key_type)
    (h : ∀ pc ∈ l, ∀ k ∈ pc.public_keys,
      k ∈ pvd ∧ randpa.validate_precommit pc.data k b s = true) :
    randpa.vp_precommits b s pvd l acc =
      some (acc ∪ l.foldr (fun pc a => pc.public_keys.toFinset ∪ a) ∅) := by
  induction l generalizing acc with
  | nil => simp [randpa.vp_precommits]
  | cons pc l ih =>
    rw [randpa.vp_precommits,
        vp_precommit_keys_some pc.data b s pvd pc.public_keys acc (h pc (by simp))]
    dsimp only
    rw [ih _ (fun x hx => h x (by simp [hx]))]
    simp [Finset.union_assoc]

theorem vp_precommits_of_some (b : block_id_type) (s pvd : Finset public_key_type)
    (l : List precommit_msg) (acc res : Finset public_key_type)
    (h : randpa.vp_precommits b s pvd l acc = some res) :
    (∀ pc ∈ l, ∀ k ∈ pc.public_keys,
        k ∈ pvd ∧ randpa.validate_precommit pc.data k b s = true)
      ∧ res = acc ∪ l.foldr (fun pc a => pc.public_keys.toFinset ∪ a) ∅ := by
  induction l generalizing acc with
  | nil =>
    simp only [randpa.vp_precommits, Option.some.injEq] at h
    simp [← h]
  | cons pc l ih =>
    rw [randpa.vp_precommits] at h
    cases hk : randpa.vp_precommit_keys pc.data b s pvd pc.public_keys acc with
    | none => rw [hk] at h; exact absurd h (by simp)
    | some acc' =>
      rw [hk] at h
      obtain ⟨hk1, hk2⟩ := vp_precommit_keys_of_some _ _ _ _ _ _ _ hk
      obtain ⟨h1, h2⟩ := ih _ h
      refine ⟨?_, ?_⟩
      · intro pc' hpc'
        rcases List.mem_cons.mp hpc' with hx | hx
        · subst hx; exact hk1
        · exact h1 pc' hx
      · rw [h2, hk2]
        simp [Finset.union_assoc]

/-!
## Claims
-/

/-- C3: `validate_proof(proof)` returns true if and only if: (1) the proof's
best block is present in the prefix tree at some node `T`; (2) for every
prevote and each recovered key `K`, the base block equals the best block or
the best block is in the prevote's block list, and `K` is in
`T.active_bp_keys`; (3) every recovered precommit key was collected from the
prevotes, its precommit names the best block, and it is in
`T.active_bp_keys`; (4) the number of distinct precommit keys exceeds
`⌊2/3 · |T.active_bp_keys|⌋`. Any violation makes `validate_proof` false. -/
theorem C3_validate_proof_iff_spec (t : prefix_tree) (p : proof_type) :
    randpa.validate_proof t p = true ↔ claim_valid_proof t p := by
  constructor
  · intro h
    unfold randpa.validate_proof at h
    cases hf : prefix_tree.find t p.best_block with
    | none => rw [hf] at h; exact absurd h (by simp)
    | some nd =>
      rw [hf] at h
      dsimp only at h
      cases hpv : randpa.vp_prevotes p.best_block nd.active_bp_keys p.prevotes ∅ with
      | none => rw [hpv] at h; exact absurd h (by simp)
      | some prevoted =>
        rw [hpv] at h
        dsimp only at h
        cases hpc : randpa.vp_precommits p.best_block nd.active_bp_keys prevoted
            p.precommits ∅ with
        | none => rw [hpc] at h; exact absurd h (by simp)
        | some precommited =>
          rw [hpc] at h
          dsimp only at h
          obtain ⟨h1, h2⟩ := vp_prevotes_of_some _ _ _ _ _ hpv
          obtain ⟨h3, h4⟩ := vp_precommits_of_some _ _ _ _ _ _ hpc
          rw [Finset.empty_union] at h2 h4
          have h2' : prevoted = proof_prevoted_keys p := h2
          have h4' : precommited = proof_precommited_keys p := h4
          refine ⟨nd, hf, ?_, ?_, ?_⟩
          · intro pv hpv' k hk
            exact (validate_prevote_eq_true_iff _ _ _ _).mp (h1 pv hpv' k hk)
          · intro pc hpc' k hk
            obtain ⟨hm, hv⟩ := h3 pc hpc' k hk
            obtain ⟨hb, hs⟩ := (validate_precommit_eq_true_iff _ _ _ _).mp hv
            exact ⟨h2' ▸ hm, hb, hs⟩
          · have hc := of_decide_eq_true h
            rw [h4', Nat.mul_comm] at hc
            exact hc
  · rintro ⟨nd, hf, hpv, hpc, hcard⟩
    unfold randpa.validate_proof
    rw [hf]
    dsimp only
    rw [vp_prevotes_some p.best_block nd.active_bp_keys p.prevotes ∅
      (fun pv h k hk => (validate_prevote_eq_true_iff _ _ _ _).mpr (hpv pv h k hk))]
    dsimp only
    have hpvd : (∅ ∪ p.prevotes.foldr (fun pv a => pv.public_keys.toFinset ∪ a) ∅)
        = proof_prevoted_keys p := Finset.empty_union _
    rw [vp_precommits_some p.best_block nd.active_bp_keys _ p.precommits ∅
      (fun pc h k hk => by
        obtain ⟨hm, hb, hs⟩ := hpc pc h k hk
        exact ⟨hpvd ▸ hm, (validate_precommit_eq_true_iff _ _ _ _).mpr ⟨hb, hs⟩⟩)]
    dsimp only
    have hpcd : (∅ ∪ p.precommits.foldr (fun pc a => pc.public_keys.toFinset ∪ a) ∅)
        = proof_precommited_keys p := Finset.empty_union _
    rw [hpcd]
    rw [decide_eq_true_eq, Nat.mul_comm]
    exact hcard

/-- C6: the prevote and precommit threshold tests are strict inequalities over
exact integer (floor) arithmetic: the threshold is crossed exactly when the
count exceeds `⌊2n/3⌋` for `n` active BP keys; in particular with 6 active BP
keys, 4 prevotes do not cross the prevote threshold (4 > 4 is false) while 5
do (5 > 4), and likewise for precommits. -/
theorem C6_thresholds_floor_strict :
    (∀ (t : prefix_tree) (nd : tree_node),
        randpa_round.is_prevote_threshold_reached t nd = true ↔
          prefix_tree.confirmation_number t nd.block_id > 2 * nd.active_bp_keys.card / 3)
    ∧ (∀ (n primary : Nat) (st : state_type) (pf : proof_type) (bn : best_node_info)
         (provs : List public_key_type) (pk pck : Finset public_key_type),
        randpa_round.is_precommit_threshold_reached ⟨n, primary, st, pf, some bn, provs, pk, pck⟩
          = some (decide (pf.precommits.length > 2 * bn.active_bp_keys.card / 3)))
    ∧ randpa_round.is_prevote_threshold_reached cw6_tree4 cw6_node4 = false
    ∧ randpa_round.is_prevote_threshold_reached cw6_tree5 cw6_node5 = true
    ∧ randpa_round.is_precommit_threshold_reached cw6_round4 = some false
    ∧ randpa_round.is_precommit_threshold_reached cw6_round5 = some true := by
  refine ⟨?_, ?_, by decide, by decide, by decide, by decide⟩
  · intro t nd
    simp [randpa_round.is_prevote_threshold_reached]
  · intro n primary st pf bn provs pk pck
    rfl

/-- C5 counterexample: the claim says the request is sent iff the local node
is not already ahead and not an active BP; here the local node is already
ahead (block 50 against `_last_prooved_block_num = 100`) and is not an active
BP, yet the code sends the `finality_req_proof` to the notifying session. -/
theorem C5_counterexample_sends_when_ahead :
    get_block_num cw5_msg.data.best_block ≤ cw5_state._last_prooved_block_num
    ∧ randpa.is_active_bp cw5_state cw5_msg.data.best_block = false
    ∧ (randpa.on_finality_notice cw5_state 4 cw5_msg).2
        = [out_msg.net 4 (net_msg_data.finality_req_proof ⟨⟨7⟩, [1]⟩)] := by
  decide

/-- C5 (amended): on a finality notice the engine leaves its state unchanged
and sends a `finality_req_proof` for the noticed round to the notifying
session if and only if it is NOT the case that the local node is both an
active BP at the noticed block and already ahead of it (noticed block number
at most `_last_prooved_block_num`). -/
theorem C5_amended_finality_notice (s : randpa) (ses_id : Nat) (m : finality_notice_msg) :
    (randpa.on_finality_notice s ses_id m).1 = s
    ∧ ((randpa.on_finality_notice s ses_id m).2
        = [out_msg.net ses_id (net_msg_data.finality_req_proof
            ⟨⟨m.data.round_num⟩, s._signature_providers⟩)] ↔
        ¬ (randpa.is_active_bp s m.data.best_block = true
            ∧ get_block_num m.data.best_block ≤ s._last_prooved_block_num)) := by
  unfold randpa.on_finality_notice
  split_ifs with h
  · simp only [Bool.and_eq_true, decide_eq_true_eq] at h
    simp [h]
  · simp only [Bool.and_eq_true, decide_eq_true_eq] at h
    simp [h]

theorem on_proof_gained_eq (s : randpa) (p : proof_type)
    (hfresh : net_msg_data.finality_notice ⟨⟨p.round_num, p.best_block⟩,
        s._signature_providers⟩ ∉ s._peer_messages) :
    randpa.on_proof_gained s p =
      ({ s with
         _last_proofs := (p :: s._last_proofs).take proofs_cache_size,
         _last_prooved_block_num := get_block_num p.best_block,
         _peer_messages := net_msg_data.finality_notice ⟨⟨p.round_num, p.best_block⟩,
           s._signature_providers⟩ :: s._peer_messages },
       out_msg.finality p.best_block ::
         s._peers.map (fun pr => out_msg.net pr.2 (net_msg_data.finality_notice
           ⟨⟨p.round_num, p.best_block⟩, s._signature_providers⟩))) := by
  unfold randpa.on_proof_gained randpa.bcast
  dsimp only
  rw [if_neg hfresh]

/-- C1 (amended): when the engine (not syncing, not frozen, current round not
done, finality notice not yet broadcast) handles a valid `proof_msg` for a
block whose number exceeds both `_last_prooved_block_num` and
`block_num(_lib)`, then: `_lib` is unchanged (the external-proof path never
updates `_lib`), `_last_prooved_block_num` advances to the block's number,
the finality channel emits the proof's best block, a finality notice is
broadcast to every peer once, and a subsequent identical `proof_msg` is
dropped with no state change and no output because `_last_prooved_block_num`
is already at that block. -/
theorem C1_amended_external_proof (s : randpa) (ses_id ses_id2 : Nat) (m : proof_msg)
    (hsync : s._is_syncing = false) (hfroz : s._is_frozen = false)
    (hlast : s._last_prooved_block_num < get_block_num m.data.best_block)
    (hlib : get_block_num s._lib < get_block_num m.data.best_block)
    (hround : ∀ r, s._round = some r → ¬ r.state = state_type.done)
    (hvalid : randpa.validate_proof s._prefix_tree m.data = true)
    (hfresh : net_msg_data.finality_notice ⟨⟨m.data.round_num, m.data.best_block⟩,
        s._signature_providers⟩ ∉ s._peer_messages) :
    (randpa.on_proof_msg s ses_id m).1._lib = s._lib
    ∧ (randpa.on_proof_msg s ses_id m).1._last_prooved_block_num
        = get_block_num m.data.best_block
    ∧ (randpa.on_proof_msg s ses_id m).2
        = out_msg.finality m.data.best_block ::
          s._peers.map (fun pr => out_msg.net pr.2 (net_msg_data.finality_notice
            ⟨⟨m.data.round_num, m.data.best_block⟩, s._signature_providers⟩))
    ∧ randpa.on_proof_msg (randpa.on_proof_msg s ses_id m).1 ses_id2 m
        = ((randpa.on_proof_msg s ses_id m).1, []) := by
  have hg1 : (s._is_syncing || s._is_frozen) = false := by rw [hsync, hfroz]; rfl
  have hdone : ¬ ((match s._round with
       | some r => decide (r.state = state_type.done)
       | none => false) = true) := by
    cases hr : s._round with
    | none => simp
    | some r => simpa using hround r hr
  have key : randpa.on_proof_msg s ses_id m
      = randpa.on_proof_gained
          (match s._round with
           | some r =>
             if r.num = m.data.round_num then
               { s with _round := some { r with state := state_type.done } }
             else s
           | none => s) m.data := by
    unfold randpa.on_proof_msg
    dsimp only
    rw [if_neg (show ¬ ((s._is_syncing || s._is_frozen) = true) by simp [hg1]),
        if_neg (show ¬ (s._last_prooved_block_num ≥ get_block_num m.data.best_block) by omega),
        if_neg (show ¬ (get_block_num s._lib ≥ get_block_num m.data.best_block) by omega),
        if_neg hdone,
        if_neg (show ¬ (¬ randpa.validate_proof s._prefix_tree m.data = true) by
          simp [hvalid])]
  generalize hgen : (match s._round with
      | some r =>
        if r.num = m.data.round_num then
          { s with _round := some { r with state := state_type.done } }
        else s
      | none => s) = s1x at key
  have hfields : s1x._lib = s._lib ∧ s1x._peers = s._peers
      ∧ s1x._peer_messages = s._peer_messages
      ∧ s1x._signature_providers = s._signature_providers
      ∧ s1x._is_syncing = s._is_syncing ∧ s1x._is_frozen = s._is_frozen := by
    cases hr : s._round with
    | none => rw [hr] at hgen; subst hgen; exact ⟨rfl, rfl, rfl, rfl, rfl, rfl⟩
    | some r =>
      rw [hr] at hgen
      dsimp only at hgen
      by_cases hn : r.num = m.data.round_num
      · rw [if_pos hn] at hgen; subst hgen; exact ⟨rfl, rfl, rfl, rfl, rfl, rfl⟩
      · rw [if_neg hn] at hgen; subst hgen; exact ⟨rfl, rfl, rfl, rfl, rfl, rfl⟩
  obtain ⟨f1, f2, f3, f4, f5, f6⟩ := hfields
  rw [key, on_proof_gained_eq s1x m.data (by rw [f3, f4]; exact hfresh)]
  refine ⟨f1, rfl, by rw [f2, f4], ?_⟩
  unfold randpa.on_proof_msg
  dsimp only
  split_ifs with g1 g2 <;> simp_all

/-- C1 counterexample: the engine at lib `B0 = (1,0)` handles a valid
`proof_msg` for `B3 = (3,0)` whose number exceeds both
`_last_prooved_block_num` and `block_num(_lib)` (all premises of the claim
hold), yet afterwards `_lib` is still `B0`, not `B3`: the claim's conjunct
"_lib equals B3" is false because the proof handler never calls
`update_lib`. -/
theorem C1_counterexample_lib_not_advanced :
    randpa.validate_proof cw1_state._prefix_tree cw1_proof = true
    ∧ cw1_state._last_prooved_block_num < get_block_num cw1_proof.best_block
    ∧ get_block_num cw1_state._lib < get_block_num cw1_proof.best_block
    ∧ cw1_state._is_syncing = false ∧ cw1_state._is_frozen = false
    ∧ cw1_state._round = none
    ∧ (randpa.on_proof_msg cw1_state 9 ⟨cw1_proof, [2]⟩).1._lib = ⟨1, 0⟩
    ∧ ¬ (randpa.on_proof_msg cw1_state 9 ⟨cw1_proof, [2]⟩).1._lib
        = cw1_proof.best_block := by
  decide

/-- Witness for C1 (amended) at the concrete state `cw1_state`. -/
theorem C1_amended_witness :
    (randpa.on_proof_msg cw1_state 9 ⟨cw1_proof, [2]⟩).1._lib = cw1_state._lib
    ∧ (randpa.on_proof_msg cw1_state 9 ⟨cw1_proof, [2]⟩).1._last_prooved_block_num
        = get_block_num (⟨cw1_proof, [2]⟩ : proof_msg).data.best_block
    ∧ (randpa.on_proof_msg cw1_state 9 ⟨cw1_proof, [2]⟩).2
        = out_msg.finality (⟨cw1_proof, [2]⟩ : proof_msg).data.best_block ::
          cw1_state._peers.map (fun pr => out_msg.net pr.2 (net_msg_data.finality_notice
            ⟨⟨(⟨cw1_proof, [2]⟩ : proof_msg).data.round_num,
              (⟨cw1_proof, [2]⟩ : proof_msg).data.best_block⟩,
              cw1_state._signature_providers⟩))
    ∧ randpa.on_proof_msg (randpa.on_proof_msg cw1_state 9 ⟨cw1_proof, [2]⟩).1 11 ⟨cw1_proof, [2]⟩
        = ((randpa.on_proof_msg cw1_state 9 ⟨cw1_proof, [2]⟩).1, []) :=
  C1_amended_external_proof cw1_state 9 11 ⟨cw1_proof, [2]⟩ rfl rfl (by decide) (by decide)
    (by intro r hr; cases hr) (by decide) (by decide)

theorem bcast_fields (s : randpa) (d : net_msg_data) :
    (randpa.bcast s d).1._is_syncing = s._is_syncing
    ∧ (randpa.bcast s d).1._is_frozen = s._is_frozen
    ∧ (randpa.bcast s d).1._self_messages = s._self_messages
    ∧ (randpa.bcast s d).1._round = s._round
    ∧ (randpa.bcast s d).1._prefix_tree = s._prefix_tree := by
  unfold randpa.bcast
  split_ifs <;> exact ⟨rfl, rfl, rfl, rfl, rfl⟩

theorem finish_round_effects_fields (s : randpa) (p : proof_type) :
    (randpa.finish_round_effects s p).1._is_syncing = s._is_syncing
    ∧ (randpa.finish_round_effects s p).1._is_frozen = s._is_frozen
    ∧ (randpa.finish_round_effects s p).1._self_messages = s._self_messages
    ∧ (randpa.finish_round_effects s p).1._round = s._round := by
  unfold randpa.finish_round_effects randpa.update_lib randpa.on_proof_gained randpa.bcast
  dsimp only
  split_ifs <;> exact ⟨rfl, rfl, rfl, rfl⟩

theorem on_prevote_net_replay (s1 : randpa) (ses2 : Nat) (m : prevote_msg)
    (hg : (s1._is_syncing || s1._is_frozen) = false)
    (hm : net_msg_data.prevote m ∈ s1._self_messages) :
    randpa.on_prevote_net s1 ses2 m = some (s1, []) := by
  unfold randpa.on_prevote_net
  rw [if_neg (show ¬ ((s1._is_syncing || s1._is_frozen) = true) by simp [hg]), if_pos hm]

theorem on_precommit_net_replay (s1 : randpa) (ses2 : Nat) (m : precommit_msg)
    (hg : (s1._is_syncing || s1._is_frozen) = false)
    (hm : net_msg_data.precommit m ∈ s1._self_messages) :
    randpa.on_precommit_net s1 ses2 m = some (s1, []) := by
  unfold randpa.on_precommit_net
  rw [if_neg (show ¬ ((s1._is_syncing || s1._is_frozen) = true) by simp [hg]), if_pos hm]

theorem on_prevote_net_dispatch_fields (p : randpa × List out_msg) (m : prevote_msg)
    (s1 : randpa) (o1 : List out_msg)
    (h : randpa.on_prevote_net_dispatch p m = some (s1, o1)) :
    s1._is_syncing = p.1._is_syncing ∧ s1._is_frozen = p.1._is_frozen
    ∧ s1._self_messages = p.1._self_messages := by
  unfold randpa.on_prevote_net_dispatch at h
  cases hr : p.1._round with
  | none =>
    rw [hr] at h
    have h' : some (p.1, p.2) = some (s1, o1) := h
    simp only [Option.some.injEq, Prod.mk.injEq] at h'
    rw [← h'.1]
    exact ⟨rfl, rfl, rfl⟩
  | some r =>
    rw [hr] at h
    replace h : (match randpa_round.on_prevote p.1._prefix_tree r m with
        | none => none
        | some (t', r') =>
          some (({ p.1 with _prefix_tree := t', _round := some r' } : randpa), p.2))
        = some (s1, o1) := h
    cases hp : randpa_round.on_prevote p.1._prefix_tree r m with
    | none => rw [hp] at h; exact absurd h (by simp)
    | some tr =>
      obtain ⟨t', r'⟩ := tr
      rw [hp] at h
      have h' : some (({ p.1 with _prefix_tree := t', _round := some r' } : randpa), p.2)
          = some (s1, o1) := h
      simp only [Option.some.injEq, Prod.mk.injEq] at h'
      rw [← h'.1]
      exact ⟨rfl, rfl, rfl⟩

theorem on_precommit_net_dispatch_fields (p : randpa × List out_msg) (m : precommit_msg)
    (s1 : randpa) (o1 : List out_msg)
    (h : randpa.on_precommit_net_dispatch p m = some (s1, o1)) :
    s1._is_syncing = p.1._is_syncing ∧ s1._is_frozen = p.1._is_frozen
    ∧ s1._self_messages = p.1._self_messages := by
  unfold randpa.on_precommit_net_dispatch at h
  cases hr : p.1._round with
  | none =>
    rw [hr] at h
    have h' : some (p.1, p.2) = some (s1, o1) := h
    simp only [Option.some.injEq, Prod.mk.injEq] at h'
    rw [← h'.1]
    exact ⟨rfl, rfl, rfl⟩
  | some r =>
    rw [hr] at h
    replace h : (match randpa_round.on_precommit r m with
        | none => none
        | some (r', fired) =>
          match fired with
          | none => some (({ p.1 with _round := some r' } : randpa), p.2)
          | some pr =>
            some ((randpa.finish_round_effects ({ p.1 with _round := some r' } : randpa) pr).1,
                  p.2 ++ (randpa.finish_round_effects
                    ({ p.1 with _round := some r' } : randpa) pr).2))
        = some (s1, o1) := h
    cases hp : randpa_round.on_precommit r m with
    | none => rw [hp] at h; exact absurd h (by simp)
    | some rf =>
      obtain ⟨r', fired⟩ := rf
      rw [hp] at h
      cases fired with
      | none =>
        have h' : some (({ p.1 with _round := some r' } : randpa), p.2) = some (s1, o1) := h
        simp only [Option.some.injEq, Prod.mk.injEq] at h'
        rw [← h'.1]
        exact ⟨rfl, rfl, rfl⟩
      | some pr =>
        have h' : some ((randpa.finish_round_effects
              ({ p.1 with _round := some r' } : randpa) pr).1,
            p.2 ++ (randpa.finish_round_effects
              ({ p.1 with _round := some r' } : randpa) pr).2) = some (s1, o1) := h
        simp only [Option.some.injEq, Prod.mk.injEq] at h'
        obtain ⟨f1, f2, f3, f4⟩ := finish_round_effects_fields
          ({ p.1 with _round := some r' } : randpa) pr
        rw [← h'.1]
        exact ⟨f1, f2, f3⟩

theorem on_prevote_net_core_fields (s : randpa) (m : prevote_msg)
    (s1 : randpa) (o1 : List out_msg)
    (h : randpa.on_prevote_net_core s m = some (s1, o1)) :
    s1._is_syncing = s._is_syncing ∧ s1._is_frozen = s._is_frozen
    ∧ s1._self_messages = s._self_messages := by
  unfold randpa.on_prevote_net_core at h
  cases hh : prefix_tree.get_head s._prefix_tree with
  | none => rw [hh] at h; exact absurd h (by simp)
  | some hd =>
    rw [hh] at h
    replace h : randpa.on_prevote_net_dispatch
        (if round_num_of hd.block_id = m.data.round_num
         then randpa.bcast s (net_msg_data.prevote m) else (s, [])) m = some (s1, o1) := h
    by_cases hb : round_num_of hd.block_id = m.data.round_num
    · rw [if_pos hb] at h
      obtain ⟨f1, f2, f3⟩ := on_prevote_net_dispatch_fields _ _ _ _ h
      obtain ⟨b1, b2, b3, b4, b5⟩ := bcast_fields s (net_msg_data.prevote m)
      exact ⟨f1.trans b1, f2.trans b2, f3.trans b3⟩
    · rw [if_neg hb] at h
      exact on_prevote_net_dispatch_fields _ _ _ _ h

theorem on_precommit_net_core_fields (s : randpa) (m : precommit_msg)
    (s1 : randpa) (o1 : List out_msg)
    (h : randpa.on_precommit_net_core s m = some (s1, o1)) :
    s1._is_syncing = s._is_syncing ∧ s1._is_frozen = s._is_frozen
    ∧ s1._self_messages = s._self_messages := by
  unfold randpa.on_precommit_net_core at h
  cases hh : prefix_tree.get_head s._prefix_tree with
  | none => rw [hh] at h; exact absurd h (by simp)
  | some hd =>
    rw [hh] at h
    replace h : randpa.on_precommit_net_dispatch
        (if round_num_of hd.block_id = m.data.round_num
         then randpa.bcast s (net_msg_data.precommit m) else (s, [])) m = some (s1, o1) := h
    by_cases hb : round_num_of hd.block_id = m.data.round_num
    · rw [if_pos hb] at h
      obtain ⟨f1, f2, f3⟩ := on_precommit_net_dispatch_fields _ _ _ _ h
      obtain ⟨b1, b2, b3, b4, b5⟩ := bcast_fields s (net_msg_data.precommit m)
      exact ⟨f1.trans b1, f2.trans b2, f3.trans b3⟩
    · rw [if_neg hb] at h
      exact on_precommit_net_dispatch_fields _ _ _ _ h

theorem on_prevote_net_idem (s : randpa) (ses ses2 : Nat) (m : prevote_msg)
    (s1 : randpa) (o1 : List out_msg)
    (h : randpa.on_prevote_net s ses m = some (s1, o1)) :
    randpa.on_prevote_net s1 ses2 m = some (s1, []) := by
  unfold randpa.on_prevote_net at h
  by_cases g : (s._is_syncing || s._is_frozen) = true
  · rw [if_pos g] at h
    simp only [Option.some.injEq, Prod.mk.injEq] at h
    obtain ⟨h1, h2⟩ := h
    subst h1
    unfold randpa.on_prevote_net
    rw [if_pos g]
  · rw [if_neg g] at h
    by_cases hm : net_msg_data.prevote m ∈ s._self_messages
    · rw [if_pos hm] at h
      simp only [Option.some.injEq, Prod.mk.injEq] at h
      obtain ⟨h1, h2⟩ := h
      subst h1
      exact on_prevote_net_replay s ses2 m (by simpa using g) hm
    · rw [if_neg hm] at h
      obtain ⟨f1, f2, f3⟩ := on_prevote_net_core_fields _ _ _ _ h
      refine on_prevote_net_replay s1 ses2 m ?_ ?_
      · rw [f1, f2]; simpa using g
      · rw [f3]; exact List.mem_cons_self _ _

theorem on_precommit_net_idem (s : randpa) (ses ses2 : Nat) (m : precommit_msg)
    (s1 : randpa) (o1 : List out_msg)
    (h : randpa.on_precommit_net s ses m = some (s1, o1)) :
    randpa.on_precommit_net s1 ses2 m = some (s1, []) := by
  unfold randpa.on_precommit_net at h
  by_cases g : (s._is_syncing || s._is_frozen) = true
  · rw [if_pos g] at h
    simp only [Option.some.injEq, Prod.mk.injEq] at h
    obtain ⟨h1, h2⟩ := h
    subst h1
    unfold randpa.on_precommit_net
    rw [if_pos g]
  · rw [if_neg g] at h
    by_cases hm : net_msg_data.precommit m ∈ s._self_messages
    · rw [if_pos hm] at h
      simp only [Option.some.injEq, Prod.mk.injEq] at h
      obtain ⟨h1, h2⟩ := h
      subst h1
      exact on_precommit_net_replay s ses2 m (by simpa using g) hm
    · rw [if_neg hm] at h
      obtain ⟨f1, f2, f3⟩ := on_precommit_net_core_fields _ _ _ _ h
      refine on_precommit_net_replay s1 ses2 m ?_ ?_
      · rw [f1, f2]; simpa using g
      · rw [f3]; exact List.mem_cons_self _ _

/-- C9: replaying an already-processed prevote or precommit message
(byte-identical, hence same digest) leaves the engine state unchanged — the
`_self_messages` digest cache drops the replay before round dispatch — and a
second call of `bcast` with a message of the same digest sends nothing. -/
theorem C9_replay_idempotent :
    (∀ (s : randpa) (ses ses2 : Nat) (m : prevote_msg) (s1 : randpa) (o1 : List out_msg),
        randpa.on_prevote_net s ses m = some (s1, o1) →
        randpa.on_prevote_net s1 ses2 m = some (s1, []))
    ∧ (∀ (s : randpa) (ses ses2 : Nat) (m : precommit_msg) (s1 : randpa) (o1 : List out_msg),
        randpa.on_precommit_net s ses m = some (s1, o1) →
        randpa.on_precommit_net s1 ses2 m = some (s1, []))
    ∧ (∀ (s : randpa) (d : net_msg_data),
        randpa.bcast (randpa.bcast s d).1 d = ((randpa.bcast s d).1, [])) := by
  refine ⟨fun s ses ses2 m s1 o1 h => on_prevote_net_idem s ses ses2 m s1 o1 h,
          fun s ses ses2 m s1 o1 h => on_precommit_net_idem s ses ses2 m s1 o1 h, ?_⟩
  intro s d
  by_cases hm : d ∈ s._peer_messages
  · have h1 : randpa.bcast s d = (s, []) := by
      unfold randpa.bcast
      rw [if_pos hm]
    rw [h1]
    show randpa.bcast s d = (s, [])
    exact h1
  · have h1 : randpa.bcast s d
        = ({ s with _peer_messages := d :: s._peer_messages },
           s._peers.map (fun pr => out_msg.net pr.2 d)) := by
      unfold randpa.bcast
      rw [if_neg hm]
    rw [h1]
    show randpa.bcast ({ s with _peer_messages := d :: s._peer_messages }) d
        = ({ s with _peer_messages := d :: s._peer_messages }, [])
    unfold randpa.bcast
    rw [if_pos (show d ∈ ({ s with _peer_messages := d :: s._peer_messages } :
      randpa)._peer_messages from List.mem_cons_self _ _)]

/-- Witness for C9 at a concrete engine state and concrete messages. -/
theorem C9_replay_witness :
    randpa.on_prevote_net cw9_res.1 4 cw9_msg = some (cw9_res.1, [])
    ∧ randpa.on_precommit_net cw9_pres.1 4 cw9_pmsg = some (cw9_pres.1, [])
    ∧ randpa.bcast (randpa.bcast cw1_state (net_msg_data.prevote cw9_msg)).1
        (net_msg_data.prevote cw9_msg)
        = ((randpa.bcast cw1_state (net_msg_data.prevote cw9_msg)).1, []) :=
  ⟨C9_replay_idempotent.1 cw1_state 3 4 cw9_msg cw9_res.1 cw9_res.2 (by decide),
   C9_replay_idempotent.2.1 cw1_state 3 4 cw9_pmsg cw9_pres.1 cw9_pres.2 (by decide),
   C9_replay_idempotent.2.2 cw1_state (net_msg_data.prevote cw9_msg)⟩

theorem is_precommit_threshold_reached_some (r : randpa_round) (bn : best_node_info)
    (hb : r.best_node = some bn) :
    randpa_round.is_precommit_threshold_reached r
      = some (decide (r.proof.precommits.length > 2 * bn.active_bp_keys.card / 3)) := by
  unfold randpa_round.is_precommit_threshold_reached
  rw [hb]

theorem add_precommit_shape (r : randpa_round) (d : precommit_type) (k : public_key_type)
    (bn : best_node_info) (hb : r.best_node = some bn) :
    ∃ (st : state_type) (f : Bool),
      randpa_round.add_precommit r d k
        = some ({ randpa_round.precommit_recorded r d k with state := st }, f) := by
  unfold randpa_round.add_precommit
  by_cases hs : (randpa_round.precommit_recorded r d k).state = state_type.done
  · rw [if_pos hs]
    exact ⟨(randpa_round.precommit_recorded r d k).state, false, rfl⟩
  · rw [if_neg hs]
    have hb' : (randpa_round.precommit_recorded r d k).best_node = some bn := hb
    rw [is_precommit_threshold_reached_some _ bn hb']
    by_cases ht : (randpa_round.precommit_recorded r d k).proof.precommits.length
        > 2 * bn.active_bp_keys.card / 3
    · rw [decide_eq_true ht]
      exact ⟨state_type.done, true, rfl⟩
    · rw [decide_eq_false ht]
      exact ⟨(randpa_round.precommit_recorded r d k).state, false, rfl⟩

theorem precommit_providers_spec (d : precommit_type) (ks : List public_key_type) :
    ∀ (r : randpa_round) (fired : Option proof_type) (bn : best_node_info),
      r.best_node = some bn →
      ∃ r' fired', randpa_round.precommit_providers r d fired ks = some (r', fired')
        ∧ r'.precommited_keys = r.precommited_keys ∪ ks.toFinset
        ∧ r'.proof.precommits
            = r.proof.precommits ++ ks.map (fun k => (⟨d, [k]⟩ : precommit_msg))
        ∧ r'.best_node = r.best_node
        ∧ r'.num = r.num ∧ r'.primary = r.primary
        ∧ r'.signature_providers = r.signature_providers := by
  induction ks with
  | nil =>
    intro r fired bn hb
    exact ⟨r, fired, rfl, by simp, by simp, rfl, rfl, rfl, rfl⟩
  | cons k ks ih =>
    intro r fired bn hb
    obtain ⟨st, f, hadd⟩ := add_precommit_shape r d k bn hb
    obtain ⟨r', fired', hrec, h1, h2, h3, h4, h5, h6⟩ :=
      ih ({ randpa_round.precommit_recorded r d k with state := st })
        (if fired.isSome then fired
         else if f then some ({ randpa_round.precommit_recorded r d k with state := st }).proof
         else none) bn hb
    refine ⟨r', fired', ?_, ?_, ?_, h3, h4, h5, h6⟩
    · unfold randpa_round.precommit_providers
      rw [hadd]
      exact hrec
    · rw [h1]
      show insert k r.precommited_keys ∪ ks.toFinset
          = r.precommited_keys ∪ (k :: ks).toFinset
      rw [List.toFinset_cons, Finset.insert_union, Finset.union_insert]
    · rw [h2]
      show (r.proof.precommits ++ [⟨d, [k]⟩]) ++ ks.map (fun k => (⟨d, [k]⟩ : precommit_msg))
          = r.proof.precommits ++ (k :: ks).map (fun k => (⟨d, [k]⟩ : precommit_msg))
      rw [List.append_assoc]
      rfl

theorem precommit_fn_spec (r : randpa_round) (bn : best_node_info)
    (hst : r.state = state_type.ready_to_precommit) (hb : r.best_node = some bn) :
    ∃ r' fired, randpa_round.precommit_fn r
        = some (r', fired, [⟨⟨r.num, bn.block_id⟩, r.signature_providers⟩])
      ∧ r'.precommited_keys = r.precommited_keys ∪ r.signature_providers.toFinset
      ∧ r'.proof.precommits.length
          = r.proof.precommits.length + r.signature_providers.length := by
  have heq : randpa_round.precommit_fn r = randpa_round.precommit_with r bn := by
    unfold randpa_round.precommit_fn
    rw [if_neg (show ¬ ¬ r.state = state_type.ready_to_precommit by
          rw [hst]; exact not_not_intro rfl),
        hb]
  rw [heq]
  unfold randpa_round.precommit_with
  have hb' : ({ r with state := state_type.precommit } : randpa_round).best_node = some bn := hb
  obtain ⟨r', fired', hrec, h1, h2, _, _, _, _⟩ :=
    precommit_providers_spec ⟨r.num, bn.block_id⟩ r.signature_providers
      ({ r with state := state_type.precommit }) none bn hb'
  refine ⟨r', fired', ?_, ?_, ?_⟩
  · rw [hrec]
  · exact h1
  · rw [h2, List.length_append, List.length_map]

theorem add_prevote_prevoted (t : prefix_tree) (r : randpa_round) (d : prevote_type)
    (k : public_key_type) (t' : prefix_tree) (r' : randpa_round)
    (h : randpa_round.add_prevote t r d k = some (t', r')) :
    r'.prevoted_keys = insert k r.prevoted_keys := by
  unfold randpa_round.add_prevote at h
  cases hc : prefix_tree.add_confirmations t d.base_block d.blocks k ⟨d, [k]⟩ with
  | none => rw [hc] at h; exact absurd h (by simp)
  | some pr =>
    obtain ⟨t1, nd⟩ := pr
    rw [hc] at h
    replace h : (if ¬ r.state = state_type.ready_to_precommit
          ∧ randpa_round.is_prevote_threshold_reached t1 nd = true then
        some (t1, { randpa_round.prevote_recorded r k nd with
                    state := state_type.ready_to_precommit,
                    best_node := some (randpa_round.snapshot nd) })
      else some (t1, randpa_round.prevote_recorded r k nd)) = some (t', r') := h
    split_ifs at h <;>
      · simp only [Option.some.injEq, Prod.mk.injEq] at h
        rw [← h.2]
        rfl

theorem prevote_providers_mono (d : prevote_type) (ks : List public_key_type) :
    ∀ (t : prefix_tree) (r : randpa_round) (t' : prefix_tree) (r' : randpa_round),
      randpa_round.prevote_providers t r d ks = some (t', r') →
      ∀ k ∈ r.prevoted_keys, k ∈ r'.prevoted_keys := by
  induction ks with
  | nil =>
    intro t r t' r' h k hk
    unfold randpa_round.prevote_providers at h
    simp only [Option.some.injEq, Prod.mk.injEq] at h
    rw [← h.2]
    exact hk
  | cons k0 ks ih =>
    intro t r t' r' h k hk
    unfold randpa_round.prevote_providers at h
    cases ha : randpa_round.add_prevote t r d k0 with
    | none => rw [ha] at h; exact absurd h (by simp)
    | some pr =>
      obtain ⟨t1, r1⟩ := pr
      rw [ha] at h
      refine ih t1 r1 t' r' h k ?_
      rw [add_prevote_prevoted _ _ _ _ _ _ ha]
      exact Finset.mem_insert_of_mem hk

theorem prevote_providers_keys (d : prevote_type) (ks : List public_key_type) :
    ∀ (t : prefix_tree) (r : randpa_round) (t' : prefix_tree) (r' : randpa_round),
      randpa_round.prevote_providers t r d ks = some (t', r') →
      ∀ k ∈ ks, k ∈ r'.prevoted_keys := by
  induction ks with
  | nil =>
    intro t r t' r' h k hk
    exact absurd hk (by simp)
  | cons k0 ks ih =>
    intro t r t' r' h k hk
    unfold randpa_round.prevote_providers at h
    cases ha : randpa_round.add_prevote t r d k0 with
    | none => rw [ha] at h; exact absurd h (by simp)
    | some pr =>
      obtain ⟨t1, r1⟩ := pr
      rw [ha] at h
      rcases List.mem_cons.mp hk with hk | hk
      · subst hk
        refine prevote_providers_mono d ks t1 r1 t' r' h k ?_
        rw [add_prevote_prevoted _ _ _ _ _ _ ha]
        exact Finset.mem_insert_self _ _
      · exact ih t1 r1 t' r' h k hk

/-- C10: locally signed votes bypass validation — the precommits injected by
`precommit()` are passed directly to `add_precommit` without
`validate_precommit`, so for every local signature provider the key is
inserted into `precommited_keys` and its precommit appended to
`proof.precommits` (one entry per provider, even for duplicate keys), with no
round-number, duplicate-key, best-block-match, prevoted-before or
active-BP-membership hypotheses; likewise the prevotes injected by
`prevote()` reach `add_prevote` without `validate_prevote`, so every provider
key is recorded in `prevoted_keys`. -/
theorem C10_local_votes_bypass_validation :
    (∀ (r : randpa_round) (bn : best_node_info),
        r.state = state_type.ready_to_precommit → r.best_node = some bn →
        ∃ r' fired, randpa_round.precommit_fn r
            = some (r', fired, [⟨⟨r.num, bn.block_id⟩, r.signature_providers⟩])
          ∧ (∀ k ∈ r.signature_providers, k ∈ r'.precommited_keys)
          ∧ r'.proof.precommits.length
              = r.proof.precommits.length + r.signature_providers.length)
    ∧ (∀ (t : prefix_tree) (r : randpa_round) (t' : prefix_tree) (r' : randpa_round)
         (bc : List prevote_msg) (nd : tree_node),
        prefix_tree.get_last_inserted_block t r.primary = some nd →
        randpa_round.prevote_fn t r = some (t', r', bc) →
        ∀ k ∈ r.signature_providers, k ∈ r'.prevoted_keys) := by
  constructor
  · intro r bn hst hb
    obtain ⟨r', fired, h0, h1, h2⟩ := precommit_fn_spec r bn hst hb
    refine ⟨r', fired, h0, ?_, h2⟩
    intro k hk
    rw [h1]
    exact Finset.mem_union_right _ (List.mem_toFinset.mpr hk)
  · intro t r t' r' bc nd hlast h
    unfold randpa_round.prevote_fn at h
    by_cases hi : ¬ r.state = state_type.init
    · rw [if_pos hi] at h
      exact absurd h (by simp)
    · rw [if_neg hi] at h
      rw [hlast] at h
      replace h : (match prefix_tree.get_branch t nd.block_id with
          | none => none
          | some (base, blks) =>
            match randpa_round.prevote_providers t { r with state := state_type.prevote }
                ⟨r.num, base, blks⟩ r.signature_providers with
            | none => none
            | some (t', r') =>
              some (t', r', [⟨⟨r.num, base, blks⟩, r.signature_providers⟩]))
          = some (t', r', bc) := h
      cases hbr : prefix_tree.get_branch t nd.block_id with
      | none => rw [hbr] at h; exact absurd h (by simp)
      | some pr =>
        obtain ⟨base, blks⟩ := pr
        rw [hbr] at h
        replace h : (match randpa_round.prevote_providers t
              { r with state := state_type.prevote } ⟨r.num, base, blks⟩
              r.signature_providers with
            | none => none
            | some (t2, r2) =>
              some (t2, r2, [⟨⟨r.num, base, blks⟩, r.signature_providers⟩]))
            = some (t', r', bc) := h
        cases hp : randpa_round.prevote_providers t { r with state := state_type.prevote }
            ⟨r.num, base, blks⟩ r.signature_providers with
        | none => rw [hp] at h; exact absurd h (by simp)
        | some pq =>
          obtain ⟨t2, r2⟩ := pq
          rw [hp] at h
          have h' : some (t2, r2, [(⟨⟨r.num, base, blks⟩, r.signature_providers⟩ : prevote_msg)])
              = some (t', r', bc) := h
          simp only [Option.some.injEq, Prod.mk.injEq] at h'
          intro k hk
          rw [← h'.2.1]
          exact prevote_providers_keys _ _ _ _ _ _ hp k hk

theorem add_prevote_wf (t : prefix_tree) (r : randpa_round) (d : prevote_type)
    (k : public_key_type) (t' : prefix_tree) (r' : randpa_round)
    (hnd : ¬ r.state = state_type.done) (hwf : round_wf r)
    (h : randpa_round.add_prevote t r d k = some (t', r')) :
    round_wf r' ∧ ¬ r'.state = state_type.done := by
  unfold randpa_round.add_prevote at h
  cases hc : prefix_tree.add_confirmations t d.base_block d.blocks k ⟨d, [k]⟩ with
  | none => rw [hc] at h; exact absurd h (by simp)
  | some pr =>
    obtain ⟨t1, nd⟩ := pr
    rw [hc] at h
    replace h : (if ¬ r.state = state_type.ready_to_precommit
          ∧ randpa_round.is_prevote_threshold_reached t1 nd = true then
        some (t1, { randpa_round.prevote_recorded r k nd with
                    state := state_type.ready_to_precommit,
                    best_node := some (randpa_round.snapshot nd) })
      else some (t1, randpa_round.prevote_recorded r k nd)) = some (t', r') := h
    split_ifs at h with hcond
    · simp only [Option.some.injEq, Prod.mk.injEq] at h
      rw [← h.2]
      exact ⟨⟨fun _ => rfl, fun hd => absurd hd (by simp)⟩, by simp⟩
    · simp only [Option.some.injEq, Prod.mk.injEq] at h
      rw [← h.2]
      refine ⟨⟨?_, fun hd => absurd hd hnd⟩, hnd⟩
      intro hst
      have hbs := hwf.1 hst
      show (match r.best_node with
        | none => none
        | some bn => if bn.block_id = nd.block_id
            then some (randpa_round.snapshot nd) else some bn).isSome = true
      cases hb : r.best_node with
      | none => rw [hb] at hbs; exact absurd hbs (by simp)
      | some bn =>
        show (if bn.block_id = nd.block_id
            then some (randpa_round.snapshot nd) else some bn).isSome = true
        split_ifs <;> rfl

theorem on_prevote_keys_wf (d : prevote_type) (ks : List public_key_type) :
    ∀ (t : prefix_tree) (r : randpa_round) (t' : prefix_tree) (r' : randpa_round),
      ¬ r.state = state_type.done → round_wf r →
      randpa_round.on_prevote_keys t r d ks = some (t', r') →
      round_wf r' ∧ ¬ r'.state = state_type.done := by
  induction ks with
  | nil =>
    intro t r t' r' hnd hwf h
    unfold randpa_round.on_prevote_keys at h
    simp only [Option.some.injEq, Prod.mk.injEq] at h
    rw [← h.2]
    exact ⟨hwf, hnd⟩
  | cons k ks ih =>
    intro t r t' r' hnd hwf h
    unfold randpa_round.on_prevote_keys at h
    by_cases hv : randpa_round.validate_prevote t r d k = true
    · rw [if_pos hv] at h
      cases ha : randpa_round.add_prevote t r d k with
      | none => rw [ha] at h; exact absurd h (by simp)
      | some pr =>
        obtain ⟨t1, r1⟩ := pr
        rw [ha] at h
        obtain ⟨hwf1, hnd1⟩ := add_prevote_wf t r d k t1 r1 hnd hwf ha
        exact ih t1 r1 t' r' hnd1 hwf1 h
    · rw [if_neg hv] at h
      exact ih t r t' r' hnd hwf h

theorem on_prevote_wf (t : prefix_tree) (r : randpa_round) (m : prevote_msg)
    (t' : prefix_tree) (r' : randpa_round) (hwf : round_wf r)
    (h : randpa_round.on_prevote t r m = some (t', r')) : round_wf r' := by
  unfold randpa_round.on_prevote at h
  split_ifs at h with hg
  · simp only [Option.some.injEq, Prod.mk.injEq] at h
    rw [← h.2]
    exact hwf
  · have hnd : ¬ r.state = state_type.done := by
      rcases not_and_or.mp hg with hx | hx
      · rw [not_not] at hx; rw [hx]; simp
      · rw [not_not] at hx; rw [hx]; simp
    exact (on_prevote_keys_wf m.data m.public_keys t r t' r' hnd hwf h).1

theorem add_precommit_wf (r : randpa_round) (d : precommit_type) (k : public_key_type)
    (r' : randpa_round) (f : Bool) (hwf : round_wf r)
    (h : randpa_round.add_precommit r d k = some (r', f)) :
    round_wf r' := by
  unfold randpa_round.add_precommit at h
  by_cases hs : (randpa_round.precommit_recorded r d k).state = state_type.done
  · rw [if_pos hs] at h
    simp only [Option.some.injEq, Prod.mk.injEq] at h
    rw [← h.1]
    constructor
    · intro hst
      rcases hst with hx | hx <;> exact absurd (hs.symm.trans hx) (by simp)
    · intro _
      obtain ⟨bn, hb, hlen⟩ := hwf.2 hs
      refine ⟨bn, hb, ?_⟩
      show (r.proof.precommits ++ [(⟨d, [k]⟩ : precommit_msg)]).length
          > 2 * bn.active_bp_keys.card / 3
      rw [List.length_append]
      omega
  · rw [if_neg hs] at h
    cases hth : randpa_round.is_precommit_threshold_reached
        (randpa_round.precommit_recorded r d k) with
    | none => rw [hth] at h; exact absurd h (by simp)
    | some b =>
      rw [hth] at h
      replace h : (if b = true then
          some ({ randpa_round.precommit_recorded r d k with state := state_type.done }, true)
        else some (randpa_round.precommit_recorded r d k, false)) = some (r', f) := h
      by_cases hb : b = true
      · rw [if_pos hb] at h
        simp only [Option.some.injEq, Prod.mk.injEq] at h
        rw [← h.1]
        constructor
        · intro hst
          rcases hst with hx | hx <;> exact absurd hx (by simp)
        · intro _
          unfold randpa_round.is_precommit_threshold_reached at hth
          cases hbn : (randpa_round.precommit_recorded r d k).best_node with
          | none => rw [hbn] at hth; exact absurd hth (by simp)
          | some bn =>
            rw [hbn] at hth
            simp only [Option.some.injEq] at hth
            refine ⟨bn, rfl, ?_⟩
            exact of_decide_eq_true (hth.trans hb)
      · rw [if_neg hb] at h
        simp only [Option.some.injEq, Prod.mk.injEq] at h
        rw [← h.1]
        exact ⟨fun hst => hwf.1 hst, fun hd => absurd hd hs⟩

theorem on_precommit_keys_wf (d : precommit_type) (ks : List public_key_type) :
    ∀ (r : randpa_round) (fired : Option proof_type) (r' : randpa_round)
      (fired' : Option proof_type), round_wf r →
      randpa_round.on_precommit_keys r d fired ks = some (r', fired') → round_wf r' := by
  induction ks with
  | nil =>
    intro r fired r' fired' hwf h
    unfold randpa_round.on_precommit_keys at h
    simp only [Option.some.injEq, Prod.mk.injEq] at h
    rw [← h.1]
    exact hwf
  | cons k ks ih =>
    intro r fired r' fired' hwf h
    unfold randpa_round.on_precommit_keys at h
    cases hv : randpa_round.validate_precommit r d k with
    | none => rw [hv] at h; exact absurd h (by simp)
    | some b =>
      rw [hv] at h
      cases b with
      | false => exact ih r fired r' fired' hwf h
      | true =>
        replace h : (match randpa_round.add_precommit r d k with
            | none => none
            | some (r1, f) =>
              randpa_round.on_precommit_keys r1 d
                (if fired.isSome then fired else if f then some r1.proof else none) ks)
            = some (r', fired') := h
        cases ha : randpa_round.add_precommit r d k with
        | none => rw [ha] at h; exact absurd h (by simp)
        | some pr =>
          obtain ⟨r1, f⟩ := pr
          rw [ha] at h
          exact ih r1 _ r' fired' (add_precommit_wf r d k r1 f hwf ha) h

theorem on_precommit_wf (r : randpa_round) (m : precommit_msg)
    (r' : randpa_round) (fired : Option proof_type) (hwf : round_wf r)
    (h : randpa_round.on_precommit r m = some (r', fired)) : round_wf r' := by
  unfold randpa_round.on_precommit at h
  split_ifs at h with hg
  · simp only [Option.some.injEq, Prod.mk.injEq] at h
    rw [← h.1]
    exact hwf
  · exact on_precommit_keys_wf m.data m.public_keys r none r' fired hwf h

theorem precommit_providers_wf (d : precommit_type) (ks : List public_key_type) :
    ∀ (r : randpa_round) (fired : Option proof_type) (r' : randpa_round)
      (fired' : Option proof_type), round_wf r →
      randpa_round.precommit_providers r d fired ks = some (r', fired') →
      round_wf r' := by
  induction ks with
  | nil =>
    intro r fired r' fired' hwf h
    unfold randpa_round.precommit_providers at h
    simp only [Option.some.injEq, Prod.mk.injEq] at h
    rw [← h.1]
    exact hwf
  | cons k ks ih =>
    intro r fired r' fired' hwf h
    unfold randpa_round.precommit_providers at h
    cases ha : randpa_round.add_precommit r d k with
    | none => rw [ha] at h; exact absurd h (by simp)
    | some pr =>
      obtain ⟨r1, f⟩ := pr
      rw [ha] at h
      exact ih r1 _ r' fired' (add_precommit_wf r d k r1 f hwf ha) h

theorem precommit_fn_wf (r : randpa_round) (r' : randpa_round)
    (fired : Option proof_type) (bc : List precommit_msg)
    (h : randpa_round.precommit_fn r = some (r', fired, bc)) :
    round_wf r' := by
  unfold randpa_round.precommit_fn at h
  by_cases hg : r.state = state_type.ready_to_precommit
  · rw [if_neg (not_not_intro hg)] at h
    cases hb : r.best_node with
    | none => rw [hb] at h; exact absurd h (by simp)
    | some bn =>
      rw [hb] at h
      replace h : randpa_round.precommit_with r bn = some (r', fired, bc) := h
      unfold randpa_round.precommit_with at h
      cases hp : randpa_round.precommit_providers { r with state := state_type.precommit }
          ⟨r.num, bn.block_id⟩ none r.signature_providers with
      | none => rw [hp] at h; exact absurd h (by simp)
      | some pr =>
        obtain ⟨r1, f1⟩ := pr
        rw [hp] at h
        have h' : some (r1, f1,
            [(⟨⟨r.num, bn.block_id⟩, r.signature_providers⟩ : precommit_msg)])
            = some (r', fired, bc) := h
        simp only [Option.some.injEq, Prod.mk.injEq] at h'
        have hwf0 : round_wf { r with state := state_type.precommit } := by
          constructor
          · intro _
            show r.best_node.isSome = true
            rw [hb]
            rfl
          · intro hd
            exact absurd hd (by simp)
        rw [← h'.1]
        exact precommit_providers_wf _ _ _ _ _ _ hwf0 hp
  · rw [if_pos hg] at h
    exact absurd h (by simp)

theorem end_prevote_wf (r : randpa_round) (r' : randpa_round)
    (fired : Option proof_type) (bc : List precommit_msg)
    (h : randpa_round.end_prevote r = some (r', fired, bc)) :
    round_wf r' := by
  unfold randpa_round.end_prevote at h
  by_cases hg : r.state = state_type.ready_to_precommit
  · rw [if_neg (not_not_intro hg)] at h
    cases hb : r.best_node with
    | none => rw [hb] at h; exact absurd h (by simp)
    | some bn =>
      rw [hb] at h
      replace h : randpa_round.end_prevote_with r bn = some (r', fired, bc) := h
      unfold randpa_round.end_prevote_with at h
      exact precommit_fn_wf _ _ _ _ h
  · rw [if_pos hg] at h
    simp only [Option.some.injEq, Prod.mk.injEq] at h
    rw [← h.1]
    exact ⟨fun hst => by rcases hst with hx | hx <;> exact absurd hx (by simp),
           fun hd => absurd hd (by simp)⟩

theorem finish_wf (r : randpa_round) (hwf : round_wf r) :
    round_wf (randpa_round.finish r).1 := by
  unfold randpa_round.finish
  by_cases hs : r.state = state_type.done
  · rw [if_neg (not_not_intro hs)]
    exact hwf
  · rw [if_pos hs]
    exact ⟨fun hst => by rcases hst with hx | hx <;> exact absurd hx (by simp),
           fun hd => absurd hd (by simp)⟩

theorem prevote_providers_wf (d : prevote_type) (ks : List public_key_type) :
    ∀ (t : prefix_tree) (r : randpa_round) (t' : prefix_tree) (r' : randpa_round),
      ¬ r.state = state_type.done → round_wf r →
      randpa_round.prevote_providers t r d ks = some (t', r') →
      round_wf r' ∧ ¬ r'.state = state_type.done := by
  induction ks with
  | nil =>
    intro t r t' r' hnd hwf h
    unfold randpa_round.prevote_providers at h
    simp only [Option.some.injEq, Prod.mk.injEq] at h
    rw [← h.2]
    exact ⟨hwf, hnd⟩
  | cons k ks ih =>
    intro t r t' r' hnd hwf h
    unfold randpa_round.prevote_providers at h
    cases ha : randpa_round.add_prevote t r d k with
    | none => rw [ha] at h; exact absurd h (by simp)
    | some pr =>
      obtain ⟨t1, r1⟩ := pr
      rw [ha] at h
      obtain ⟨hwf1, hnd1⟩ := add_prevote_wf t r d k t1 r1 hnd hwf ha
      exact ih t1 r1 t' r' hnd1 hwf1 h

theorem prevote_fn_wf (t : prefix_tree) (r : randpa_round) (t' : prefix_tree)
    (r' : randpa_round) (bc : List prevote_msg)
    (h : randpa_round.prevote_fn t r = some (t', r', bc)) :
    round_wf r' := by
  unfold randpa_round.prevote_fn at h
  by_cases hi : r.state = state_type.init
  · rw [if_neg (not_not_intro hi)] at h
    cases hl : prefix_tree.get_last_inserted_block t r.primary with
    | none =>
      rw [hl] at h
      have h' : some (t, ({ r with state := state_type.prevote } : randpa_round),
          ([] : List prevote_msg)) = some (t', r', bc) := h
      simp only [Option.some.injEq, Prod.mk.injEq] at h'
      rw [← h'.2.1]
      exact ⟨fun hst => by rcases hst with hx | hx <;> exact absurd hx (by simp),
             fun hd => absurd hd (by simp)⟩
    | some last_node =>
      rw [hl] at h
      replace h : (match prefix_tree.get_branch t last_node.block_id with
          | none => none
          | some (base, blks) =>
            match randpa_round.prevote_providers t { r with state := state_type.prevote }
                ⟨r.num, base, blks⟩ r.signature_providers with
            | none => none
            | some (t2, r2) =>
              some (t2, r2, [⟨⟨r.num, base, blks⟩, r.signature_providers⟩]))
          = some (t', r', bc) := h
      cases hbr : prefix_tree.get_branch t last_node.block_id with
      | none => rw [hbr] at h; exact absurd h (by simp)
      | some pr =>
        obtain ⟨base, blks⟩ := pr
        rw [hbr] at h
        replace h : (match randpa_round.prevote_providers t
              { r with state := state_type.prevote }
              ⟨r.num, base, blks⟩ r.signature_providers with
            | none => none
            | some (t2, r2) =>
              some (t2, r2, [⟨⟨r.num, base, blks⟩, r.signature_providers⟩]))
            = some (t', r', bc) := h
        cases hp : randpa_round.prevote_providers t { r with state := state_type.prevote }
            ⟨r.num, base, blks⟩ r.signature_providers with
        | none => rw [hp] at h; exact absurd h (by simp)
        | some pq =>
          obtain ⟨t2, r2⟩ := pq
          rw [hp] at h
          have h' : some (t2, r2,
              [(⟨⟨r.num, base, blks⟩, r.signature_providers⟩ : prevote_msg)])
              = some (t', r', bc) := h
          simp only [Option.some.injEq, Prod.mk.injEq] at h'
          have hwf0 : round_wf ({ r with state := state_type.prevote } : randpa_round) :=
            ⟨fun hst => by rcases hst with hx | hx <;> exact absurd hx (by simp),
             fun hd => absurd hd (by simp)⟩
          rw [← h'.2.1]
          exact (prevote_providers_wf _ _ t _ t2 r2 (by simp) hwf0 hp).1
  · rw [if_pos hi] at h
    exact absurd h (by simp)

theorem make_wf (n : Nat) (primary : public_key_type) (t : prefix_tree)
    (provs : List public_key_type) (t0 : prefix_tree) (r0 : randpa_round)
    (bc : List prevote_msg)
    (h : randpa_round.make n primary t provs = some (t0, r0, bc)) :
    round_wf r0 :=
  prevote_fn_wf t ⟨n, primary, state_type.init, ⟨0, ⟨0, 0⟩, [], []⟩, none, provs, ∅, ∅⟩
    t0 r0 bc h

theorem round_step_wf (t : prefix_tree) (r : randpa_round) (i : round_input)
    (t' : prefix_tree) (r' : randpa_round) (hwf : round_wf r)
    (h : round_step t r i = some (t', r')) : round_wf r' := by
  cases i with
  | prevote_in m => exact on_prevote_wf t r m t' r' hwf h
  | precommit_in m =>
    replace h : (match randpa_round.on_precommit r m with
        | none => none
        | some (r1, _) => some (t, r1)) = some (t', r') := h
    cases hp : randpa_round.on_precommit r m with
    | none => rw [hp] at h; exact absurd h (by simp)
    | some pr =>
      obtain ⟨r1, f⟩ := pr
      rw [hp] at h
      simp only [Option.some.injEq, Prod.mk.injEq] at h
      rw [← h.2]
      exact on_precommit_wf r m r1 f hwf hp
  | end_prevote_in =>
    replace h : (match randpa_round.end_prevote r with
        | none => none
        | some (r1, _, _) => some (t, r1)) = some (t', r') := h
    cases hp : randpa_round.end_prevote r with
    | none => rw [hp] at h; exact absurd h (by simp)
    | some pr =>
      obtain ⟨r1, f, bc⟩ := pr
      rw [hp] at h
      simp only [Option.some.injEq, Prod.mk.injEq] at h
      rw [← h.2]
      exact end_prevote_wf r r1 f bc hp
  | finish_in =>
    replace h : some (t, (randpa_round.finish r).1) = some (t', r') := h
    simp only [Option.some.injEq, Prod.mk.injEq] at h
    rw [← h.2]
    exact finish_wf r hwf

theorem round_reachable_wf {p q : prefix_tree × randpa_round}
    (h : round_reachable p q) (hwf : round_wf p.2) : round_wf q.2 := by
  induction h with
  | refl => exact hwf
  | tail i hr hs ih => exact round_step_wf _ _ i _ _ ih hs

/-- C2 (amended): in every state of a round object reachable from its
constructor through the round's own message-driven transitions (message
dispatch, `end_prevote`, `finish` — without the engine's external
`set_state`), `state = done` implies a best node is set and the number of
entries of the `proof.precommits` vector — the quantity the code's threshold
test counts — exceeds `⌊2/3 · |active_bp_keys(best_node)|⌋`. -/
theorem C2_amended_done_implies_threshold
    (n : Nat) (primary : public_key_type) (t : prefix_tree)
    (provs : List public_key_type) (t0 : prefix_tree) (r0 : randpa_round)
    (bc : List prevote_msg) (t1 : prefix_tree) (r1 : randpa_round)
    (hmk : randpa_round.make n primary t provs = some (t0, r0, bc))
    (hreach : round_reachable (t0, r0) (t1, r1))
    (hdone : r1.state = state_type.done) :
    ∃ bn, r1.best_node = some bn
      ∧ r1.proof.precommits.length > 2 * bn.active_bp_keys.card / 3 :=
  (round_reachable_wf hreach (make_wf n primary t provs t0 r0 bc hmk)).2 hdone

/-- C2 counterexample: a constructor-built round (primary's block absent, so
it stays in `prevote` with no votes) is driven to `done` by the engine's
external `set_state(done)` (the path randpa.hpp takes after validating an
external proof); there `precommited_keys` is empty and no best node exists,
so the claimed invariant `|precommited_keys| > ⌊2/3·|active_bp_keys(best_node)|⌋`
fails on this reachable state. -/
theorem C2_counterexample_external_set_state :
    randpa_round.make 0 5 cw2ce_tree [1] = some (cw2ce_tree, cw2ce_r0, [])
    ∧ round_reachable_ext (cw2ce_tree, cw2ce_r0) (cw2ce_tree, cw2ce_r1)
    ∧ cw2ce_r1.state = state_type.done
    ∧ cw2ce_r1.precommited_keys = ∅
    ∧ cw2ce_r1.best_node = none
    ∧ ¬ ∃ bn, cw2ce_r1.best_node = some bn
        ∧ cw2ce_r1.precommited_keys.card > 2 * bn.active_bp_keys.card / 3 := by
  refine ⟨by decide, ?_, by decide, by decide, by decide, ?_⟩
  · exact round_reachable_ext.set_state state_type.done
      (round_reachable_ext.refl (cw2ce_tree, cw2ce_r0))
  · rintro ⟨bn, hb, _⟩
    have hnone : (none : Option best_node_info) = some bn := hb
    exact Option.noConfusion hnone

/-- Witness for C2 (amended): a one-BP round reaches `done` after
`end_prevote` and satisfies the threshold. -/
theorem C2_amended_witness :
    ∃ bn, cw2_step.2.best_node = some bn
      ∧ cw2_step.2.proof.precommits.length > 2 * bn.active_bp_keys.card / 3 :=
  C2_amended_done_implies_threshold 0 1 cw2_tree [1] cw2_init.1 cw2_init.2.1 cw2_init.2.2
    cw2_step.1 cw2_step.2 (by decide)
    (round_reachable.tail round_input.end_prevote_in
      (round_reachable.refl (cw2_init.1, cw2_init.2.1)) (by decide))
    (by decide)

/-- Witness for C10 at a provider key that is inactive, duplicated, and
already present in `precommited_keys`. -/
theorem C10_bypass_witness :
    (∃ r' fired, randpa_round.precommit_fn cw10_round
        = some (r', fired, [⟨⟨cw10_round.num, cw10_bn.block_id⟩,
            cw10_round.signature_providers⟩])
      ∧ (∀ k ∈ cw10_round.signature_providers, k ∈ r'.precommited_keys)
      ∧ r'.proof.precommits.length
          = cw10_round.proof.precommits.length + cw10_round.signature_providers.length)
    ∧ (∀ k ∈ cw10_prevr.signature_providers, k ∈ cw10_prevres.2.1.prevoted_keys) :=
  ⟨C10_local_votes_bypass_validation.1 cw10_round cw10_bn rfl rfl,
   C10_local_votes_bypass_validation.2 cw10_tree cw10_prevr cw10_prevres.1
     cw10_prevres.2.1 cw10_prevres.2.2 ⟨⟨2, 0⟩, some ⟨1, 0⟩, 1, ∅, []⟩
     (by decide) (by decide)⟩

theorem bcast_prevote_fold_frozen (l : List prevote_msg) :
    ∀ p : randpa × List out_msg,
      (List.foldl (fun acc pm =>
          ((randpa.bcast acc.1 (net_msg_data.prevote pm)).1,
           acc.2 ++ (randpa.bcast acc.1 (net_msg_data.prevote pm)).2)) p l).1._is_frozen
        = p.1._is_frozen := by
  induction l with
  | nil => intro p; rfl
  | cons m rest ih =>
    intro p
    rw [List.foldl_cons, ih]
    exact (bcast_fields p.1 (net_msg_data.prevote m)).2.1

theorem bcast_precommit_fold_frozen (l : List precommit_msg) :
    ∀ p : randpa × List out_msg,
      (List.foldl (fun acc pm =>
          ((randpa.bcast acc.1 (net_msg_data.precommit pm)).1,
           acc.2 ++ (randpa.bcast acc.1 (net_msg_data.precommit pm)).2)) p l).1._is_frozen
        = p.1._is_frozen := by
  induction l with
  | nil => intro p; rfl
  | cons m rest ih =>
    intro p
    rw [List.foldl_cons, ih]
    exact (bcast_fields p.1 (net_msg_data.precommit m)).2.1

theorem bcast_prevote_list_frozen (s : randpa) (l : List prevote_msg) :
    (randpa.bcast_prevote_list s l).1._is_frozen = s._is_frozen :=
  bcast_prevote_fold_frozen l (s, [])

theorem bcast_precommit_list_frozen (s : randpa) (l : List precommit_msg) :
    (randpa.bcast_precommit_list s l).1._is_frozen = s._is_frozen :=
  bcast_precommit_fold_frozen l (s, [])

theorem new_round_fn_frozen (s : randpa) (n : Nat) (primary : public_key_type)
    (active : Finset public_key_type) (s' : randpa) (outs : List out_msg)
    (h : randpa.new_round_fn s n primary active = some (s', outs)) :
    s'._is_frozen = s._is_frozen := by
  unfold randpa.new_round_fn at h
  cases hm : randpa_round.make n primary s._prefix_tree
      (randpa.get_active_signature_providers s active) with
  | none => rw [hm] at h; exact absurd h (by simp)
  | some tr =>
    obtain ⟨t', r', bcs⟩ := tr
    rw [hm] at h
    replace h : some (randpa.bcast_prevote_list
        { s with _prefix_tree := t', _round := some r' } bcs) = some (s', outs) := h
    simp only [Option.some.injEq] at h
    have hb := bcast_prevote_list_frozen
      { s with _prefix_tree := t', _round := some r' } bcs
    rw [h] at hb
    exact hb

theorem accepted_round_phase_frozen (s : randpa) (e : on_accepted_block_event)
    (s' : randpa) (outs : List out_msg)
    (h : randpa.accepted_round_phase s e = some (s', outs)) :
    s'._is_frozen = s._is_frozen := by
  unfold randpa.accepted_round_phase at h
  by_cases h1 : randpa.should_start_round s e.block_id = true
  · rw [if_pos h1] at h
    by_cases h2 : randpa.is_active_bp (randpa.remove_round s) e.block_id = true
    · rw [if_pos h2] at h
      exact new_round_fn_frozen (randpa.remove_round s) _ _ _ _ _ h
    · rw [if_neg h2] at h
      simp only [Option.some.injEq, Prod.mk.injEq] at h
      rw [← h.1]
      rfl
  · rw [if_neg h1] at h
    simp only [Option.some.injEq, Prod.mk.injEq] at h
    rw [← h.1]

theorem accepted_fire_phase_frozen (q : randpa × List out_msg)
    (fired : Option proof_type) (outs : List out_msg) (s' : randpa)
    (outs' : List out_msg)
    (h : randpa.accepted_fire_phase q fired outs = some (s', outs')) :
    s'._is_frozen = q.1._is_frozen := by
  cases fired with
  | none =>
    unfold randpa.accepted_fire_phase at h
    simp only [Option.some.injEq, Prod.mk.injEq] at h
    rw [← h.1]
  | some pr =>
    unfold randpa.accepted_fire_phase at h
    simp only [Option.some.injEq, Prod.mk.injEq] at h
    rw [← h.1]
    exact (finish_round_effects_fields q.1 pr).2.1

theorem accepted_end_phase_frozen (p : randpa × List out_msg)
    (e : on_accepted_block_event) (s' : randpa) (outs : List out_msg)
    (h : randpa.accepted_end_phase p e = some (s', outs)) :
    s'._is_frozen = p.1._is_frozen := by
  unfold randpa.accepted_end_phase at h
  by_cases h1 : randpa.should_end_prevote p.1 e.block_id = true
  · rw [if_pos h1] at h
    cases hr : p.1._round with
    | none => rw [hr] at h; exact absurd h (by simp)
    | some r =>
      rw [hr] at h
      replace h : (match randpa_round.end_prevote r with
          | none => none
          | some (r', fired, bc) =>
            randpa.accepted_fire_phase
              (randpa.bcast_precommit_list { p.1 with _round := some r' } bc) fired p.2)
          = some (s', outs) := h
      cases he : randpa_round.end_prevote r with
      | none => rw [he] at h; exact absurd h (by simp)
      | some tr =>
        obtain ⟨r', fired, bc⟩ := tr
        rw [he] at h
        replace h : randpa.accepted_fire_phase
            (randpa.bcast_precommit_list { p.1 with _round := some r' } bc) fired p.2
            = some (s', outs) := h
        have hf := accepted_fire_phase_frozen _ fired p.2 s' outs h
        rw [hf, bcast_precommit_list_frozen]
  · rw [if_neg h1] at h
    simp only [Option.some.injEq, Prod.mk.injEq] at h
    rw [← h.1]

/-- C4 (amended): on every successfully handled accepted-block event whose
block is inserted into the tree, the handler REASSIGNS `_is_frozen` to
`lag(block, _lib) > max_finality_lag_blocks` — the flag always equals the
freshest lag test and is not sticky. -/
theorem C4_amended_frozen_refreshed (s : randpa) (e : on_accepted_block_event)
    (t1 : prefix_tree)
    (hins : prefix_tree.insert s._prefix_tree e.prev_block_id [e.block_id]
        e.creator_key e.active_bp_keys = some t1)
    (s' : randpa) (outs : List out_msg)
    (h : randpa.on_accepted_block s e = some (s', outs)) :
    s'._is_frozen = decide (u32sub (get_block_num e.block_id)
      (get_block_num s._lib) > max_finality_lag_blocks) := by
  unfold randpa.on_accepted_block at h
  rw [hins] at h
  replace h : (if (randpa.accepted_flags_update s t1 e)._is_syncing
        || (randpa.accepted_flags_update s t1 e)._is_frozen then
      some (randpa.accepted_flags_update s t1 e, ([] : List out_msg))
    else
      match randpa.accepted_round_phase (randpa.accepted_flags_update s t1 e) e with
      | none => none
      | some p => randpa.accepted_end_phase p e) = some (s', outs) := h
  by_cases hg : ((randpa.accepted_flags_update s t1 e)._is_syncing
      || (randpa.accepted_flags_update s t1 e)._is_frozen) = true
  · rw [if_pos hg] at h
    simp only [Option.some.injEq, Prod.mk.injEq] at h
    rw [← h.1]
    rfl
  · rw [if_neg hg] at h
    cases hp : randpa.accepted_round_phase (randpa.accepted_flags_update s t1 e) e with
    | none => rw [hp] at h; exact absurd h (by simp)
    | some p =>
      obtain ⟨p1, p2⟩ := p
      rw [hp] at h
      replace h : randpa.accepted_end_phase (p1, p2) e = some (s', outs) := h
      have h1 := accepted_end_phase_frozen (p1, p2) e s' outs h
      have h2 := accepted_round_phase_frozen (randpa.accepted_flags_update s t1 e) e
        p1 p2 hp
      exact h1.trans h2

/-- C4 counterexample: with `_lib` at block 1, accepting block 3314 freezes
the engine (lag 3313 > 3312), but a later accepted block 2 recomputes the
flag to false — `_is_frozen` is reassigned on every accepted block, hence not
sticky. -/
theorem C4_counterexample_frozen_cleared :
    randpa.handle cw4_s0 (randpa_input.ev_accepted_block cw4_e1) = some (cw4_s1, [])
    ∧ cw4_s1._is_frozen = true
    ∧ randpa.handle cw4_s1 (randpa_input.ev_accepted_block cw4_e2) = some (cw4_s2, [])
    ∧ cw4_s2._is_frozen = false :=
  ⟨by decide, by decide, by decide, by decide⟩

/-- Witness for C4 (amended) at the unfreezing step of the concrete
scenario. -/
theorem C4_amended_witness :
    prefix_tree.insert cw4_s1._prefix_tree cw4_e2.prev_block_id [cw4_e2.block_id]
        cw4_e2.creator_key cw4_e2.active_bp_keys = some cw4_t2
    ∧ cw4_s2._is_frozen = decide (u32sub (get_block_num cw4_e2.block_id)
        (get_block_num cw4_s1._lib) > max_finality_lag_blocks) :=
  ⟨by decide, C4_amended_frozen_refreshed cw4_s1 cw4_e2 cw4_t2 (by decide) cw4_s2 []
      (by decide)⟩

theorem add_prevote_round_fields (t : prefix_tree) (r : randpa_round)
    (d : prevote_type) (k : public_key_type) (t' : prefix_tree) (r' : randpa_round)
    (h : randpa_round.add_prevote t r d k = some (t', r')) :
    r'.num = r.num ∧ r'.primary = r.primary
      ∧ r'.signature_providers = r.signature_providers := by
  unfold randpa_round.add_prevote at h
  cases hc : prefix_tree.add_confirmations t d.base_block d.blocks k ⟨d, [k]⟩ with
  | none => rw [hc] at h; exact absurd h (by simp)
  | some pr =>
    obtain ⟨t1, nd⟩ := pr
    rw [hc] at h
    replace h : (if ¬ r.state = state_type.ready_to_precommit
          ∧ randpa_round.is_prevote_threshold_reached t1 nd = true then
        some (t1, { randpa_round.prevote_recorded r k nd with
                    state := state_type.ready_to_precommit,
                    best_node := some (randpa_round.snapshot nd) })
      else some (t1, randpa_round.prevote_recorded r k nd)) = some (t', r') := h
    split_ifs at h with hcond <;>
      (simp only [Option.some.injEq, Prod.mk.injEq] at h
       rw [← h.2]
       exact ⟨rfl, rfl, rfl⟩)

theorem prevote_providers_round_fields (d : prevote_type) (ks : List public_key_type) :
    ∀ (t : prefix_tree) (r : randpa_round) (t' : prefix_tree) (r' : randpa_round),
      randpa_round.prevote_providers t r d ks = some (t', r') →
      r'.num = r.num ∧ r'.primary = r.primary
        ∧ r'.signature_providers = r.signature_providers := by
  induction ks with
  | nil =>
    intro t r t' r' h
    unfold randpa_round.prevote_providers at h
    simp only [Option.some.injEq, Prod.mk.injEq] at h
    rw [← h.2]
    exact ⟨rfl, rfl, rfl⟩
  | cons k ks ih =>
    intro t r t' r' h
    unfold randpa_round.prevote_providers at h
    cases ha : randpa_round.add_prevote t r d k with
    | none => rw [ha] at h; exact absurd h (by simp)
    | some pr =>
      obtain ⟨t1, r1⟩ := pr
      rw [ha] at h
      obtain ⟨h1, h2, h3⟩ := add_prevote_round_fields t r d k t1 r1 ha
      obtain ⟨g1, g2, g3⟩ := ih t1 r1 t' r' h
      exact ⟨g1.trans h1, g2.trans h2, g3.trans h3⟩

theorem prevote_fn_round_fields (t : prefix_tree) (r : randpa_round)
    (t' : prefix_tree) (r' : randpa_round) (bc : List prevote_msg)
    (h : randpa_round.prevote_fn t r = some (t', r', bc)) :
    r'.num = r.num ∧ r'.primary = r.primary
      ∧ r'.signature_providers = r.signature_providers := by
  unfold randpa_round.prevote_fn at h
  by_cases hi : r.state = state_type.init
  · rw [if_neg (not_not_intro hi)] at h
    cases hl : prefix_tree.get_last_inserted_block t r.primary with
    | none =>
      rw [hl] at h
      have h' : some (t, ({ r with state := state_type.prevote } : randpa_round),
          ([] : List prevote_msg)) = some (t', r', bc) := h
      simp only [Option.some.injEq, Prod.mk.injEq] at h'
      rw [← h'.2.1]
      exact ⟨rfl, rfl, rfl⟩
    | some last_node =>
      rw [hl] at h
      replace h : (match prefix_tree.get_branch t last_node.block_id with
          | none => none
          | some (base, blks) =>
            match randpa_round.prevote_providers t { r with state := state_type.prevote }
                ⟨r.num, base, blks⟩ r.signature_providers with
            | none => none
            | some (t2, r2) =>
              some (t2, r2, [⟨⟨r.num, base, blks⟩, r.signature_providers⟩]))
          = some (t', r', bc) := h
      cases hbr : prefix_tree.get_branch t last_node.block_id with
      | none => rw [hbr] at h; exact absurd h (by simp)
      | some pr =>
        obtain ⟨base, blks⟩ := pr
        rw [hbr] at h
        replace h : (match randpa_round.prevote_providers t
              { r with state := state_type.prevote }
              ⟨r.num, base, blks⟩ r.signature_providers with
            | none => none
            | some (t2, r2) =>
              some (t2, r2, [⟨⟨r.num, base, blks⟩, r.signature_providers⟩]))
            = some (t', r', bc) := h
        cases hp : randpa_round.prevote_providers t { r with state := state_type.prevote }
            ⟨r.num, base, blks⟩ r.signature_providers with
        | none => rw [hp] at h; exact absurd h (by simp)
        | some pq =>
          obtain ⟨t2, r2⟩ := pq
          rw [hp] at h
          have h' : some (t2, r2,
              [(⟨⟨r.num, base, blks⟩, r.signature_providers⟩ : prevote_msg)])
              = some (t', r', bc) := h
          simp only [Option.some.injEq, Prod.mk.injEq] at h'
          rw [← h'.2.1]
          exact prevote_providers_round_fields ⟨r.num, base, blks⟩ r.signature_providers
            t { r with state := state_type.prevote } t2 r2 hp
  · rw [if_pos hi] at h
    exact absurd h (by simp)

theorem make_round_fields (n : Nat) (primary : public_key_type) (t : prefix_tree)
    (provs : List public_key_type) (t0 : prefix_tree) (r0 : randpa_round)
    (bc : List prevote_msg)
    (h : randpa_round.make n primary t provs = some (t0, r0, bc)) :
    r0.num = n ∧ r0.primary = primary ∧ r0.signature_providers = provs :=
  prevote_fn_round_fields t
    ⟨n, primary, state_type.init, ⟨0, ⟨0, 0⟩, [], []⟩, none, provs, ∅, ∅⟩
    t0 r0 bc h

theorem bcast_prevote_fold_round (l : List prevote_msg) :
    ∀ p : randpa × List out_msg,
      (List.foldl (fun acc pm =>
          ((randpa.bcast acc.1 (net_msg_data.prevote pm)).1,
           acc.2 ++ (randpa.bcast acc.1 (net_msg_data.prevote pm)).2)) p l).1._round
        = p.1._round := by
  induction l with
  | nil => intro p; rfl
  | cons m rest ih =>
    intro p
    rw [List.foldl_cons, ih]
    exact (bcast_fields p.1 (net_msg_data.prevote m)).2.2.2.1

theorem new_round_fn_round (s : randpa) (n : Nat) (primary : public_key_type)
    (active : Finset public_key_type) (s' : randpa) (outs : List out_msg)
    (h : randpa.new_round_fn s n primary active = some (s', outs)) :
    ∃ r', s'._round = some r' ∧ r'.num = n ∧ r'.primary = primary
      ∧ r'.signature_providers = randpa.get_active_signature_providers s active := by
  unfold randpa.new_round_fn at h
  cases hm : randpa_round.make n primary s._prefix_tree
      (randpa.get_active_signature_providers s active) with
  | none => rw [hm] at h; exact absurd h (by simp)
  | some tr =>
    obtain ⟨t', r', bcs⟩ := tr
    rw [hm] at h
    replace h : some (randpa.bcast_prevote_list
        { s with _prefix_tree := t', _round := some r' } bcs) = some (s', outs) := h
    simp only [Option.some.injEq] at h
    have h1 : s'._round = (randpa.bcast_prevote_list
        { s with _prefix_tree := t', _round := some r' } bcs).1._round := by rw [h]
    have h2 : (randpa.bcast_prevote_list
        { s with _prefix_tree := t', _round := some r' } bcs).1._round = some r' :=
      bcast_prevote_fold_round bcs ({ s with _prefix_tree := t', _round := some r' }, [])
    obtain ⟨hn, hp, hsp⟩ := make_round_fields _ _ _ _ _ _ _ hm
    exact ⟨r', h1.trans h2, hn, hp, hsp⟩

/-- C7 (amended): with the block-number guard restored, the accepted-block
round rotation is as claimed: (a) a round starts iff the block's 32-bit
number is at least 1 AND (no round exists or the block's round number exceeds
the current round's); (b) the started branch routes through `remove_round`
and constructs a round only when the node is an active BP at the block;
(c) `remove_round` clears both dedup caches, every confirmation in the tree
and the round; (d) a constructed round records the block's round number, the
block creator as primary and the provider intersection; (e) the provider list
is exactly the intersection of the engine's providers with the active-BP key
set. -/
theorem C7_amended_round_rotation (s : randpa) (e : on_accepted_block_event) :
    (randpa.should_start_round s e.block_id = true ↔
      1 ≤ get_block_num e.block_id ∧
        (s._round = none ∨ ∃ r, s._round = some r ∧ round_num_of e.block_id > r.num))
    ∧ (randpa.should_start_round s e.block_id = true →
        randpa.accepted_round_phase s e =
          (if randpa.is_active_bp (randpa.remove_round s) e.block_id then
            randpa.new_round_fn (randpa.remove_round s) (round_num_of e.block_id)
              e.creator_key e.active_bp_keys
          else some (randpa.remove_round s, [])))
    ∧ (randpa.remove_round s)._peer_messages = []
    ∧ (randpa.remove_round s)._self_messages = []
    ∧ (randpa.remove_round s)._round = none
    ∧ (∀ nd ∈ (randpa.remove_round s)._prefix_tree.nodes, nd.confirmation_data = [])
    ∧ (∀ (n : Nat) (primary : public_key_type) (active : Finset public_key_type)
        (s' : randpa) (outs : List out_msg),
        randpa.new_round_fn s n primary active = some (s', outs) →
        ∃ r', s'._round = some r' ∧ r'.num = n ∧ r'.primary = primary
          ∧ r'.signature_providers = randpa.get_active_signature_providers s active)
    ∧ (∀ (active : Finset public_key_type) (k : public_key_type),
        k ∈ randpa.get_active_signature_providers s active ↔
          k ∈ active ∧ k ∈ s._sig_provs_by_key) := by
  refine ⟨?_, ?_, rfl, rfl, rfl, ?_, ?_, ?_⟩
  · unfold randpa.should_start_round
    by_cases h0 : get_block_num e.block_id < 1
    · rw [if_pos h0]
      constructor
      · intro hf; exact absurd hf (by simp)
      · rintro ⟨h1, _⟩; exact absurd h1 (by omega)
    · rw [if_neg h0]
      cases hr : s._round with
      | none =>
        constructor
        · intro _
          exact ⟨by omega, Or.inl rfl⟩
        · intro _
          rfl
      | some r =>
        constructor
        · intro hd
          replace hd : decide (round_num_of e.block_id > r.num) = true := hd
          exact ⟨by omega, Or.inr ⟨r, rfl, of_decide_eq_true hd⟩⟩
        · rintro ⟨h1, h2⟩
          show decide (round_num_of e.block_id > r.num) = true
          rcases h2 with h2 | ⟨r2, hr2, hgt⟩
          · exact absurd h2 (by simp)
          · simp only [Option.some.injEq] at hr2
            rw [← hr2] at hgt
            exact decide_eq_true hgt
  · intro hs
    unfold randpa.accepted_round_phase
    rw [if_pos hs]
  · intro nd hnd
    replace hnd : nd ∈ s._prefix_tree.nodes.map
        (fun n => { n with confirmation_data := [] }) := hnd
    obtain ⟨n0, hn0, heq⟩ := List.mem_map.mp hnd
    subst heq
    rfl
  · intro n primary active s' outs h
    exact new_round_fn_round s n primary active s' outs h
  · intro active k
    show k ∈ (active.sort (· ≤ ·)).filter
        (fun k => s._sig_provs_by_key.any (fun k2 => decide (k2 = k))) ↔ _
    rw [List.mem_filter, Finset.mem_sort]
    simp only [List.any_eq_true, decide_eq_true_eq]
    constructor
    · rintro ⟨h1, k2, hk2, rfl⟩
      exact ⟨h1, hk2⟩
    · rintro ⟨h1, h2⟩
      exact ⟨h1, k, h2, rfl⟩

/-- C7 counterexample: an engine with no round, neither syncing nor frozen,
handles an accepted block whose 32-bit block number is 0; the claim's iff
("no round exists" ⇒ start) demands a round start, but `should_start_round`'s
`block_num < 1` guard refuses and the handler completes with `_round`
still `none`. -/
theorem C7_counterexample_zero_block_num :
    (cw7_s._is_syncing || cw7_s._is_frozen) = false
    ∧ cw7_s._round = none
    ∧ randpa.should_start_round cw7_s cw7_e.block_id = false
    ∧ randpa.handle cw7_s (randpa_input.ev_accepted_block cw7_e) = some (cw7_s1, [])
    ∧ cw7_s1._round = none
    ∧ (cw7_s1._is_syncing || cw7_s1._is_frozen) = false :=
  ⟨by decide, by decide, by decide, by decide, by decide, by decide⟩

theorem cw7w_gasp :
    randpa.get_active_signature_providers (randpa.remove_round cw7w_s)
      cw7w_e.active_bp_keys = [1] := by
  show (Finset.sort (· ≤ ·) ({1} : Finset public_key_type)).filter
      (fun k => (randpa.remove_round cw7w_s)._sig_provs_by_key.any
        (fun k2 => decide (k2 = k))) = [1]
  rw [Finset.sort_singleton]
  rfl

theorem cw7w_res_eq :
    randpa.new_round_fn (randpa.remove_round cw7w_s) (round_num_of cw7w_e.block_id)
      cw7w_e.creator_key cw7w_e.active_bp_keys = some (cw7w_res.1, cw7w_res.2) := by
  unfold cw7w_res randpa.new_round_fn
  rw [cw7w_gasp]
  decide

/-- Witness for C7 (amended) on a block-producer engine that rotates into a
fresh round for block 3. -/
theorem C7_amended_witness :
    (randpa.accepted_round_phase cw7w_s cw7w_e =
      (if randpa.is_active_bp (randpa.remove_round cw7w_s) cw7w_e.block_id then
        randpa.new_round_fn (randpa.remove_round cw7w_s) (round_num_of cw7w_e.block_id)
          cw7w_e.creator_key cw7w_e.active_bp_keys
      else some (randpa.remove_round cw7w_s, [])))
    ∧ (∃ r', cw7w_res.1._round = some r'
        ∧ r'.num = round_num_of cw7w_e.block_id
        ∧ r'.primary = cw7w_e.creator_key
        ∧ r'.signature_providers = randpa.get_active_signature_providers
            (randpa.remove_round cw7w_s) cw7w_e.active_bp_keys) :=
  ⟨(C7_amended_round_rotation cw7w_s cw7w_e).2.1 (by decide),
   (C7_amended_round_rotation (randpa.remove_round cw7w_s) cw7w_e).2.2.2.2.2.2.1
     (round_num_of cw7w_e.block_id) cw7w_e.creator_key cw7w_e.active_bp_keys
     cw7w_res.1 cw7w_res.2 cw7w_res_eq⟩

theorem find_block_id (t : prefix_tree) (b : block_id_type) (nd : tree_node)
    (h : prefix_tree.find t b = some nd) : nd.block_id = b := by
  unfold prefix_tree.find at h
  have h2 := List.find?_some h
  simp only [decide_eq_true_eq] at h2
  exact h2

theorem root_bid_map (t : prefix_tree) (f : tree_node → tree_node)
    (hb : ∀ n, (f n).block_id = n.block_id) (hp : ∀ n, (f n).parent = n.parent) :
    root_bid ⟨t.nodes.map f⟩ = root_bid t := by
  unfold root_bid prefix_tree.get_root
  show Option.map (fun n => n.block_id)
      ((t.nodes.map f).find? (fun n => decide (n.parent = none)))
    = Option.map (fun n => n.block_id)
      (t.nodes.find? (fun n => decide (n.parent = none)))
  rw [List.find?_map]
  have hpred : ((fun n : tree_node => decide (n.parent = none)) ∘ f)
      = (fun n : tree_node => decide (n.parent = none)) := by
    funext n
    show decide ((f n).parent = none) = decide (n.parent = none)
    rw [hp n]
  rw [hpred]
  cases hfind : t.nodes.find? (fun n => decide (n.parent = none)) with
  | none => rfl
  | some rt =>
    show some (f rt).block_id = some rt.block_id
    rw [hb rt]

theorem root_bid_remove_confirmations (t : prefix_tree) :
    root_bid (prefix_tree.remove_confirmations t) = root_bid t :=
  root_bid_map t (fun n => { n with confirmation_data := [] })
    (fun _ => rfl) (fun _ => rfl)

theorem root_bid_add_confirmations (t : prefix_tree) (base : block_id_type)
    (blocks : List block_id_type) (k : public_key_type) (m : prevote_msg)
    (t' : prefix_tree) (nd : tree_node)
    (h : prefix_tree.add_confirmations t base blocks k m = some (t', nd)) :
    root_bid t' = root_bid t := by
  unfold prefix_tree.add_confirmations at h
  cases hf : prefix_tree.find_last_node t base blocks with
  | none => rw [hf] at h; exact absurd h (by simp)
  | some nd0 =>
    rw [hf] at h
    replace h : some ((⟨t.nodes.map (fun n => if n.block_id = nd0.block_id
          then { n with confirmation_data :=
            (prefix_tree.confirmed_node nd0 k m).confirmation_data }
          else n)⟩ : prefix_tree), prefix_tree.confirmed_node nd0 k m)
        = some (t', nd) := h
    simp only [Option.some.injEq, Prod.mk.injEq] at h
    rw [← h.1]
    exact root_bid_map t _ (fun n => by split_ifs <;> rfl)
      (fun n => by split_ifs <;> rfl)

theorem find?_root_append_nonroot (l : List tree_node) (x : tree_node)
    (hx : ¬ x.parent = none) :
    (l ++ [x]).find? (fun n => decide (n.parent = none))
      = l.find? (fun n => decide (n.parent = none)) := by
  rw [List.find?_append]
  cases hf : l.find? (fun n => decide (n.parent = none)) with
  | some rt => rfl
  | none =>
    show Option.or none ([x].find? (fun n => decide (n.parent = none))) = none
    have h1 : [x].find? (fun n => decide (n.parent = none)) = none := by
      simp only [List.find?]
      rw [decide_eq_false hx]
    rw [h1]
    rfl

theorem root_bid_insert_blocks (blocks : List block_id_type) :
    ∀ (t : prefix_tree) (cur : block_id_type) (c : public_key_type)
      (k : Finset public_key_type),
      root_bid (prefix_tree.insert_blocks t cur c k blocks) = root_bid t := by
  induction blocks with
  | nil => intro t cur c k; rfl
  | cons b rest ih =>
    intro t cur c k
    unfold prefix_tree.insert_blocks
    by_cases hf : (prefix_tree.find t b).isSome = true
    · rw [if_pos hf]
      exact ih t b c k
    · rw [if_neg hf]
      rw [ih]
      unfold root_bid prefix_tree.get_root
      show Option.map (fun n => n.block_id)
          ((t.nodes ++ [(⟨b, some cur, c, k, []⟩ : tree_node)]).find?
            (fun n => decide (n.parent = none)))
        = Option.map (fun n => n.block_id)
          (t.nodes.find? (fun n => decide (n.parent = none)))
      rw [find?_root_append_nonroot t.nodes ⟨b, some cur, c, k, []⟩ (by simp)]

theorem root_bid_insert (t : prefix_tree) (base : block_id_type)
    (blocks : List block_id_type) (c : public_key_type)
    (k : Finset public_key_type) (t' : prefix_tree)
    (h : prefix_tree.insert t base blocks c k = some t') :
    root_bid t' = root_bid t := by
  unfold prefix_tree.insert at h
  by_cases hf : (prefix_tree.find t base).isSome = true
  · rw [if_pos hf] at h
    simp only [Option.some.injEq] at h
    rw [← h]
    exact root_bid_insert_blocks blocks t base c k
  · rw [if_neg hf] at h
    exact absurd h (by simp)

theorem root_bid_set_root (t : prefix_tree) (b : block_id_type) :
    root_bid (prefix_tree.set_root t b) = some b := by
  unfold prefix_tree.set_root
  cases hf : prefix_tree.find t b with
  | none => rfl
  | some nd =>
    have hb := find_block_id t b nd hf
    show some nd.block_id = some b
    rw [hb]

theorem lib_inv_elim (s : randpa) (h : randpa.lib_inv s = true) :
    root_bid s._prefix_tree = some s._lib := by
  unfold randpa.lib_inv at h
  cases hr : prefix_tree.get_root s._prefix_tree with
  | none => rw [hr] at h; exact absurd h (by simp)
  | some rt =>
    rw [hr] at h
    replace h : decide (rt.block_id = s._lib) = true := h
    unfold root_bid
    rw [hr]
    show some rt.block_id = some s._lib
    rw [of_decide_eq_true h]

theorem lib_inv_intro (s : randpa) (h : root_bid s._prefix_tree = some s._lib) :
    randpa.lib_inv s = true := by
  unfold randpa.lib_inv
  unfold root_bid at h
  cases hr : prefix_tree.get_root s._prefix_tree with
  | none => rw [hr] at h; exact absurd h (by simp)
  | some rt =>
    rw [hr] at h
    simp only [Option.map_some', Option.some.injEq] at h
    show decide (rt.block_id = s._lib) = true
    exact decide_eq_true h

theorem lib_inv_of_preserved (s s' : randpa)
    (ht : root_bid s'._prefix_tree = root_bid s._prefix_tree)
    (hl : s'._lib = s._lib) (hinv : randpa.lib_inv s = true) :
    randpa.lib_inv s' = true := by
  apply lib_inv_intro
  rw [ht, hl]
  exact lib_inv_elim s hinv

theorem bcast_lib (s : randpa) (d : net_msg_data) :
    (randpa.bcast s d).1._lib = s._lib := by
  unfold randpa.bcast
  split_ifs <;> rfl

theorem root_bid_add_prevote (t : prefix_tree) (r : randpa_round)
    (d : prevote_type) (k : public_key_type) (t' : prefix_tree) (r' : randpa_round)
    (h : randpa_round.add_prevote t r d k = some (t', r')) :
    root_bid t' = root_bid t := by
  unfold randpa_round.add_prevote at h
  cases hc : prefix_tree.add_confirmations t d.base_block d.blocks k ⟨d, [k]⟩ with
  | none => rw [hc] at h; exact absurd h (by simp)
  | some pr =>
    obtain ⟨t1, nd⟩ := pr
    rw [hc] at h
    replace h : (if ¬ r.state = state_type.ready_to_precommit
          ∧ randpa_round.is_prevote_threshold_reached t1 nd = true then
        some (t1, { randpa_round.prevote_recorded r k nd with
                    state := state_type.ready_to_precommit,
                    best_node := some (randpa_round.snapshot nd) })
      else some (t1, randpa_round.prevote_recorded r k nd)) = some (t', r') := h
    have hroot := root_bid_add_confirmations t d.base_block d.blocks k ⟨d, [k]⟩ t1 nd hc
    split_ifs at h with hcond <;>
      (simp only [Option.some.injEq, Prod.mk.injEq] at h
       rw [← h.1]
       exact hroot)

theorem root_bid_on_prevote_keys (d : prevote_type) (ks : List public_key_type) :
    ∀ (t : prefix_tree) (r : randpa_round) (t' : prefix_tree) (r' : randpa_round),
      randpa_round.on_prevote_keys t r d ks = some (t', r') →
      root_bid t' = root_bid t := by
  induction ks with
  | nil =>
    intro t r t' r' h
    unfold randpa_round.on_prevote_keys at h
    simp only [Option.some.injEq, Prod.mk.injEq] at h
    rw [← h.1]
  | cons k ks ih =>
    intro t r t' r' h
    unfold randpa_round.on_prevote_keys at h
    by_cases hv : randpa_round.validate_prevote t r d k = true
    · rw [if_pos hv] at h
      cases ha : randpa_round.add_prevote t r d k with
      | none => rw [ha] at h; exact absurd h (by simp)
      | some pr =>
        obtain ⟨t1, r1⟩ := pr
        rw [ha] at h
        exact (ih t1 r1 t' r' h).trans (root_bid_add_prevote t r d k t1 r1 ha)
    · rw [if_neg hv] at h
      exact ih t r t' r' h

theorem root_bid_on_prevote (t : prefix_tree) (r : randpa_round) (m : prevote_msg)
    (t' : prefix_tree) (r' : randpa_round)
    (h : randpa_round.on_prevote t r m = some (t', r')) :
    root_bid t' = root_bid t := by
  unfold randpa_round.on_prevote at h
  by_cases hg : ¬ r.state = state_type.prevote ∧ ¬ r.state = state_type.ready_to_precommit
  · rw [if_pos hg] at h
    simp only [Option.some.injEq, Prod.mk.injEq] at h
    rw [← h.1]
  · rw [if_neg hg] at h
    exact root_bid_on_prevote_keys m.data m.public_keys t r t' r' h

theorem root_bid_prevote_providers (d : prevote_type) (ks : List public_key_type) :
    ∀ (t : prefix_tree) (r : randpa_round) (t' : prefix_tree) (r' : randpa_round),
      randpa_round.prevote_providers t r d ks = some (t', r') →
      root_bid t' = root_bid t := by
  induction ks with
  | nil =>
    intro t r t' r' h
    unfold randpa_round.prevote_providers at h
    simp only [Option.some.injEq, Prod.mk.injEq] at h
    rw [← h.1]
  | cons k ks ih =>
    intro t r t' r' h
    unfold randpa_round.prevote_providers at h
    cases ha : randpa_round.add_prevote t r d k with
    | none => rw [ha] at h; exact absurd h (by simp)
    | some pr =>
      obtain ⟨t1, r1⟩ := pr
      rw [ha] at h
      exact (ih t1 r1 t' r' h).trans (root_bid_add_prevote t r d k t1 r1 ha)

theorem root_bid_prevote_fn (t : prefix_tree) (r : randpa_round)
    (t' : prefix_tree) (r' : randpa_round) (bc : List prevote_msg)
    (h : randpa_round.prevote_fn t r = some (t', r', bc)) :
    root_bid t' = root_bid t := by
  unfold randpa_round.prevote_fn at h
  by_cases hi : r.state = state_type.init
  · rw [if_neg (not_not_intro hi)] at h
    cases hl : prefix_tree.get_last_inserted_block t r.primary with
    | none =>
      rw [hl] at h
      have h' : some (t, ({ r with state := state_type.prevote } : randpa_round),
          ([] : List prevote_msg)) = some (t', r', bc) := h
      simp only [Option.some.injEq, Prod.mk.injEq] at h'
      rw [← h'.1]
    | some last_node =>
      rw [hl] at h
      replace h : (match prefix_tree.get_branch t last_node.block_id with
          | none => none
          | some (base, blks) =>
            match randpa_round.prevote_providers t { r with state := state_type.prevote }
                ⟨r.num, base, blks⟩ r.signature_providers with
            | none => none
            | some (t2, r2) =>
              some (t2, r2, [⟨⟨r.num, base, blks⟩, r.signature_providers⟩]))
          = some (t', r', bc) := h
      cases hbr : prefix_tree.get_branch t last_node.block_id with
      | none => rw [hbr] at h; exact absurd h (by simp)
      | some pr =>
        obtain ⟨base, blks⟩ := pr
        rw [hbr] at h
        replace h : (match randpa_round.prevote_providers t
              { r with state := state_type.prevote }
              ⟨r.num, base, blks⟩ r.signature_providers with
            | none => none
            | some (t2, r2) =>
              some (t2, r2, [⟨⟨r.num, base, blks⟩, r.signature_providers⟩]))
            = some (t', r', bc) := h
        cases hp : randpa_round.prevote_providers t { r with state := state_type.prevote }
            ⟨r.num, base, blks⟩ r.signature_providers with
        | none => rw [hp] at h; exact absurd h (by simp)
        | some pq =>
          obtain ⟨t2, r2⟩ := pq
          rw [hp] at h
          have h' : some (t2, r2,
              [(⟨⟨r.num, base, blks⟩, r.signature_providers⟩ : prevote_msg)])
              = some (t', r', bc) := h
          simp only [Option.some.injEq, Prod.mk.injEq] at h'
          rw [← h'.1]
          exact root_bid_prevote_providers ⟨r.num, base, blks⟩ r.signature_providers
            t { r with state := state_type.prevote } t2 r2 hp
  · rw [if_pos hi] at h
    exact absurd h (by simp)

theorem root_bid_make (n : Nat) (primary : public_key_type) (t : prefix_tree)
    (provs : List public_key_type) (t0 : prefix_tree) (r0 : randpa_round)
    (bc : List prevote_msg)
    (h : randpa_round.make n primary t provs = some (t0, r0, bc)) :
    root_bid t0 = root_bid t :=
  root_bid_prevote_fn t
    ⟨n, primary, state_type.init, ⟨0, ⟨0, 0⟩, [], []⟩, none, provs, ∅, ∅⟩
    t0 r0 bc h

theorem bcast_prevote_fold_tree_lib (l : List prevote_msg) :
    ∀ p : randpa × List out_msg,
      ((List.foldl (fun acc pm =>
          ((randpa.bcast acc.1 (net_msg_data.prevote pm)).1,
           acc.2 ++ (randpa.bcast acc.1 (net_msg_data.prevote pm)).2)) p l).1._prefix_tree
        = p.1._prefix_tree)
      ∧ ((List.foldl (fun acc pm =>
          ((randpa.bcast acc.1 (net_msg_data.prevote pm)).1,
           acc.2 ++ (randpa.bcast acc.1 (net_msg_data.prevote pm)).2)) p l).1._lib
        = p.1._lib) := by
  induction l with
  | nil => intro p; exact ⟨rfl, rfl⟩
  | cons m rest ih =>
    intro p
    rw [List.foldl_cons]
    refine ⟨(ih _).1.trans ?_, (ih _).2.trans ?_⟩
    · exact (bcast_fields p.1 (net_msg_data.prevote m)).2.2.2.2
    · exact bcast_lib p.1 (net_msg_data.prevote m)

theorem bcast_precommit_fold_tree_lib (l : List precommit_msg) :
    ∀ p : randpa × List out_msg,
      ((List.foldl (fun acc pm =>
          ((randpa.bcast acc.1 (net_msg_data.precommit pm)).1,
           acc.2 ++ (randpa.bcast acc.1 (net_msg_data.precommit pm)).2)) p l).1._prefix_tree
        = p.1._prefix_tree)
      ∧ ((List.foldl (fun acc pm =>
          ((randpa.bcast acc.1 (net_msg_data.precommit pm)).1,
           acc.2 ++ (randpa.bcast acc.1 (net_msg_data.precommit pm)).2)) p l).1._lib
        = p.1._lib) := by
  induction l with
  | nil => intro p; exact ⟨rfl, rfl⟩
  | cons m rest ih =>
    intro p
    rw [List.foldl_cons]
    refine ⟨(ih _).1.trans ?_, (ih _).2.trans ?_⟩
    · exact (bcast_fields p.1 (net_msg_data.precommit m)).2.2.2.2
    · exact bcast_lib p.1 (net_msg_data.precommit m)

theorem on_proof_gained_tree_lib (s : randpa) (p : proof_type) :
    (randpa.on_proof_gained s p).1._prefix_tree = s._prefix_tree
    ∧ (randpa.on_proof_gained s p).1._lib = s._lib := by
  have h : (randpa.on_proof_gained s p).1
      = (randpa.bcast { s with
          _last_proofs := (p :: s._last_proofs).take proofs_cache_size,
          _last_prooved_block_num := get_block_num p.best_block }
          (net_msg_data.finality_notice ⟨⟨p.round_num, p.best_block⟩,
            s._signature_providers⟩)).1 := rfl
  rw [h]
  exact ⟨(bcast_fields _ _).2.2.2.2, bcast_lib _ _⟩

theorem finish_round_effects_lib (s : randpa) (p : proof_type)
    (hinv : randpa.lib_inv s = true) :
    randpa.lib_inv (randpa.finish_round_effects s p).1 = true
    ∧ get_block_num s._lib ≤ get_block_num (randpa.finish_round_effects s p).1._lib := by
  unfold randpa.finish_round_effects
  by_cases hlt : get_block_num s._lib < get_block_num p.best_block
  · rw [if_pos hlt]
    constructor
    · show randpa.lib_inv
        (randpa.update_lib (randpa.on_proof_gained s p).1 p.best_block) = true
      apply lib_inv_intro
      show root_bid (prefix_tree.set_root (randpa.on_proof_gained s p).1._prefix_tree
          p.best_block) = some p.best_block
      exact root_bid_set_root _ _
    · show get_block_num s._lib ≤ get_block_num p.best_block
      exact Nat.le_of_lt hlt
  · rw [if_neg hlt]
    exact ⟨hinv, Nat.le_refl _⟩

theorem on_prevote_net_dispatch_tree_lib (p : randpa × List out_msg) (m : prevote_msg)
    (s1 : randpa) (o1 : List out_msg)
    (h : randpa.on_prevote_net_dispatch p m = some (s1, o1)) :
    root_bid s1._prefix_tree = root_bid p.1._prefix_tree ∧ s1._lib = p.1._lib := by
  unfold randpa.on_prevote_net_dispatch at h
  cases hr : p.1._round with
  | none =>
    rw [hr] at h
    replace h : some (p.1, p.2) = some (s1, o1) := h
    simp only [Option.some.injEq, Prod.mk.injEq] at h
    rw [← h.1]
    exact ⟨rfl, rfl⟩
  | some r =>
    rw [hr] at h
    replace h : (match randpa_round.on_prevote p.1._prefix_tree r m with
        | none => none
        | some (t', r') =>
          some (({ p.1 with _prefix_tree := t', _round := some r' } : randpa), p.2))
        = some (s1, o1) := h
    cases hp : randpa_round.on_prevote p.1._prefix_tree r m with
    | none => rw [hp] at h; exact absurd h (by simp)
    | some tr =>
      obtain ⟨t', r'⟩ := tr
      rw [hp] at h
      replace h : some (({ p.1 with _prefix_tree := t', _round := some r' } : randpa), p.2)
          = some (s1, o1) := h
      simp only [Option.some.injEq, Prod.mk.injEq] at h
      rw [← h.1]
      exact ⟨root_bid_on_prevote p.1._prefix_tree r m t' r' hp, rfl⟩

theorem on_prevote_net_core_tree_lib (s : randpa) (m : prevote_msg)
    (s1 : randpa) (o1 : List out_msg)
    (h : randpa.on_prevote_net_core s m = some (s1, o1)) :
    root_bid s1._prefix_tree = root_bid s._prefix_tree ∧ s1._lib = s._lib := by
  unfold randpa.on_prevote_net_core at h
  cases hh : prefix_tree.get_head s._prefix_tree with
  | none => rw [hh] at h; exact absurd h (by simp)
  | some hd =>
    rw [hh] at h
    replace h : randpa.on_prevote_net_dispatch
        (if round_num_of hd.block_id = m.data.round_num
         then randpa.bcast s (net_msg_data.prevote m) else (s, [])) m
        = some (s1, o1) := h
    by_cases hc : round_num_of hd.block_id = m.data.round_num
    · rw [if_pos hc] at h
      obtain ⟨ht, hl⟩ := on_prevote_net_dispatch_tree_lib _ m s1 o1 h
      constructor
      · rw [ht]
        exact congrArg root_bid ((bcast_fields s (net_msg_data.prevote m)).2.2.2.2)
      · rw [hl]
        exact bcast_lib s (net_msg_data.prevote m)
    · rw [if_neg hc] at h
      exact on_prevote_net_dispatch_tree_lib _ m s1 o1 h

theorem on_prevote_net_tree_lib (s : randpa) (ses : Nat) (m : prevote_msg)
    (s1 : randpa) (o1 : List out_msg)
    (h : randpa.on_prevote_net s ses m = some (s1, o1)) :
    root_bid s1._prefix_tree = root_bid s._prefix_tree ∧ s1._lib = s._lib := by
  unfold randpa.on_prevote_net at h
  by_cases c1 : (s._is_syncing || s._is_frozen) = true
  · rw [if_pos c1] at h
    simp only [Option.some.injEq, Prod.mk.injEq] at h
    rw [← h.1]
    exact ⟨rfl, rfl⟩
  · rw [if_neg c1] at h
    by_cases c2 : net_msg_data.prevote m ∈ s._self_messages
    · rw [if_pos c2] at h
      simp only [Option.some.injEq, Prod.mk.injEq] at h
      rw [← h.1]
      exact ⟨rfl, rfl⟩
    · rw [if_neg c2] at h
      exact on_prevote_net_core_tree_lib
        { s with _self_messages := net_msg_data.prevote m :: s._self_messages } m s1 o1 h

theorem on_precommit_net_dispatch_libmono (p : randpa × List out_msg)
    (m : precommit_msg) (s1 : randpa) (o1 : List out_msg)
    (hinv : randpa.lib_inv p.1 = true)
    (h : randpa.on_precommit_net_dispatch p m = some (s1, o1)) :
    randpa.lib_inv s1 = true
    ∧ get_block_num p.1._lib ≤ get_block_num s1._lib := by
  unfold randpa.on_precommit_net_dispatch at h
  cases hr : p.1._round with
  | none =>
    rw [hr] at h
    replace h : some (p.1, p.2) = some (s1, o1) := h
    simp only [Option.some.injEq, Prod.mk.injEq] at h
    rw [← h.1]
    exact ⟨hinv, Nat.le_refl _⟩
  | some r =>
    rw [hr] at h
    replace h : (match randpa_round.on_precommit r m with
        | none => none
        | some (r', fired) =>
          match fired with
          | none => some (({ p.1 with _round := some r' } : randpa), p.2)
          | some pr =>
            some ((randpa.finish_round_effects { p.1 with _round := some r' } pr).1,
                  p.2 ++ (randpa.finish_round_effects { p.1 with _round := some r' } pr).2))
        = some (s1, o1) := h
    cases hp : randpa_round.on_precommit r m with
    | none => rw [hp] at h; exact absurd h (by simp)
    | some rf =>
      obtain ⟨r', fired⟩ := rf
      rw [hp] at h
      cases fired with
      | none =>
        replace h : some (({ p.1 with _round := some r' } : randpa), p.2)
            = some (s1, o1) := h
        simp only [Option.some.injEq, Prod.mk.injEq] at h
        rw [← h.1]
        exact ⟨lib_inv_of_preserved p.1 _ rfl rfl hinv, Nat.le_refl _⟩
      | some pr =>
        replace h : some ((randpa.finish_round_effects { p.1 with _round := some r' } pr).1,
            p.2 ++ (randpa.finish_round_effects { p.1 with _round := some r' } pr).2)
            = some (s1, o1) := h
        simp only [Option.some.injEq, Prod.mk.injEq] at h
        rw [← h.1]
        have hinv' : randpa.lib_inv ({ p.1 with _round := some r' } : randpa) = true :=
          lib_inv_of_preserved p.1 _ rfl rfl hinv
        exact finish_round_effects_lib _ pr hinv'

theorem on_precommit_net_core_libmono (s : randpa) (m : precommit_msg)
    (s1 : randpa) (o1 : List out_msg) (hinv : randpa.lib_inv s = true)
    (h : randpa.on_precommit_net_core s m = some (s1, o1)) :
    randpa.lib_inv s1 = true ∧ get_block_num s._lib ≤ get_block_num s1._lib := by
  unfold randpa.on_precommit_net_core at h
  cases hh : prefix_tree.get_head s._prefix_tree with
  | none => rw [hh] at h; exact absurd h (by simp)
  | some hd =>
    rw [hh] at h
    replace h : randpa.on_precommit_net_dispatch
        (if round_num_of hd.block_id = m.data.round_num
         then randpa.bcast s (net_msg_data.precommit m) else (s, [])) m
        = some (s1, o1) := h
    by_cases hc : round_num_of hd.block_id = m.data.round_num
    · rw [if_pos hc] at h
      have hinvb : randpa.lib_inv (randpa.bcast s (net_msg_data.precommit m)).1 = true := by
        apply lib_inv_of_preserved s _ ?_ ?_ hinv
        · rw [(bcast_fields s (net_msg_data.precommit m)).2.2.2.2]
        · exact bcast_lib s (net_msg_data.precommit m)
      obtain ⟨ha, hb⟩ := on_precommit_net_dispatch_libmono _ m s1 o1 hinvb h
      refine ⟨ha, ?_⟩
      rw [← bcast_lib s (net_msg_data.precommit m)]
      exact hb
    · rw [if_neg hc] at h
      exact on_precommit_net_dispatch_libmono _ m s1 o1 hinv h

theorem on_precommit_net_libmono (s : randpa) (ses : Nat) (m : precommit_msg)
    (s1 : randpa) (o1 : List out_msg) (hinv : randpa.lib_inv s = true)
    (h : randpa.on_precommit_net s ses m = some (s1, o1)) :
    randpa.lib_inv s1 = true ∧ get_block_num s._lib ≤ get_block_num s1._lib := by
  unfold randpa.on_precommit_net at h
  by_cases c1 : (s._is_syncing || s._is_frozen) = true
  · rw [if_pos c1] at h
    simp only [Option.some.injEq, Prod.mk.injEq] at h
    rw [← h.1]
    exact ⟨hinv, Nat.le_refl _⟩
  · rw [if_neg c1] at h
    by_cases c2 : net_msg_data.precommit m ∈ s._self_messages
    · rw [if_pos c2] at h
      simp only [Option.some.injEq, Prod.mk.injEq] at h
      rw [← h.1]
      exact ⟨hinv, Nat.le_refl _⟩
    · rw [if_neg c2] at h
      have hinv' : randpa.lib_inv
          ({ s with _self_messages := net_msg_data.precommit m :: s._self_messages }
            : randpa) = true :=
        lib_inv_of_preserved s _ rfl rfl hinv
      exact on_precommit_net_core_libmono
        { s with _self_messages := net_msg_data.precommit m :: s._self_messages }
        m s1 o1 hinv' h

theorem on_finality_notice_fst (s : randpa) (ses : Nat) (m : finality_notice_msg) :
    (randpa.on_finality_notice s ses m).1 = s := by
  unfold randpa.on_finality_notice
  split_ifs <;> rfl

theorem on_finality_req_proof_fst (s : randpa) (ses : Nat)
    (m : finality_req_proof_msg) :
    (randpa.on_finality_req_proof s ses m).1 = s := by
  unfold randpa.on_finality_req_proof
  cases hf : s._last_proofs.find? (fun p => decide (p.round_num = m.data.round_num)) with
  | none => rfl
  | some p => rfl

theorem proof_msg_s1_tree_lib (s : randpa) (n : Nat) :
    ((match s._round with
      | some r =>
        if r.num = n then { s with _round := some { r with state := state_type.done } }
        else s
      | none => s) : randpa)._prefix_tree = s._prefix_tree
    ∧ ((match s._round with
      | some r =>
        if r.num = n then { s with _round := some { r with state := state_type.done } }
        else s
      | none => s) : randpa)._lib = s._lib := by
  cases s._round with
  | none => exact ⟨rfl, rfl⟩
  | some r =>
    constructor
    · show (if r.num = n
          then ({ s with _round := some { r with state := state_type.done } } : randpa)
          else s)._prefix_tree = s._prefix_tree
      split_ifs <;> rfl
    · show (if r.num = n
          then ({ s with _round := some { r with state := state_type.done } } : randpa)
          else s)._lib = s._lib
      split_ifs <;> rfl

theorem on_proof_msg_state_tree_lib (s : randpa) (ses : Nat) (m : proof_msg) :
    (randpa.on_proof_msg s ses m).1._prefix_tree = s._prefix_tree
    ∧ (randpa.on_proof_msg s ses m).1._lib = s._lib := by
  have hbody : randpa.on_proof_msg s ses m =
      (if (s._is_syncing || s._is_frozen) = true then (s, [])
       else if s._last_prooved_block_num ≥ get_block_num m.data.best_block then (s, [])
       else if get_block_num s._lib ≥ get_block_num m.data.best_block then (s, [])
       else if (match s._round with
                | some r => decide (r.state = state_type.done)
                | none => false) = true then (s, [])
       else if ¬ randpa.validate_proof s._prefix_tree m.data = true then (s, [])
       else randpa.on_proof_gained
         (match s._round with
          | some r =>
            if r.num = m.data.round_num
            then { s with _round := some { r with state := state_type.done } }
            else s
          | none => s) m.data) := rfl
  rw [hbody]
  split_ifs <;>
    first
      | exact ⟨rfl, rfl⟩
      | exact ⟨(on_proof_gained_tree_lib _ m.data).1.trans
            (proof_msg_s1_tree_lib s m.data.round_num).1,
          (on_proof_gained_tree_lib _ m.data).2.trans
            (proof_msg_s1_tree_lib s m.data.round_num).2⟩

theorem handshake_fold_tree_lib (ses : Nat) (ks : List public_key_type) :
    ∀ p : randpa × List out_msg,
      ((List.foldl (fun acc k =>
          (({ acc.1 with _peers := randpa.peers_set acc.1._peers k ses } : randpa),
           acc.2 ++ [out_msg.net ses (net_msg_data.handshake_ans
             ⟨⟨acc.1._lib⟩, acc.1._signature_providers⟩)])) p ks).1._prefix_tree
        = p.1._prefix_tree)
      ∧ ((List.foldl (fun acc k =>
          (({ acc.1 with _peers := randpa.peers_set acc.1._peers k ses } : randpa),
           acc.2 ++ [out_msg.net ses (net_msg_data.handshake_ans
             ⟨⟨acc.1._lib⟩, acc.1._signature_providers⟩)])) p ks).1._lib
        = p.1._lib) := by
  induction ks with
  | nil => intro p; exact ⟨rfl, rfl⟩
  | cons k rest ih =>
    intro p
    rw [List.foldl_cons]
    exact ⟨(ih _).1, (ih _).2⟩

theorem on_handshake_tree_lib (s : randpa) (ses : Nat) (m : handshake_msg) :
    (randpa.on_handshake s ses m).1._prefix_tree = s._prefix_tree
    ∧ (randpa.on_handshake s ses m).1._lib = s._lib :=
  ⟨(handshake_fold_tree_lib ses m.public_keys (s, [])).1,
   (handshake_fold_tree_lib ses m.public_keys (s, [])).2⟩

theorem handshake_ans_fold_tree_lib (ses : Nat) (ks : List public_key_type) :
    ∀ s : randpa,
      ((List.foldl (fun acc k =>
          ({ acc with _peers := randpa.peers_set acc._peers k ses } : randpa)) s
          ks)._prefix_tree = s._prefix_tree)
      ∧ ((List.foldl (fun acc k =>
          ({ acc with _peers := randpa.peers_set acc._peers k ses } : randpa)) s
          ks)._lib = s._lib) := by
  induction ks with
  | nil => intro s; exact ⟨rfl, rfl⟩
  | cons k rest ih =>
    intro s
    rw [List.foldl_cons]
    exact ⟨(ih _).1, (ih _).2⟩

theorem on_handshake_ans_tree_lib (s : randpa) (ses : Nat) (m : handshake_ans_msg) :
    (randpa.on_handshake_ans s ses m).1._prefix_tree = s._prefix_tree
    ∧ (randpa.on_handshake_ans s ses m).1._lib = s._lib :=
  ⟨(handshake_ans_fold_tree_lib ses m.public_keys s).1,
   (handshake_ans_fold_tree_lib ses m.public_keys s).2⟩

theorem new_round_fn_libmono (s : randpa) (n : Nat) (primary : public_key_type)
    (active : Finset public_key_type) (s' : randpa) (outs : List out_msg)
    (hinv : randpa.lib_inv s = true)
    (h : randpa.new_round_fn s n primary active = some (s', outs)) :
    randpa.lib_inv s' = true ∧ s'._lib = s._lib := by
  unfold randpa.new_round_fn at h
  cases hm : randpa_round.make n primary s._prefix_tree
      (randpa.get_active_signature_providers s active) with
  | none => rw [hm] at h; exact absurd h (by simp)
  | some tr =>
    obtain ⟨t', r', bcs⟩ := tr
    rw [hm] at h
    replace h : some (randpa.bcast_prevote_list
        { s with _prefix_tree := t', _round := some r' } bcs) = some (s', outs) := h
    simp only [Option.some.injEq] at h
    have h1 : (randpa.bcast_prevote_list
        { s with _prefix_tree := t', _round := some r' } bcs).1._prefix_tree = t' :=
      (bcast_prevote_fold_tree_lib bcs
        ({ s with _prefix_tree := t', _round := some r' }, [])).1
    have h2 : (randpa.bcast_prevote_list
        { s with _prefix_tree := t', _round := some r' } bcs).1._lib = s._lib :=
      (bcast_prevote_fold_tree_lib bcs
        ({ s with _prefix_tree := t', _round := some r' }, [])).2
    rw [h] at h1 h2
    refine ⟨lib_inv_of_preserved s s' ?_ h2 hinv, h2⟩
    have h3 : s'._prefix_tree = t' := h1
    rw [h3]
    exact root_bid_make _ _ _ _ _ _ _ hm

theorem accepted_round_phase_libmono (s : randpa) (e : on_accepted_block_event)
    (s' : randpa) (outs : List out_msg) (hinv : randpa.lib_inv s = true)
    (h : randpa.accepted_round_phase s e = some (s', outs)) :
    randpa.lib_inv s' = true ∧ s'._lib = s._lib := by
  unfold randpa.accepted_round_phase at h
  by_cases h1 : randpa.should_start_round s e.block_id = true
  · rw [if_pos h1] at h
    by_cases h2 : randpa.is_active_bp (randpa.remove_round s) e.block_id = true
    · rw [if_pos h2] at h
      have hinv' : randpa.lib_inv (randpa.remove_round s) = true :=
        lib_inv_of_preserved s _ (root_bid_remove_confirmations s._prefix_tree) rfl hinv
      exact new_round_fn_libmono (randpa.remove_round s) _ _ _ _ _ hinv' h
    · rw [if_neg h2] at h
      simp only [Option.some.injEq, Prod.mk.injEq] at h
      rw [← h.1]
      exact ⟨lib_inv_of_preserved s _
        (root_bid_remove_confirmations s._prefix_tree) rfl hinv, rfl⟩
  · rw [if_neg h1] at h
    simp only [Option.some.injEq, Prod.mk.injEq] at h
    rw [← h.1]
    exact ⟨hinv, rfl⟩

theorem accepted_fire_phase_libmono (q : randpa × List out_msg)
    (fired : Option proof_type) (outs : List out_msg) (s' : randpa)
    (outs' : List out_msg) (hinv : randpa.lib_inv q.1 = true)
    (h : randpa.accepted_fire_phase q fired outs = some (s', outs')) :
    randpa.lib_inv s' = true
    ∧ get_block_num q.1._lib ≤ get_block_num s'._lib := by
  cases fired with
  | none =>
    unfold randpa.accepted_fire_phase at h
    simp only [Option.some.injEq, Prod.mk.injEq] at h
    rw [← h.1]
    exact ⟨hinv, Nat.le_refl _⟩
  | some pr =>
    unfold randpa.accepted_fire_phase at h
    simp only [Option.some.injEq, Prod.mk.injEq] at h
    rw [← h.1]
    exact finish_round_effects_lib q.1 pr hinv

theorem accepted_end_phase_libmono (p : randpa × List out_msg)
    (e : on_accepted_block_event) (s' : randpa) (outs : List out_msg)
    (hinv : randpa.lib_inv p.1 = true)
    (h : randpa.accepted_end_phase p e = some (s', outs)) :
    randpa.lib_inv s' = true
    ∧ get_block_num p.1._lib ≤ get_block_num s'._lib := by
  unfold randpa.accepted_end_phase at h
  by_cases h1 : randpa.should_end_prevote p.1 e.block_id = true
  · rw [if_pos h1] at h
    cases hr : p.1._round with
    | none => rw [hr] at h; exact absurd h (by simp)
    | some r =>
      rw [hr] at h
      replace h : (match randpa_round.end_prevote r with
          | none => none
          | some (r', fired, bc) =>
            randpa.accepted_fire_phase
              (randpa.bcast_precommit_list { p.1 with _round := some r' } bc) fired p.2)
          = some (s', outs) := h
      cases he : randpa_round.end_prevote r with
      | none => rw [he] at h; exact absurd h (by simp)
      | some tr =>
        obtain ⟨r', fired, bc⟩ := tr
        rw [he] at h
        replace h : randpa.accepted_fire_phase
            (randpa.bcast_precommit_list { p.1 with _round := some r' } bc) fired p.2
            = some (s', outs) := h
        have hft : (randpa.bcast_precommit_list
            { p.1 with _round := some r' } bc).1._prefix_tree = p.1._prefix_tree :=
          (bcast_precommit_fold_tree_lib bc (({ p.1 with _round := some r' } : randpa),
            [])).1
        have hfl : (randpa.bcast_precommit_list
            { p.1 with _round := some r' } bc).1._lib = p.1._lib :=
          (bcast_precommit_fold_tree_lib bc (({ p.1 with _round := some r' } : randpa),
            [])).2
        have hq : randpa.lib_inv (randpa.bcast_precommit_list
            { p.1 with _round := some r' } bc).1 = true := by
          apply lib_inv_of_preserved p.1 _ ?_ hfl hinv
          rw [hft]
        obtain ⟨ha, hb⟩ := accepted_fire_phase_libmono _ fired p.2 s' outs hq h
        refine ⟨ha, ?_⟩
        rw [← hfl]
        exact hb
  · rw [if_neg h1] at h
    simp only [Option.some.injEq, Prod.mk.injEq] at h
    rw [← h.1]
    exact ⟨hinv, Nat.le_refl _⟩

theorem on_accepted_block_libmono (s : randpa) (e : on_accepted_block_event)
    (s' : randpa) (outs : List out_msg) (hinv : randpa.lib_inv s = true)
    (h : randpa.on_accepted_block s e = some (s', outs)) :
    randpa.lib_inv s' = true
    ∧ get_block_num s._lib ≤ get_block_num s'._lib := by
  unfold randpa.on_accepted_block at h
  cases hins : prefix_tree.insert s._prefix_tree e.prev_block_id [e.block_id]
      e.creator_key e.active_bp_keys with
  | none =>
    rw [hins] at h
    replace h : some (s, ([] : List out_msg)) = some (s', outs) := h
    simp only [Option.some.injEq, Prod.mk.injEq] at h
    rw [← h.1]
    exact ⟨hinv, Nat.le_refl _⟩
  | some t1 =>
    rw [hins] at h
    replace h : (if (randpa.accepted_flags_update s t1 e)._is_syncing
          || (randpa.accepted_flags_update s t1 e)._is_frozen then
        some (randpa.accepted_flags_update s t1 e, ([] : List out_msg))
      else
        match randpa.accepted_round_phase (randpa.accepted_flags_update s t1 e) e with
        | none => none
        | some p => randpa.accepted_end_phase p e) = some (s', outs) := h
    have hinvf : randpa.lib_inv (randpa.accepted_flags_update s t1 e) = true := by
      apply lib_inv_of_preserved s (randpa.accepted_flags_update s t1 e) ?_ rfl hinv
      show root_bid t1 = root_bid s._prefix_tree
      exact root_bid_insert _ _ _ _ _ _ hins
    by_cases hg : ((randpa.accepted_flags_update s t1 e)._is_syncing
        || (randpa.accepted_flags_update s t1 e)._is_frozen) = true
    · rw [if_pos hg] at h
      simp only [Option.some.injEq, Prod.mk.injEq] at h
      rw [← h.1]
      exact ⟨hinvf, Nat.le_refl _⟩
    · rw [if_neg hg] at h
      cases hp : randpa.accepted_round_phase (randpa.accepted_flags_update s t1 e) e with
      | none => rw [hp] at h; exact absurd h (by simp)
      | some pq =>
        obtain ⟨p1, p2⟩ := pq
        rw [hp] at h
        replace h : randpa.accepted_end_phase (p1, p2) e = some (s', outs) := h
        obtain ⟨hi1, hl1⟩ := accepted_round_phase_libmono _ e p1 p2 hinvf hp
        obtain ⟨hi2, hl2⟩ := accepted_end_phase_libmono (p1, p2) e s' outs hi1 h
        refine ⟨hi2, ?_⟩
        have hle : get_block_num p1._lib ≤ get_block_num s'._lib := hl2
        rw [hl1] at hle
        exact hle

theorem handle_lib_step (s : randpa) (i : randpa_input) (s' : randpa)
    (outs : List out_msg) (hinv : randpa.lib_inv s = true)
    (h : randpa.handle s i = some (s', outs)) :
    randpa.lib_inv s' = true
    ∧ get_block_num s._lib ≤ get_block_num s'._lib := by
  cases i with
  | net_prevote ses m =>
    obtain ⟨ht, hl⟩ := on_prevote_net_tree_lib s ses m s' outs h
    refine ⟨lib_inv_of_preserved s s' ht hl hinv, ?_⟩
    rw [hl]
  | net_precommit ses m =>
    exact on_precommit_net_libmono s ses m s' outs hinv h
  | net_finality_notice ses m =>
    replace h : some (randpa.on_finality_notice s ses m) = some (s', outs) := h
    simp only [Option.some.injEq] at h
    have h1 : s' = (randpa.on_finality_notice s ses m).1 := by rw [h]
    rw [on_finality_notice_fst] at h1
    subst h1
    exact ⟨hinv, Nat.le_refl _⟩
  | net_finality_req_proof ses m =>
    replace h : some (randpa.on_finality_req_proof s ses m) = some (s', outs) := h
    simp only [Option.some.injEq] at h
    have h1 : s' = (randpa.on_finality_req_proof s ses m).1 := by rw [h]
    rw [on_finality_req_proof_fst] at h1
    subst h1
    exact ⟨hinv, Nat.le_refl _⟩
  | net_proof ses m =>
    replace h : some (randpa.on_proof_msg s ses m) = some (s', outs) := h
    simp only [Option.some.injEq] at h
    have h1 : s' = (randpa.on_proof_msg s ses m).1 := by rw [h]
    obtain ⟨ht, hl⟩ := on_proof_msg_state_tree_lib s ses m
    rw [← h1] at ht hl
    refine ⟨lib_inv_of_preserved s s' (by rw [ht]) hl hinv, ?_⟩
    rw [hl]
  | net_handshake ses m =>
    replace h : some (randpa.on_handshake s ses m) = some (s', outs) := h
    simp only [Option.some.injEq] at h
    have h1 : s' = (randpa.on_handshake s ses m).1 := by rw [h]
    obtain ⟨ht, hl⟩ := on_handshake_tree_lib s ses m
    rw [← h1] at ht hl
    refine ⟨lib_inv_of_preserved s s' (by rw [ht]) hl hinv, ?_⟩
    rw [hl]
  | net_handshake_ans ses m =>
    replace h : some (randpa.on_handshake_ans s ses m) = some (s', outs) := h
    simp only [Option.some.injEq] at h
    have h1 : s' = (randpa.on_handshake_ans s ses m).1 := by rw [h]
    obtain ⟨ht, hl⟩ := on_handshake_ans_tree_lib s ses m
    rw [← h1] at ht hl
    refine ⟨lib_inv_of_preserved s s' (by rw [ht]) hl hinv, ?_⟩
    rw [hl]
  | ev_accepted_block e =>
    exact on_accepted_block_libmono s e s' outs hinv h
  | ev_irreversible e =>
    replace h : randpa.on_irreversible s e = some (s', outs) := h
    unfold randpa.on_irreversible at h
    cases hr : prefix_tree.get_root s._prefix_tree with
    | none => rw [hr] at h; exact absurd h (by simp)
    | some rt =>
      rw [hr] at h
      replace h : (if get_block_num e.block_id ≤ get_block_num rt.block_id
          then some (s, ([] : List out_msg))
          else some (randpa.update_lib s e.block_id, [])) = some (s', outs) := h
      by_cases hle : get_block_num e.block_id ≤ get_block_num rt.block_id
      · rw [if_pos hle] at h
        simp only [Option.some.injEq, Prod.mk.injEq] at h
        rw [← h.1]
        exact ⟨hinv, Nat.le_refl _⟩
      · rw [if_neg hle] at h
        simp only [Option.some.injEq, Prod.mk.injEq] at h
        rw [← h.1]
        constructor
        · apply lib_inv_intro
          show root_bid (prefix_tree.set_root s._prefix_tree e.block_id)
            = some e.block_id
          exact root_bid_set_root _ _
        · show get_block_num s._lib ≤ get_block_num e.block_id
          have he := lib_inv_elim s hinv
          have hbid : rt.block_id = s._lib := by
            unfold root_bid at he
            rw [hr] at he
            simpa using he
          rw [← hbid]
          omega
  | ev_new_peer e =>
    replace h : some (randpa.on_new_peer s e) = some (s', outs) := h
    simp only [Option.some.injEq] at h
    have h1 : s' = (randpa.on_new_peer s e).1 := by rw [h]
    replace h1 : s' = s := h1
    subst h1
    exact ⟨hinv, Nat.le_refl _⟩

/-- C8: from any engine state satisfying the startup invariant "the tree root
is `_lib`" (established by `start` and preserved by every handler), the block
number of `_lib` never decreases along any sequence of successfully handled
inputs — `on_irreversible` only raises it past the root's number and
`finish_round` only updates it under `block_num(_lib) < block_num(best)`;
both re-root the tree at the new `_lib`. -/
theorem C8_lib_monotone {s q : randpa} (hinv : randpa.lib_inv s = true)
    (h : randpa.reachable s q) :
    get_block_num s._lib ≤ get_block_num q._lib := by
  have main : randpa.lib_inv q = true
      ∧ get_block_num s._lib ≤ get_block_num q._lib := by
    induction h with
    | refl => exact ⟨hinv, Nat.le_refl _⟩
    | tail i hr hs ih =>
      obtain ⟨hq, hle⟩ := ih
      obtain ⟨h1, h2⟩ := handle_lib_step _ i _ _ hq hs
      exact ⟨h1, hle.trans h2⟩
  exact main.2

/-- Witness for C8: the freeze-scenario engine (root = lib = block 1) after
the accepted-block event for block 3314. -/
theorem C8_lib_monotone_witness :
    randpa.lib_inv cw4_s0 = true
    ∧ get_block_num cw4_s0._lib ≤ get_block_num cw4_s1._lib :=
  ⟨by decide,
   C8_lib_monotone (by decide)
     (@randpa.reachable.tail cw4_s0 cw4_s0 cw4_s1 []
       (randpa_input.ev_accepted_block cw4_e1)
       (randpa.reachable.refl cw4_s0) (by decide))⟩

end RandpaModel
